import Mathlib

/-!
# ChessGameVs.AI: move applier, attack oracle, legal move generator, search

A shallow embedding of `src/mainCode.cpp`.

* A `char` is an `Int` holding its ASCII code (`ch 'K' = 75`); `tolower` and `abs`
  are the C library functions on such integers.
* `Board` is the 8x8 grid `char [8][8]`.  The source indexes it with plain `int`s;
  `getCell` / `setCell` take `Int` coordinates.  An index outside `0..7` is undefined
  behaviour in C: the model reads `0` there and drops the write.  The generator and
  the attack oracle guard every access with `isInsideBoard`, so this only concerns
  `execute_move_on_board` on a move that leaves the board or on a sideways pawn
  step from the wrong rank, neither of which the generator produces from a position
  whose en-passant target is a square of the board or (-1, -1).
* The global variables other than the board (six moved flags, en-passant target) are
  the record `Globals`; the whole live position is `GameState`.
* `execute_move_on_board` receives the board it works on as an argument but writes the
  flags and the en-passant target to the *global* variables, whichever board it was
  given.  The model therefore threads `Globals` through every call, also through the
  legality probes of `generateLegalMoves`.
* `movesList` is a `List ChessMove` (the C array has room for 256 entries).
* Scores are `Int`: the material sum of 64 cells stays far inside the range of a C
  `int`, so no arithmetic wraps.
* Loops over an index range are folds over the list of indices; the two `while`
  loops that walk a ray take a step budget, and 8 steps always leave the board.
-/

namespace Chess

/-! ## Characters -/

/-- The integer value of a character literal, as C sees it. -/
def ch (c : Char) : Int := c.toNat

/-- The empty square, `#define EMPTY_CELL '.'`. -/
def EMPTY_CELL : Int := ch '.'

/-- Source `#define SIDE_WHITE 0`. -/
def SIDE_WHITE : Int := 0

/-- Source `#define SIDE_BLACK 1`. -/
def SIDE_BLACK : Int := 1

/-- C library `tolower` on the ASCII range. -/
def tolower (x : Int) : Int := if 65 ≤ x ∧ x ≤ 90 then x + 32 else x

/-- C library `abs`. -/
def abs (x : Int) : Int := if x < 0 then -x else x

/-- Source `isPieceWhite`: the symbol is an uppercase letter. -/
def isPieceWhite (symbol : Int) : Bool := decide (ch 'A' ≤ symbol ∧ symbol ≤ ch 'Z')

/-- Source `isPieceBlack`: the symbol is a lowercase letter. -/
def isPieceBlack (symbol : Int) : Bool := decide (ch 'a' ≤ symbol ∧ symbol ≤ ch 'z')

/-- Source `isInsideBoard`: both coordinates are within `0..7`. -/
def isInsideBoard (row col : Int) : Bool := decide (0 ≤ row ∧ row < 8 ∧ 0 ≤ col ∧ col < 8)

/-! ## Data model -/

/-- The grid `char chessBoard[8][8]`. -/
abbrev Board := Fin 8 → Fin 8 → Int

/-- Read `boardState[row][col]`. -/
def getCell (b : Board) (row col : Int) : Int :=
  if h : 0 ≤ row ∧ row < 8 ∧ 0 ≤ col ∧ col < 8 then
    b ⟨row.toNat, by omega⟩ ⟨col.toNat, by omega⟩
  else 0

/-- Write `boardState[row][col] = v`. -/
def setCell (b : Board) (row col : Int) (v : Int) : Board :=
  fun i j => if (i.val : Int) = row ∧ (j.val : Int) = col then v else b i j

/-- Source `clone_board`: copies all 64 cells of `source` into the destination array. -/
def clone_board (source : Board) : Board := fun i j => source i j

/-- Source `struct ChessMove`. -/
structure ChessMove where
  src_row : Int
  src_col : Int
  dst_row : Int
  dst_col : Int
  promoteTo : Int
deriving DecidableEq, Repr

/-- The global variables besides the board. -/
structure Globals where
  whiteKingMoved : Int
  whiteQRookMoved : Int
  whiteKRookMoved : Int
  blackKingMoved : Int
  blackQRookMoved : Int
  blackKRookMoved : Int
  enPassantTargetRow : Int
  enPassantTargetCol : Int
deriving DecidableEq, Repr

/-- The live position: the global board and the other globals. -/
structure GameState where
  chessBoard : Board
  globals : Globals

/-- The values `main` gives the globals before the first move. -/
def initGlobals : Globals := ⟨0, 0, 0, 0, 0, 0, -1, -1⟩

/-- One back rank, files a to h: the letters r n b q k b n r, uppercase for White. -/
def backRank (upper : Bool) (c : Fin 8) : Int :=
  let l : Int := match c.val with
    | 0 => ch 'r' | 1 => ch 'n' | 2 => ch 'b' | 3 => ch 'q'
    | 4 => ch 'k' | 5 => ch 'b' | 6 => ch 'n' | _ => ch 'r'
  if upper then l - 32 else l

/-- Source `initialize_board`: every cell of the grid is assigned; the result is the
standard starting position. -/
def initialize_board : Board := fun r c =>
  if r.val = 0 then backRank false c
  else if r.val = 1 then ch 'p'
  else if r.val = 6 then ch 'P'
  else if r.val = 7 then backRank true c
  else EMPTY_CELL

/-- The state `main` starts from. -/
def initState : GameState := ⟨initialize_board, initGlobals⟩

/-! ## Save and restore -/

/-- Source `save_state`: the nine local copies, as one snapshot. -/
def save_state (s : GameState) : GameState :=
  { chessBoard := clone_board s.chessBoard
    globals :=
      { whiteKingMoved := s.globals.whiteKingMoved
        whiteQRookMoved := s.globals.whiteQRookMoved
        whiteKRookMoved := s.globals.whiteKRookMoved
        blackKingMoved := s.globals.blackKingMoved
        blackQRookMoved := s.globals.blackQRookMoved
        blackKRookMoved := s.globals.blackKRookMoved
        enPassantTargetRow := s.globals.enPassantTargetRow
        enPassantTargetCol := s.globals.enPassantTargetCol } }

/-- Source `restore_state`: writes the snapshot back over the live position `cur`. -/
def restore_state (saved : GameState) (cur : GameState) : GameState :=
  { cur with
    chessBoard := clone_board saved.chessBoard
    globals :=
      { cur.globals with
        whiteKingMoved := saved.globals.whiteKingMoved
        whiteQRookMoved := saved.globals.whiteQRookMoved
        whiteKRookMoved := saved.globals.whiteKRookMoved
        blackKingMoved := saved.globals.blackKingMoved
        blackQRookMoved := saved.globals.blackQRookMoved
        blackKRookMoved := saved.globals.blackKRookMoved
        enPassantTargetRow := saved.globals.enPassantTargetRow
        enPassantTargetCol := saved.globals.enPassantTargetCol } }

/-! ## Move applier -/

/-- The statement `if (pieceSymbol == 'K') whiteKingMoved = 1; else blackKingMoved = 1;`
(it occurs in the castling branch and in the normal branch). -/
def markKingMoved (pieceSymbol : Int) (g : Globals) : Globals :=
  if pieceSymbol = ch 'K' then { g with whiteKingMoved := 1 }
  else { g with blackKingMoved := 1 }

/-- The block `if (tolower(pieceSymbol) == 'r') { ... }` of the normal branch: the
rook-moved flag of the corner the rook leaves. -/
def markRookMoved (pieceSymbol : Int) (move : ChessMove) (g : Globals) : Globals :=
  if tolower pieceSymbol = ch 'r' then
    if pieceSymbol = ch 'R' then
      let ga : Globals :=
        if move.src_row = 7 ∧ move.src_col = 0 then { g with whiteQRookMoved := 1 } else g
      if move.src_row = 7 ∧ move.src_col = 7 then { ga with whiteKRookMoved := 1 } else ga
    else
      let ga : Globals :=
        if move.src_row = 0 ∧ move.src_col = 0 then { g with blackQRookMoved := 1 } else g
      if move.src_row = 0 ∧ move.src_col = 7 then { ga with blackKRookMoved := 1 } else ga
  else g

/-- The block `if (tolower(pieceSymbol) == 'p' && abs(dst_row - src_row) == 2) { ... }`
of the normal branch: the en-passant target of a two-square pawn advance.  The C
division `/ 2` truncates towards zero. -/
def markEnPassant (pieceSymbol : Int) (move : ChessMove) (g : Globals) : Globals :=
  if tolower pieceSymbol = ch 'p' ∧ abs (move.dst_row - move.src_row) = 2 then
    { g with enPassantTargetRow := Int.tdiv (move.src_row + move.dst_row) 2,
             enPassantTargetCol := move.src_col }
  else g

/-- Source `execute_move_on_board(boardState, move)`: returns the board it was given after
the move, and the global variables after the call. -/
def execute_move_on_board (boardState : Board) (move : ChessMove) (g : Globals) :
    Board × Globals :=
  -- Clear en passant target (it lasts only one move).
  let g0 : Globals := { g with enPassantTargetRow := -1, enPassantTargetCol := -1 }
  let pieceSymbol := getCell boardState move.src_row move.src_col
  if tolower pieceSymbol = ch 'k' ∧ abs (move.dst_col - move.src_col) = 2 then
    -- Castling
    let b1 := setCell boardState move.src_row move.src_col EMPTY_CELL
    let b2 := setCell b1 move.dst_row move.dst_col pieceSymbol
    let rook := if pieceSymbol = ch 'K' then ch 'R' else ch 'r'
    let b3 :=
      if move.dst_col > move.src_col then
        setCell (setCell b2 move.src_row 7 EMPTY_CELL) move.src_row (move.dst_col - 1) rook
      else
        setCell (setCell b2 move.src_row 0 EMPTY_CELL) move.src_row (move.dst_col + 1) rook
    (b3, markKingMoved pieceSymbol g0)
  else if tolower pieceSymbol = ch 'p' ∧ abs (move.dst_col - move.src_col) = 1 ∧
      getCell boardState move.dst_row move.dst_col = EMPTY_CELL then
    -- En Passant Capture
    let b1 := setCell boardState move.src_row move.src_col EMPTY_CELL
    let b2 := setCell b1 move.dst_row move.dst_col pieceSymbol
    let b3 :=
      if pieceSymbol = ch 'P' then setCell b2 (move.dst_row + 1) move.dst_col EMPTY_CELL
      else setCell b2 (move.dst_row - 1) move.dst_col EMPTY_CELL
    (b3, g0)
  else
    -- Normal Move
    let b1 := setCell boardState move.src_row move.src_col EMPTY_CELL
    let pieceSymbol := if move.promoteTo ≠ 0 then move.promoteTo else pieceSymbol
    let b2 := setCell b1 move.dst_row move.dst_col pieceSymbol
    -- Update castling rights if a king or rook moves.
    let g1 : Globals := if tolower pieceSymbol = ch 'k' then markKingMoved pieceSymbol g0 else g0
    let g2 : Globals := markRookMoved pieceSymbol move g1
    -- Set en passant target if a pawn moves two squares forward.
    (b2, markEnPassant pieceSymbol move g2)

/-- Source `execute_move_on_board(chessBoard, move)`: the call on the live board. -/
def execute_live (s : GameState) (move : ChessMove) : GameState :=
  let r := execute_move_on_board s.chessBoard move s.globals
  { chessBoard := r.1, globals := r.2 }

/-! ## Attack oracle -/

/-- The knight offsets, in the order of the source's `knightOffsets` / `knightJumps`. -/
def knightOffsets : List (Int × Int) :=
  [(-2, -1), (-2, 1), (-1, -2), (-1, 2), (1, -2), (1, 2), (2, -1), (2, 1)]

/-- The rook directions `linearDirs` / `rookDirs`. -/
def linearDirs : List (Int × Int) := [(1, 0), (-1, 0), (0, 1), (0, -1)]

/-- The bishop directions `diagDirs` / `bishopDirs`. -/
def diagDirs : List (Int × Int) := [(1, 1), (1, -1), (-1, 1), (-1, -1)]

/-- The inner `while (isInsideBoard(newRow, newCol))` loop of `isCellAttacked`: walks
from `(newRow, newCol)` in direction `(dRow, dCol)` to the first occupied square and
answers whether it holds one of the two attacking pieces (`w1`, `w2` for White as
attacker, `b1`, `b2` for Black).  `true` is the `return 1`, `false` is leaving the
loop (by `break` or by walking off the board). -/
def rayAttack (boardState : Board) (attackerSide : Int) (w1 w2 b1 b2 : Int)
    (dRow dCol : Int) : Nat → Int → Int → Bool
  | 0, _, _ => false
  | fuel + 1, newRow, newCol =>
    if isInsideBoard newRow newCol then
      let piece := getCell boardState newRow newCol
      if piece ≠ EMPTY_CELL then
        if attackerSide = SIDE_WHITE then decide (piece = w1 ∨ piece = w2)
        else decide (piece = b1 ∨ piece = b2)
      else rayAttack boardState attackerSide w1 w2 b1 b2 dRow dCol fuel
        (newRow + dRow) (newCol + dCol)
    else false

/-- Source `isCellAttacked(boardState, row, col, attackerSide)`. -/
def isCellAttacked (boardState : Board) (row col : Int) (attackerSide : Int) : Bool :=
  -- Pawn attacks.
  let pawnRow := if attackerSide = SIDE_WHITE then row + 1 else row - 1
  let pawn := if attackerSide = SIDE_WHITE then ch 'P' else ch 'p'
  if isInsideBoard pawnRow (col - 1) ∧ getCell boardState pawnRow (col - 1) = pawn then true
  else if isInsideBoard pawnRow (col + 1) ∧ getCell boardState pawnRow (col + 1) = pawn then true
  -- Knight moves.
  else if knightOffsets.any (fun o =>
      isInsideBoard (row + o.1) (col + o.2) &&
      (decide (attackerSide = SIDE_WHITE ∧ getCell boardState (row + o.1) (col + o.2) = ch 'N') ||
       decide (attackerSide = SIDE_BLACK ∧ getCell boardState (row + o.1) (col + o.2) = ch 'n')))
    then true
  -- Rook/Queen linear moves.
  else if linearDirs.any (fun d =>
      rayAttack boardState attackerSide (ch 'R') (ch 'Q') (ch 'r') (ch 'q') d.1 d.2 8
        (row + d.1) (col + d.2))
    then true
  -- Bishop/Queen diagonal moves.
  else if diagDirs.any (fun d =>
      rayAttack boardState attackerSide (ch 'B') (ch 'Q') (ch 'b') (ch 'q') d.1 d.2 8
        (row + d.1) (col + d.2))
    then true
  -- King adjacent attack.
  else
    ([-1, 0, 1] : List Int).any (fun dr => ([-1, 0, 1] : List Int).any (fun dc =>
      !(decide (dr = 0 ∧ dc = 0)) &&
      isInsideBoard (row + dr) (col + dc) &&
      (decide (attackerSide = SIDE_WHITE ∧ getCell boardState (row + dr) (col + dc) = ch 'K') ||
       decide (attackerSide = SIDE_BLACK ∧ getCell boardState (row + dr) (col + dc) = ch 'k'))))

/-- The indices `0..7` of a `for` loop over a rank or a file. -/
def idx8 : List Int := [0, 1, 2, 3, 4, 5, 6, 7]

/-- All squares in the order of the nested `for (r) for (c)` loops. -/
def allSquares : List (Int × Int) := idx8.flatMap (fun r => idx8.map (fun c => (r, c)))

/-- The king search of `isKingInCheck`: the first square in row-major order that
holds `kingSymbol`. -/
def findKing (boardState : Board) (kingSymbol : Int) : Option (Int × Int) :=
  allSquares.find? (fun p => decide (getCell boardState p.1 p.2 = kingSymbol))

/-- Source `isKingInCheck(boardState, side)`. -/
def isKingInCheck (boardState : Board) (side : Int) : Bool :=
  let kingSymbol := if side = SIDE_WHITE then ch 'K' else ch 'k'
  match findKing boardState kingSymbol with
  | none => true -- Missing king => consider it in check.
  | some (kingRow, kingCol) =>
    let opponent := if side = SIDE_WHITE then SIDE_BLACK else SIDE_WHITE
    isCellAttacked boardState kingRow kingCol opponent

/-! ## Legal move generator -/

/-- The accumulator of `generateLegalMoves`: `movesList` (with `moveCount` its length)
and the global variables, which every probe writes. -/
abbrev Gen := List ChessMove × Globals

/-- The probe repeated for every candidate of `generateLegalMoves`:
`clone_board(chessBoard, boardCopy); execute_move_on_board(boardCopy, mv);`
`if (!isKingInCheck(boardCopy, side)) movesList[moveCount++] = mv;`. -/
def tryMove (chessBoard : Board) (side : Int) (mv : ChessMove) (st : Gen) : Gen :=
  let r := execute_move_on_board (clone_board chessBoard) mv st.2
  (if !isKingInCheck r.1 side then st.1 ++ [mv] else st.1, r.2)

/-- The test `(side == SIDE_WHITE && isPieceBlack(target)) ||`
`(side == SIDE_BLACK && isPieceWhite(target))`. -/
def isEnemy (side : Int) (target : Int) : Bool :=
  (decide (side = SIDE_WHITE) && isPieceBlack target) ||
  (decide (side = SIDE_BLACK) && isPieceWhite target)

/-- The pawn branch of `generateLegalMoves` for the pawn on `(r, c)`. -/
def genPawn (chessBoard : Board) (side : Int) (r c : Int) (st : Gen) : Gen :=
  let direction : Int := if side = SIDE_WHITE then -1 else 1
  let startRow : Int := if side = SIDE_WHITE then 6 else 1
  let promotionRow : Int := if side = SIDE_WHITE then 0 else 7
  let nextRow := r + direction
  let promo : Int :=
    if nextRow = promotionRow then (if side = SIDE_WHITE then ch 'Q' else ch 'q') else 0
  -- Single square forward.
  let st1 : Gen :=
    if isInsideBoard nextRow c ∧ getCell chessBoard nextRow c = EMPTY_CELL then
      let mv : ChessMove := ⟨r, c, nextRow, c, promo⟩
      let s := tryMove chessBoard side mv st
      -- Two-square move.
      if r = startRow ∧ getCell chessBoard (r + direction) c = EMPTY_CELL ∧
          isInsideBoard (r + 2 * direction) c ∧
          getCell chessBoard (r + 2 * direction) c = EMPTY_CELL then
        tryMove chessBoard side { mv with dst_row := r + 2 * direction, promoteTo := 0 } s
      else s
    else st
  -- Pawn captures.
  let st2 : Gen :=
    ([-1, 1] : List Int).foldl (fun s dc =>
      let captureCol := c + dc
      if isInsideBoard nextRow captureCol ∧ getCell chessBoard nextRow captureCol ≠ EMPTY_CELL then
        if isEnemy side (getCell chessBoard nextRow captureCol) then
          tryMove chessBoard side ⟨r, c, nextRow, captureCol, promo⟩ s
        else s
      else s) st1
  -- En passant capture.
  if st2.2.enPassantTargetRow ≠ -1 ∧ st2.2.enPassantTargetCol ≠ -1 then
    ([-1, 1] : List Int).foldl (fun s dc =>
      if c + dc = s.2.enPassantTargetCol ∧ nextRow = s.2.enPassantTargetRow then
        tryMove chessBoard side ⟨r, c, nextRow, c + dc, promo⟩ s
      else s) st2
  else st2

/-- The test `target == EMPTY_CELL || (side == SIDE_WHITE && isPieceBlack(target)) ||`
`(side == SIDE_BLACK && isPieceWhite(target))` of the knight and king branches. -/
def canLand (side : Int) (target : Int) : Bool :=
  decide (target = EMPTY_CELL) || isEnemy side target

/-- The knight branch. -/
def genKnight (chessBoard : Board) (side : Int) (r c : Int) (st : Gen) : Gen :=
  knightOffsets.foldl (fun s o =>
    let newRow := r + o.1
    let newCol := c + o.2
    if !isInsideBoard newRow newCol then s
    else if canLand side (getCell chessBoard newRow newCol) then
      tryMove chessBoard side ⟨r, c, newRow, newCol, 0⟩ s
    else s) st

/-- The `while (isInsideBoard(newRow, newCol))` loop of the bishop / rook / queen
branch, along one direction. -/
def genRay (chessBoard : Board) (side : Int) (r c : Int) (dRow dCol : Int) :
    Nat → Int → Int → Gen → Gen
  | 0, _, _, st => st
  | fuel + 1, newRow, newCol, st =>
    if isInsideBoard newRow newCol then
      let target := getCell chessBoard newRow newCol
      if target = EMPTY_CELL then
        genRay chessBoard side r c dRow dCol fuel (newRow + dRow) (newCol + dCol)
          (tryMove chessBoard side ⟨r, c, newRow, newCol, 0⟩ st)
      else if isEnemy side target then
        tryMove chessBoard side ⟨r, c, newRow, newCol, 0⟩ st
      else st
    else st

/-- The array `directions` filled for the piece `lowerPiece` (`queenDirs` lists the
rook directions first). -/
def sliderDirs (lowerPiece : Int) : List (Int × Int) :=
  if lowerPiece = ch 'b' then diagDirs
  else if lowerPiece = ch 'r' then linearDirs
  else if lowerPiece = ch 'q' then linearDirs ++ diagDirs
  else []

/-- The bishop / rook / queen branch. -/
def genSlider (chessBoard : Board) (side : Int) (lowerPiece : Int) (r c : Int) (st : Gen) :
    Gen :=
  (sliderDirs lowerPiece).foldl (fun s d =>
    genRay chessBoard side r c d.1 d.2 8 (r + d.1) (c + d.2) s) st

/-- The king branch, first part: one square in any direction. -/
def genKingSteps (chessBoard : Board) (side : Int) (r c : Int) (st : Gen) : Gen :=
  ([-1, 0, 1] : List Int).foldl (fun s dr =>
    ([-1, 0, 1] : List Int).foldl (fun s dc =>
      if dr = 0 ∧ dc = 0 then s
      else
        let newRow := r + dr
        let newCol := c + dc
        if !isInsideBoard newRow newCol then s
        else if canLand side (getCell chessBoard newRow newCol) then
          tryMove chessBoard side ⟨r, c, newRow, newCol, 0⟩ s
        else s) s) st

/-- The king branch, second part: the castling moves.  The moved flags are read from
the global variables as they are at this point of the call. -/
def genCastling (chessBoard : Board) (side : Int) (r c : Int) (st : Gen) : Gen :=
  if side = SIDE_WHITE ∧ r = 7 ∧ c = 4 ∧ st.2.whiteKingMoved = 0 then
    -- White kingside castling.
    let s1 : Gen :=
      if st.2.whiteKRookMoved = 0 ∧ getCell chessBoard 7 7 = ch 'R' ∧
          getCell chessBoard 7 5 = EMPTY_CELL ∧ getCell chessBoard 7 6 = EMPTY_CELL ∧
          !isCellAttacked chessBoard 7 4 SIDE_BLACK ∧
          !isCellAttacked chessBoard 7 5 SIDE_BLACK ∧
          !isCellAttacked chessBoard 7 6 SIDE_BLACK then
        tryMove chessBoard SIDE_WHITE ⟨7, 4, 7, 6, 0⟩ st
      else st
    -- White queenside castling.
    if s1.2.whiteQRookMoved = 0 ∧ getCell chessBoard 7 0 = ch 'R' ∧
        getCell chessBoard 7 1 = EMPTY_CELL ∧ getCell chessBoard 7 2 = EMPTY_CELL ∧
        getCell chessBoard 7 3 = EMPTY_CELL ∧
        !isCellAttacked chessBoard 7 4 SIDE_BLACK ∧
        !isCellAttacked chessBoard 7 3 SIDE_BLACK ∧
        !isCellAttacked chessBoard 7 2 SIDE_BLACK then
      tryMove chessBoard SIDE_WHITE ⟨7, 4, 7, 2, 0⟩ s1
    else s1
  else if side = SIDE_BLACK ∧ r = 0 ∧ c = 4 ∧ st.2.blackKingMoved = 0 then
    -- Black kingside castling.
    let s1 : Gen :=
      if st.2.blackKRookMoved = 0 ∧ getCell chessBoard 0 7 = ch 'r' ∧
          getCell chessBoard 0 5 = EMPTY_CELL ∧ getCell chessBoard 0 6 = EMPTY_CELL ∧
          !isCellAttacked chessBoard 0 4 SIDE_WHITE ∧
          !isCellAttacked chessBoard 0 5 SIDE_WHITE ∧
          !isCellAttacked chessBoard 0 6 SIDE_WHITE then
        tryMove chessBoard SIDE_BLACK ⟨0, 4, 0, 6, 0⟩ st
      else st
    -- Black queenside castling.
    if s1.2.blackQRookMoved = 0 ∧ getCell chessBoard 0 0 = ch 'r' ∧
        getCell chessBoard 0 1 = EMPTY_CELL ∧ getCell chessBoard 0 2 = EMPTY_CELL ∧
        getCell chessBoard 0 3 = EMPTY_CELL ∧
        !isCellAttacked chessBoard 0 4 SIDE_WHITE ∧
        !isCellAttacked chessBoard 0 3 SIDE_WHITE ∧
        !isCellAttacked chessBoard 0 2 SIDE_WHITE then
      tryMove chessBoard SIDE_BLACK ⟨0, 4, 0, 2, 0⟩ s1
    else s1
  else st

/-- The body of the nested `for (r) for (c)` loops of `generateLegalMoves`. -/
def genSquare (chessBoard : Board) (side : Int) (st : Gen) (sq : Int × Int) : Gen :=
  let r := sq.1
  let c := sq.2
  let currentPiece := getCell chessBoard r c
  if currentPiece = EMPTY_CELL then st
  else
    let pieceSide := if isPieceWhite currentPiece then SIDE_WHITE else SIDE_BLACK
    if pieceSide ≠ side then st
    else
      let lowerPiece := tolower currentPiece
      if lowerPiece = ch 'p' then genPawn chessBoard side r c st
      else if lowerPiece = ch 'n' then genKnight chessBoard side r c st
      else if lowerPiece = ch 'b' ∨ lowerPiece = ch 'r' ∨ lowerPiece = ch 'q' then
        genSlider chessBoard side lowerPiece r c st
      else if lowerPiece = ch 'k' then
        genCastling chessBoard side r c (genKingSteps chessBoard side r c st)
      else st

/-- Source `generateLegalMoves(side, movesList)` on the live position `s`: the moves written
to `movesList`, in order, and the live position after the call. -/
def generateLegalMoves (side : Int) (s : GameState) : List ChessMove × GameState :=
  let st := allSquares.foldl (genSquare s.chessBoard side) ([], s.globals)
  (st.1, { s with globals := st.2 })

/-! ## Search -/

/-- The material value `pieceValue` of the `switch (tolower(piece))` in
`evaluate_board`. -/
def pieceValue (piece : Int) : Int :=
  let l := tolower piece
  if l = ch 'p' then 100
  else if l = ch 'n' then 320
  else if l = ch 'b' then 330
  else if l = ch 'r' then 500
  else if l = ch 'q' then 900
  else if l = ch 'k' then 20000
  else 0

/-- Source `evaluate_board()` on the board `chessBoard`. -/
def evaluate_board (chessBoard : Board) : Int :=
  allSquares.foldl (fun score sq =>
    let piece := getCell chessBoard sq.1 sq.2
    if piece = EMPTY_CELL then score
    else if isPieceWhite piece then score + pieceValue piece
    else score - pieceValue piece) 0

/-- The other side, `(side == SIDE_WHITE) ? SIDE_BLACK : SIDE_WHITE`. -/
def opponentOf (side : Int) : Int := if side = SIDE_WHITE then SIDE_BLACK else SIDE_WHITE

/-- The `for (i < numMoves)` loop of `minimax`, over the moves still to be tried;
`child` is the recursive call `minimax(depth - 1, ...)`.  Returns `bestScore` and the
live position when the loop is left. -/
def minimaxLoop (child : Int → Int → Int → GameState → Int × GameState) (side : Int) :
    List ChessMove → Int → Int → Int → GameState → Int × GameState
  | [], _, _, bestScore, s => (bestScore, s)
  | mv :: rest, alpha, beta, bestScore, s =>
    let saved := save_state s
    let s1 := execute_live s mv
    let r := child (opponentOf side) (-beta) (-alpha) s1
    let score := -r.1
    let s2 := restore_state saved r.2
    let bestScore := if score > bestScore then score else bestScore
    let alpha := if bestScore > alpha then bestScore else alpha
    if alpha ≥ beta then (bestScore, s2)
    else minimaxLoop child side rest alpha beta bestScore s2

/-- Source `minimax(depth, side, alpha, beta)` on the live position `s`: the returned score
and the live position after the call.  `depth` is a natural number: the source
recurses on `depth - 1` down to the test `depth == 0`. -/
def minimax : Nat → Int → Int → Int → GameState → Int × GameState
  | 0, _, _, _, s => (evaluate_board s.chessBoard, s)
  | depth + 1, side, alpha, beta, s =>
    let gen := generateLegalMoves side s
    if gen.1.length = 0 then
      -- No moves: checkmate if king is in check, stalemate otherwise.
      (if isKingInCheck gen.2.chessBoard side then -20000 else 0, gen.2)
    else minimaxLoop (minimax depth) side gen.1 alpha beta (-1000000) gen.2

/-- The `for (i < numMoves)` loop of `choose_best_move`. -/
def chooseLoop (depth : Nat) (side : Int) :
    List ChessMove → ChessMove → Int → GameState → ChessMove × GameState
  | [], bestMove, _, s => (bestMove, s)
  | mv :: rest, bestMove, bestScore, s =>
    let saved := save_state s
    let s1 := execute_live s mv
    let r := minimax (depth - 1) (opponentOf side) (-1000000) 1000000 s1
    let score := -r.1
    let s2 := restore_state saved r.2
    if score > bestScore then chooseLoop depth side rest mv score s2
    else chooseLoop depth side rest bestMove bestScore s2

/-- Source `choose_best_move(side, depth)` on the live position `s`, for `depth ≥ 1` (with
`depth = 0` the source calls `minimax(-1, ...)`, which never reaches its base case;
the model then searches at depth 0).  `bestMove` starts as `movesList[0]`, which is
an uninitialised read when there is no legal move; the model reads the null move. -/
def choose_best_move (side : Int) (depth : Nat) (s : GameState) : ChessMove × GameState :=
  let gen := generateLegalMoves side s
  chooseLoop depth side gen.1 (gen.1.headD ⟨0, 0, 0, 0, 0⟩) (-1000000) gen.2

/-! ## Coordinate notation and scripted positions -/

/-- The move `interpret_move` reads from a four-character string such as `e2e4`:
column = file - 'a', row = '8' - rank, no promotion. -/
def mv4 (srcFile srcRank dstFile dstRank : Char) : ChessMove :=
  { src_col := ch srcFile - ch 'a'
    src_row := ch '8' - ch srcRank
    dst_col := ch dstFile - ch 'a'
    dst_row := ch '8' - ch dstRank
    promoteTo := 0 }

/-- The live position after applying the moves in order with
`execute_move_on_board(chessBoard, move)`. -/
def playMoves (s : GameState) (moves : List ChessMove) : GameState :=
  moves.foldl execute_live s

/-- The position after 1. e2e4. -/
def posAfterE4 : GameState := playMoves initState [mv4 'e' '2' 'e' '4']

/-- The position after 1. e2e4 e7e5. -/
def posAfterE4E5 : GameState := playMoves initState [mv4 'e' '2' 'e' '4', mv4 'e' '7' 'e' '5']

/-- The position after 1. g1f3. -/
def posAfterNf3 : GameState := playMoves initState [mv4 'g' '1' 'f' '3']

/-- The position after 1. g1f3 g8f6 2. g2g3 g7g6 3. f1g2 f8g7: both kings and all four
rooks are on their original squares and have never moved, and the squares between
each king and its kingside rook are empty. -/
def posCastleReady : GameState :=
  playMoves initState
    [mv4 'g' '1' 'f' '3', mv4 'g' '8' 'f' '6', mv4 'g' '2' 'g' '3', mv4 'g' '7' 'g' '6',
     mv4 'f' '1' 'g' '2', mv4 'f' '8' 'g' '7']

/-- The position after 1. e2e4 a7a6 2. e4e5 d7d5: Black has just advanced the d-pawn
two squares next to the white pawn on e5. -/
def posEnPassant : GameState :=
  playMoves initState
    [mv4 'e' '2' 'e' '4', mv4 'a' '7' 'a' '6', mv4 'e' '4' 'e' '5', mv4 'd' '7' 'd' '5']

/-- The position after 1. f2f3 e7e5 2. g2g4 d8h4 (fool's mate). -/
def posFoolsMate : GameState :=
  playMoves initState
    [mv4 'f' '2' 'f' '3', mv4 'e' '7' 'e' '5', mv4 'g' '2' 'g' '4', mv4 'd' '8' 'h' '4']

/-! ## Predicates used in the statements -/

/-- A move passes the legality probe on `board` for `side`. -/
def PassesProbe (board : Board) (side : Int) (m : ChessMove) : Prop :=
  ∀ g : Globals, isKingInCheck (execute_move_on_board (clone_board board) m g).1 side = false

/-- Every move of the accumulator passes the probe. -/
def AllPass (board : Board) (side : Int) (st : Gen) : Prop :=
  ∀ m ∈ st.1, PassesProbe board side m

/-- The symbol of the attacker's piece of one kind: the uppercase letter `w` when White
attacks, the lowercase letter `b` when Black does. -/
def pieceOf (attackerSide : Int) (w b : Char) : Int :=
  if attackerSide = SIDE_WHITE then ch w else ch b

/-- A pawn of the attacker stands diagonally adjacent to `(row, col)` on the row it
attacks from: row + 1 for White, row - 1 for Black, column col - 1 or col + 1. -/
def PawnAttacks (b : Board) (row col attackerSide : Int) : Prop :=
  let pawnRow := if attackerSide = SIDE_WHITE then row + 1 else row - 1
  (isInsideBoard pawnRow (col - 1) = true ∧
    getCell b pawnRow (col - 1) = pieceOf attackerSide 'P' 'p') ∨
  (isInsideBoard pawnRow (col + 1) = true ∧
    getCell b pawnRow (col + 1) = pieceOf attackerSide 'P' 'p')

/-- A knight of the attacker stands at one of the 8 knight offsets from `(row, col)`. -/
def KnightAttacks (b : Board) (row col attackerSide : Int) : Prop :=
  ∃ o ∈ knightOffsets, isInsideBoard (row + o.1) (col + o.2) = true ∧
    getCell b (row + o.1) (col + o.2) = pieceOf attackerSide 'N' 'n'

/-- A piece of the attacker of kind `k1` or `k2` (given as White's and Black's letters)
stands `n ≥ 1` steps from `(row, col)` in one of the directions `dirs`, and each of the
squares strictly between (the steps `1 .. n-1`) is on the board and empty.  With the
four rook directions the reachable squares are those of the same row or column, with
the four bishop directions those of the two diagonals. -/
def LineAttacks (b : Board) (row col attackerSide : Int) (dirs : List (Int × Int))
    (w1 b1 w2 b2 : Char) : Prop :=
  ∃ d ∈ dirs, ∃ n : Nat, 1 ≤ n ∧
    isInsideBoard (row + n * d.1) (col + n * d.2) = true ∧
    (getCell b (row + n * d.1) (col + n * d.2) = pieceOf attackerSide w1 b1 ∨
     getCell b (row + n * d.1) (col + n * d.2) = pieceOf attackerSide w2 b2) ∧
    ∀ j : Nat, 1 ≤ j → j < n →
      isInsideBoard (row + j * d.1) (col + j * d.2) = true ∧
      getCell b (row + j * d.1) (col + j * d.2) = EMPTY_CELL

/-- The attacker's king stands on one of the 8 squares adjacent to `(row, col)`. -/
def KingAttacks (b : Board) (row col attackerSide : Int) : Prop :=
  ∃ dr ∈ ([-1, 0, 1] : List Int), ∃ dc ∈ ([-1, 0, 1] : List Int), ¬(dr = 0 ∧ dc = 0) ∧
    isInsideBoard (row + dr) (col + dc) = true ∧
    getCell b (row + dr) (col + dc) = pieceOf attackerSide 'K' 'k'

/-- The position after 1. g1f3 g8f6 2. g2g3 g7g6 3. f1g2 f8g7 4. e1f1: the white king
stands on f1, the rook on h1, and g1 is empty. -/
def posKingOnF1 : GameState := execute_live posCastleReady (mv4 'e' '1' 'f' '1')

/-- A board with a white pawn on a7 and the square a8 empty (the initial layout with
those two cells changed). -/
def promotionBoard : Board :=
  setCell (setCell initialize_board 1 0 (ch 'P')) 0 0 EMPTY_CELL

/-- The material value of one cell as the specification lists it: pawn 100, knight 320,
bishop 330, rook 500, queen 900, king 20000, positive for the white (uppercase)
symbols, negative for the black (lowercase) ones, 0 for anything else. -/
def materialOf (cell : Int) : Int :=
  if cell = ch 'P' then 100
  else if cell = ch 'N' then 320
  else if cell = ch 'B' then 330
  else if cell = ch 'R' then 500
  else if cell = ch 'Q' then 900
  else if cell = ch 'K' then 20000
  else if cell = ch 'p' then -100
  else if cell = ch 'n' then -320
  else if cell = ch 'b' then -330
  else if cell = ch 'r' then -500
  else if cell = ch 'q' then -900
  else if cell = ch 'k' then -20000
  else 0

/-- The material sum of a board: the sum of `materialOf` over the 64 cells. -/
def materialSum (b : Board) : Int := ∑ i : Fin 8, ∑ j : Fin 8, materialOf (b i j)

/-- The score `choose_best_move(side, depth)` gives the move `m`: the negated result
of `minimax(depth - 1, opponent, -1000000, 1000000)` on the live position `base`
(the position as the loop finds it) after `m` has been applied to it. -/
def moveScore (depth : Nat) (side : Int) (base : GameState) (m : ChessMove) : Int :=
  -(minimax (depth - 1) (opponentOf side) (-1000000) 1000000 (execute_live base m)).1

/-- A board with 53 white kings (ranks 1 to 6 full, and d8 to h8), the black king on
a8 and a black knight on b8; the other squares are empty. -/
def manyKingsBoard : Board := fun r c =>
  if r.val = 0 then
    (if c.val = 0 then ch 'k' else if c.val = 1 then ch 'n'
     else if c.val = 2 then EMPTY_CELL else ch 'K')
  else if r.val = 1 then EMPTY_CELL
  else ch 'K'

/-- The position after 1. e2e4 d7d5 2. e4d5: Black can take back on d5 with the
queen. -/
def posAfterExd5 : GameState :=
  playMoves initState [mv4 'e' '2' 'e' '4', mv4 'd' '7' 'd' '5', mv4 'e' '4' 'd' '5']

/-- The promotion value of a move is absent or a queen. -/
def PromoOk (m : ChessMove) : Prop :=
  m.promoteTo = 0 ∨ m.promoteTo = ch 'Q' ∨ m.promoteTo = ch 'q'

/-- Every move of the accumulator has a promotion value that is absent or a queen. -/
def AllPromoOk (st : Gen) : Prop := ∀ m ∈ st.1, PromoOk m

/-- The initial layout with the white king taken off the board. -/
def noWhiteKingState : GameState := ⟨setCell initialize_board 7 4 EMPTY_CELL, initGlobals⟩

/-- The position after 1. e2e4 d7d5: White can win a pawn with e4d5. -/
def posAfterE4D5 : GameState :=
  playMoves initState [mv4 'e' '2' 'e' '4', mv4 'd' '7' 'd' '5']

/-! ## Auxiliary notions for the analysis of the generator -/

/-- The en-passant target recorded in the globals is none, or an empty square of the
board. -/
def EpOk (board : Board) (g : Globals) : Prop :=
  (g.enPassantTargetRow = -1 ∧ g.enPassantTargetCol = -1) ∨
  getCell board g.enPassantTargetRow g.enPassantTargetCol = EMPTY_CELL

/-- Probing the move `m` on `board` leaves an acceptable en-passant target behind: if
the applier would record a target for it (a pawn moving two rows), the recorded
square is empty on `board`. -/
def ProbeEpOk (board : Board) (m : ChessMove) : Prop :=
  tolower (if m.promoteTo ≠ 0 then m.promoteTo else getCell board m.src_row m.src_col) = ch 'p' →
  abs (m.dst_row - m.src_row) = 2 →
  getCell board (Int.tdiv (m.src_row + m.dst_row) 2) m.src_col = EMPTY_CELL

/-- The accumulator `st'` is obtained from `st` by a sequence of probes (`tryMove`) of
candidates that all satisfy `Q`. -/
inductive Probes (board : Board) (side : Int) (Q : ChessMove → Prop) : Gen → Gen → Prop
  | refl (st : Gen) : Probes board side Q st st
  | step (st st' : Gen) (mv : ChessMove) :
      Probes board side Q st st' → Q mv → Probes board side Q st (tryMove board side mv st')

/-- The forward direction of a pawn of `side`: -1 for White, +1 for Black. -/
def pawnDir (side : Int) : Int := if side = SIDE_WHITE then -1 else 1

/-- The starting row of the pawns of `side`: 6 for White, 1 for Black. -/
def pawnStartRow (side : Int) : Int := if side = SIDE_WHITE then 6 else 1

/-- The far row of `side`: 0 for White, 7 for Black. -/
def farRow (side : Int) : Int := if side = SIDE_WHITE then 0 else 7

/-- The promotion value the generator gives a pawn move of `side` that ends on
`dstRow`: the queen of that side on the far row, none elsewhere. -/
def pawnPromo (side : Int) (dstRow : Int) : Int :=
  if dstRow = farRow side then (if side = SIDE_WHITE then ch 'Q' else ch 'q') else 0

/-- First phase of `genPawn`: the one-square and the two-square advance. -/
def pawnPushes (board : Board) (side : Int) (r c : Int) (st : Gen) : Gen :=
  if isInsideBoard (r + pawnDir side) c ∧ getCell board (r + pawnDir side) c = EMPTY_CELL then
    if r = pawnStartRow side ∧ getCell board (r + pawnDir side) c = EMPTY_CELL ∧
        isInsideBoard (r + 2 * pawnDir side) c ∧
        getCell board (r + 2 * pawnDir side) c = EMPTY_CELL then
      tryMove board side ⟨r, c, r + 2 * pawnDir side, c, 0⟩
        (tryMove board side ⟨r, c, r + pawnDir side, c, pawnPromo side (r + pawnDir side)⟩ st)
    else tryMove board side ⟨r, c, r + pawnDir side, c, pawnPromo side (r + pawnDir side)⟩ st
  else st

/-- One iteration of the capture loop of `genPawn`. -/
def pawnCaptureStep (board : Board) (side : Int) (r c : Int) (s : Gen) (dc : Int) : Gen :=
  if isInsideBoard (r + pawnDir side) (c + dc) ∧
      getCell board (r + pawnDir side) (c + dc) ≠ EMPTY_CELL then
    if isEnemy side (getCell board (r + pawnDir side) (c + dc)) then
      tryMove board side
        ⟨r, c, r + pawnDir side, c + dc, pawnPromo side (r + pawnDir side)⟩ s
    else s
  else s

/-- Second phase of `genPawn`: the two diagonal captures. -/
def pawnCaptures (board : Board) (side : Int) (r c : Int) (st : Gen) : Gen :=
  ([-1, 1] : List Int).foldl (pawnCaptureStep board side r c) st

/-- One iteration of the en-passant loop of `genPawn`. -/
def pawnEnPassantStep (board : Board) (side : Int) (r c : Int) (s : Gen) (dc : Int) : Gen :=
  if c + dc = s.2.enPassantTargetCol ∧ r + pawnDir side = s.2.enPassantTargetRow then
    tryMove board side ⟨r, c, r + pawnDir side, c + dc, pawnPromo side (r + pawnDir side)⟩ s
  else s

/-- Third phase of `genPawn`: the en-passant captures. -/
def pawnEnPassant (board : Board) (side : Int) (r c : Int) (st : Gen) : Gen :=
  if st.2.enPassantTargetRow ≠ -1 ∧ st.2.enPassantTargetCol ≠ -1 then
    ([-1, 1] : List Int).foldl (pawnEnPassantStep board side r c) st
  else st

/-- The shape of every candidate the generator probes while it handles the square
`sq`: it starts on `sq`, its promotion value is the queen of `side` exactly when the
piece on `sq` is a pawn and the move ends on the far row, and probing it leaves an
acceptable en-passant target. -/
def Cand (board : Board) (side : Int) (sq : Int × Int) (m : ChessMove) : Prop :=
  m.src_row = sq.1 ∧ m.src_col = sq.2 ∧
  m.promoteTo =
    (if tolower (getCell board sq.1 sq.2) = ch 'p' ∧ m.dst_row = farRow side then
      (if side = SIDE_WHITE then ch 'Q' else ch 'q') else 0) ∧
  ProbeEpOk board m

/-- The candidates of the pawn branch. -/
def PawnCand (board : Board) (side : Int) (r c : Int) (m : ChessMove) : Prop :=
  m.src_row = r ∧ m.src_col = c ∧
  ((m.dst_row = r + pawnDir side ∧ m.promoteTo = pawnPromo side (r + pawnDir side)) ∨
   (m.dst_row = r + 2 * pawnDir side ∧ r = pawnStartRow side ∧ m.promoteTo = 0 ∧
     getCell board (r + pawnDir side) c = EMPTY_CELL))


/-- The knight rule: `(r', c')` is `(r, c)` plus one of the eight knight offsets. -/
def KnightReach (r c r' c' : Int) : Prop :=
  ∃ o ∈ knightOffsets, r' = r + o.1 ∧ c' = c + o.2

/-- The king rule: `(r', c')` is one of the eight squares adjacent to `(r, c)`. -/
def KingReach (r c r' c' : Int) : Prop :=
  ∃ dr ∈ ([-1, 0, 1] : List Int), ∃ dc ∈ ([-1, 0, 1] : List Int), ¬(dr = 0 ∧ dc = 0) ∧
    r' = r + dr ∧ c' = c + dc

/-- The rule of the sliding pieces: `(r', c')` lies `n ≥ 1` steps from `(r, c)` along one
of the directions `dirs`, and each of the squares strictly between (the steps
`1 .. n-1`) is on the board and empty. -/
def RayReach (b : Board) (dirs : List (Int × Int)) (r c r' c' : Int) : Prop :=
  ∃ d ∈ dirs, ∃ n : Nat, 1 ≤ n ∧ r' = r + n * d.1 ∧ c' = c + n * d.2 ∧
    ∀ j : Nat, 1 ≤ j → j < n →
      isInsideBoard (r + j * d.1) (c + j * d.2) = true ∧
      getCell b (r + j * d.1) (c + j * d.2) = EMPTY_CELL

/-- The destination `(r', c')` is a square of the board that is empty or holds a piece
of the enemy of `side`. -/
def CanLandOn (b : Board) (side : Int) (r' c' : Int) : Prop :=
  isInsideBoard r' c' = true ∧
  (getCell b r' c' = EMPTY_CELL ∨ isEnemy side (getCell b r' c') = true)

/-- Applying the move to the position leaves the king of `side` not in check. -/
def LeavesKingSafe (s : GameState) (side : Int) (m : ChessMove) : Prop :=
  isKingInCheck (execute_live s m).chessBoard side = false

/-- A board with the kings on e1 and e8, white pawns on d5 and e4 and black pawns on d6
and e5. -/
def epOnOwnPawnBoard : Board := fun r c =>
  if r.val = 7 ∧ c.val = 4 then ch 'K'
  else if r.val = 0 ∧ c.val = 4 then ch 'k'
  else if r.val = 3 ∧ c.val = 3 then ch 'P'
  else if r.val = 4 ∧ c.val = 4 then ch 'P'
  else if r.val = 2 ∧ c.val = 3 then ch 'p'
  else if r.val = 3 ∧ c.val = 4 then ch 'p'
  else EMPTY_CELL

/-- The board `epOnOwnPawnBoard` in a state whose en-passant target is d5, the square of
the white pawn. -/
def posEpOnOwnPawn : GameState :=
  ⟨epOnOwnPawnBoard, { initGlobals with enPassantTargetRow := 3, enPassantTargetCol := 3 }⟩

/-! ## Plain negamax -/

/-- The number of cells of the board that hold the symbol `k`. -/
def kingCount (b : Board) (k : Int) : Nat :=
  allSquares.countP (fun sq => decide (getCell b sq.1 sq.2 = k))

/-- The board has at most one king per colour. -/
def KingsOk (b : Board) : Prop := kingCount b (ch 'K') ≤ 1 ∧ kingCount b (ch 'k') ≤ 1

/-- The recursion of `minimax` with the window and the `alpha >= beta` cutoff removed:
the material evaluation at depth 0, the terminal score when there are no legal moves,
and otherwise the maximum over all legal moves of the negated value of the child
position. -/
def negamax : Nat → Int → GameState → Int
  | 0, _, s => evaluate_board s.chessBoard
  | depth + 1, side, s =>
    let gen := generateLegalMoves side s
    match gen.1 with
    | [] => if isKingInCheck gen.2.chessBoard side then -20000 else 0
    | m :: rest =>
      rest.foldl
        (fun best mv => max best (-(negamax depth (opponentOf side) (execute_live gen.2 mv))))
        (-(negamax depth (opponentOf side) (execute_live gen.2 m)))

/-! # Theorems -/

/-! ## Basic facts -/

/-- The board that `execute_move_on_board` produces does not depend on the global
variables it is run with. -/
theorem execute_board_indep (b : Board) (m : ChessMove) (g g' : Globals) :
    (execute_move_on_board b m g).1 = (execute_move_on_board b m g').1 := by
  unfold execute_move_on_board
  dsimp only
  split
  · rfl
  · split <;> rfl

theorem tryMove_allPass (board : Board) (side : Int) (mv : ChessMove) (st : Gen)
    (h : AllPass board side st) : AllPass board side (tryMove board side mv st) := by
  intro m hm
  unfold tryMove at hm
  simp only [] at hm
  split at hm
  · rename_i hc
    rcases List.mem_append.mp hm with h1 | h1
    · exact h m h1
    · have : m = mv := by simpa using h1
      subst this
      intro g
      rw [execute_board_indep _ _ g st.2]
      simpa using hc
  · exact h m hm

theorem foldl_allPass {α : Type} (board : Board) (side : Int) (f : Gen → α → Gen)
    (hf : ∀ s x, AllPass board side s → AllPass board side (f s x)) (l : List α) (st : Gen)
    (h : AllPass board side st) : AllPass board side (l.foldl f st) := by
  induction l generalizing st with
  | nil => exact h
  | cons x xs ih => exact ih _ (hf _ _ h)

theorem genPawn_allPass (board : Board) (side : Int) (r c : Int) (st : Gen)
    (h : AllPass board side st) : AllPass board side (genPawn board side r c st) := by
  unfold genPawn
  dsimp only
  repeat' first
    | assumption
    | apply tryMove_allPass
    | (apply foldl_allPass; intro s x hs; dsimp only)
    | split

theorem genKnight_allPass (board : Board) (side : Int) (r c : Int) (st : Gen)
    (h : AllPass board side st) : AllPass board side (genKnight board side r c st) := by
  unfold genKnight
  repeat' first
    | assumption
    | apply tryMove_allPass
    | (apply foldl_allPass; intro s x hs; dsimp only)
    | split

theorem genRay_allPass (board : Board) (side : Int) (r c dRow dCol : Int) (fuel : Nat) :
    ∀ (newRow newCol : Int) (st : Gen), AllPass board side st →
      AllPass board side (genRay board side r c dRow dCol fuel newRow newCol st) := by
  induction fuel with
  | zero => intro _ _ st h; exact h
  | succ n ih =>
    intro newRow newCol st h
    unfold genRay
    dsimp only
    repeat' first
      | assumption
      | apply ih
      | apply tryMove_allPass
      | split

theorem genSlider_allPass (board : Board) (side : Int) (lp : Int) (r c : Int) (st : Gen)
    (h : AllPass board side st) : AllPass board side (genSlider board side lp r c st) := by
  unfold genSlider
  apply foldl_allPass _ _ _ _ _ _ h
  intro s d hs
  exact genRay_allPass _ _ _ _ _ _ _ _ _ _ hs

theorem genKingSteps_allPass (board : Board) (side : Int) (r c : Int) (st : Gen)
    (h : AllPass board side st) : AllPass board side (genKingSteps board side r c st) := by
  unfold genKingSteps
  repeat' first
    | assumption
    | apply tryMove_allPass
    | (apply foldl_allPass; intro s x hs; dsimp only)
    | split

theorem genCastling_allPass (board : Board) (side : Int) (r c : Int) (st : Gen)
    (h : AllPass board side st) : AllPass board side (genCastling board side r c st) := by
  unfold genCastling
  dsimp only
  split
  · rename_i hc
    obtain ⟨hs, -⟩ := hc
    subst hs
    repeat' first
      | assumption
      | apply tryMove_allPass
      | split
  · split
    · rename_i hc
      obtain ⟨hs, -⟩ := hc
      subst hs
      repeat' first
        | assumption
        | apply tryMove_allPass
        | split
    · exact h

theorem genSquare_allPass (board : Board) (side : Int) (st : Gen) (sq : Int × Int)
    (h : AllPass board side st) : AllPass board side (genSquare board side st sq) := by
  unfold genSquare
  dsimp only
  repeat' first
    | assumption
    | apply genPawn_allPass
    | apply genKnight_allPass
    | apply genSlider_allPass
    | apply genCastling_allPass
    | apply genKingSteps_allPass
    | split

/-- Claim C1. Every move that `generateLegalMoves(side)` returns passes the legality
check again: applying it with `execute_move_on_board` to a copy of the live board
(whatever the global variables hold at that moment) gives a board on which
`isKingInCheck(side)` is false. -/
theorem generateLegalMoves_no_self_check (s : GameState) (side : Int) (m : ChessMove)
    (g : Globals) (hm : m ∈ (generateLegalMoves side s).1) :
    isKingInCheck (execute_move_on_board (clone_board s.chessBoard) m g).1 side = false := by
  have h : AllPass s.chessBoard side
      (allSquares.foldl (genSquare s.chessBoard side) ([], s.globals)) := by
    apply foldl_allPass
    · intro st sq hst
      exact genSquare_allPass _ _ _ _ hst
    · intro m hm
      simp at hm
  exact h m hm g

/-- Claim C1 at a concrete input: `e2e4` is generated from the initial position and
passes the check again. -/
theorem generateLegalMoves_no_self_check_witness :
    mv4 'e' '2' 'e' '4' ∈ (generateLegalMoves SIDE_WHITE initState).1 ∧
    isKingInCheck (execute_move_on_board (clone_board initState.chessBoard)
      (mv4 'e' '2' 'e' '4') initGlobals).1 SIDE_WHITE = false :=
  ⟨by decide,
   generateLegalMoves_no_self_check initState SIDE_WHITE (mv4 'e' '2' 'e' '4') initGlobals
     (by decide)⟩

/-! ## The generator writes the global variables -/

/-- Claim C2 fails on the code.  From the initial position (no en-passant target),
`generateLegalMoves(Black)` leaves the en-passant target at (2, 7), the target of the
last probe `h7h5`; and after 1. e2e4 e7e5 (white king never moved),
`generateLegalMoves(White)` leaves `whiteKingMoved = 1`, set by the probe `e1e2`.
The board grid is unchanged in both calls. -/
theorem generateLegalMoves_writes_globals :
    initState.globals.enPassantTargetRow = -1 ∧
    initState.globals.enPassantTargetCol = -1 ∧
    (generateLegalMoves SIDE_BLACK initState).2.globals.enPassantTargetRow = 2 ∧
    (generateLegalMoves SIDE_BLACK initState).2.globals.enPassantTargetCol = 7 ∧
    posAfterE4E5.globals.whiteKingMoved = 0 ∧
    (generateLegalMoves SIDE_WHITE posAfterE4E5).2.globals.whiteKingMoved = 1 := by
  decide

/-! ## Save / restore and the search -/

/-- Restoring a snapshot gives back the position the snapshot was taken of, whatever
the live position has become. -/
theorem restore_save (s cur : GameState) : restore_state (save_state s) cur = s := by
  cases s with
  | mk b g => cases g; rfl

/-- The move loop of `minimax` leaves the live position as it found it. -/
theorem minimaxLoop_state (child : Int → Int → Int → GameState → Int × GameState)
    (side : Int) (moves : List ChessMove) :
    ∀ (alpha beta bestScore : Int) (s : GameState),
      (minimaxLoop child side moves alpha beta bestScore s).2 = s := by
  induction moves with
  | nil => intro _ _ _ s; rfl
  | cons mv rest ih =>
    intro alpha beta bestScore s
    unfold minimaxLoop
    dsimp only
    rw [restore_save]
    split_ifs <;> first | rfl | exact ih _ _ _ _

/-- The move loop of `choose_best_move` leaves the live position as it found it. -/
theorem chooseLoop_state (depth : Nat) (side : Int) (moves : List ChessMove) :
    ∀ (bestMove : ChessMove) (bestScore : Int) (s : GameState),
      (chooseLoop depth side moves bestMove bestScore s).2 = s := by
  induction moves with
  | nil => intro _ _ s; rfl
  | cons mv rest ih =>
    intro bestMove bestScore s
    unfold chooseLoop
    dsimp only
    rw [restore_save]
    split <;> exact ih _ _ _

/-- After `minimax(depth, ...)` with `depth ≥ 1`, the live position is the one that
the call of `generateLegalMoves` at its start left behind. -/
theorem minimax_state (depth : Nat) (side alpha beta : Int) (s : GameState) :
    (minimax (depth + 1) side alpha beta s).2 = (generateLegalMoves side s).2 := by
  unfold minimax
  dsimp only
  split
  · rfl
  · exact minimaxLoop_state _ _ _ _ _ _ _

/-- After `choose_best_move`, the live position is the one that the call of
`generateLegalMoves` at its start left behind. -/
theorem choose_best_move_state (depth : Nat) (side : Int) (s : GameState) :
    (choose_best_move side depth s).2 = (generateLegalMoves side s).2 := by
  unfold choose_best_move
  exact chooseLoop_state _ _ _ _ _ _

/-- Claim C3 fails on the code.  `minimax(3, Black, -1000000, 1000000)` on the initial
position (no en-passant target) returns with the en-passant target at (2, 7), and
`choose_best_move(Black, 3)` after 1. e2e4 (target (5, 4), the square behind the
e-pawn) returns with the target at (2, 7): the save / restore pairs of the search
do not cover the call of `generateLegalMoves` that precedes them. -/
theorem search_does_not_restore_globals :
    initState.globals.enPassantTargetRow = -1 ∧
    initState.globals.enPassantTargetCol = -1 ∧
    (minimax 3 SIDE_BLACK (-1000000) 1000000 initState).2.globals.enPassantTargetRow = 2 ∧
    (minimax 3 SIDE_BLACK (-1000000) 1000000 initState).2.globals.enPassantTargetCol = 7 ∧
    posAfterE4.globals.enPassantTargetRow = 5 ∧
    posAfterE4.globals.enPassantTargetCol = 4 ∧
    (choose_best_move SIDE_BLACK 3 posAfterE4).2.globals.enPassantTargetRow = 2 ∧
    (choose_best_move SIDE_BLACK 3 posAfterE4).2.globals.enPassantTargetCol = 7 := by
  rw [minimax_state, choose_best_move_state]
  decide

/-! ## Castling and en passant in the generator -/

/-- Claim C4 fails on the code.  After 1. g1f3 g8f6 2. g2g3 g7g6 3. f1g2 f8g7 the white
king is on e1 and the rook on h1, neither has moved, f1 and g1 are empty and none of
e1, f1, g1 is attacked by Black; yet `generateLegalMoves(White)` does not contain the
castling move (7,4)->(7,6).  The probe of the king step `e1f1` has already set
`whiteKingMoved` when the castling branch tests it. -/
theorem castling_not_generated :
    getCell posCastleReady.chessBoard 7 4 = ch 'K' ∧
    posCastleReady.globals.whiteKingMoved = 0 ∧
    posCastleReady.globals.whiteKRookMoved = 0 ∧
    getCell posCastleReady.chessBoard 7 7 = ch 'R' ∧
    getCell posCastleReady.chessBoard 7 5 = EMPTY_CELL ∧
    getCell posCastleReady.chessBoard 7 6 = EMPTY_CELL ∧
    isCellAttacked posCastleReady.chessBoard 7 4 SIDE_BLACK = false ∧
    isCellAttacked posCastleReady.chessBoard 7 5 SIDE_BLACK = false ∧
    isCellAttacked posCastleReady.chessBoard 7 6 SIDE_BLACK = false ∧
    (⟨7, 4, 7, 6, 0⟩ : ChessMove) ∉ (generateLegalMoves SIDE_WHITE posCastleReady).1 := by
  decide

/-- Claim C5 fails on the code.  After 1. e2e4 a7a6 2. e4e5 d7d5 the en-passant target is
d6 = (2, 3), a white pawn stands on e5 = (3, 4), and capturing `e5d6` does not leave
the white king in check; yet `generateLegalMoves(White)` does not contain `e5d6`.
The probe of the push `e5e6` has already cleared the target when the en-passant
branch tests it. -/
theorem en_passant_not_generated :
    posEnPassant.globals.enPassantTargetRow = 2 ∧
    posEnPassant.globals.enPassantTargetCol = 3 ∧
    getCell posEnPassant.chessBoard 3 4 = ch 'P' ∧
    isKingInCheck (execute_move_on_board (clone_board posEnPassant.chessBoard)
      (mv4 'e' '5' 'd' '6') posEnPassant.globals).1 SIDE_WHITE = false ∧
    mv4 'e' '5' 'd' '6' ∉ (generateLegalMoves SIDE_WHITE posEnPassant).1 := by
  decide

/-- Claim C6 fails on the code.  After 1. g1f3 there is no en-passant target, yet
`generateLegalMoves(White)` contains `f2e3`: the pawn on f2 = (6, 5) going one row
forward and one column sideways onto the empty square e3 = (5, 4).  The probe of the
two-square push `e2e4` has set the target to e3, and the pawn on f2, blocked by the
knight on f3, is tested against it. -/
theorem phantom_en_passant_generated :
    posAfterNf3.globals.enPassantTargetRow = -1 ∧
    posAfterNf3.globals.enPassantTargetCol = -1 ∧
    getCell posAfterNf3.chessBoard 6 5 = ch 'P' ∧
    getCell posAfterNf3.chessBoard 5 4 = EMPTY_CELL ∧
    mv4 'f' '2' 'e' '3' = ⟨6, 5, 5, 4, 0⟩ ∧
    mv4 'f' '2' 'e' '3' ∈ (generateLegalMoves SIDE_WHITE posAfterNf3).1 := by
  decide

/-! ## Scripted positions -/

/-- Claim C7. From the initial layout with all moved flags 0 and no en-passant target,
`generateLegalMoves` returns exactly 20 moves for White and exactly 20 for Black. -/
theorem initial_position_twenty_moves :
    initState.globals = ⟨0, 0, 0, 0, 0, 0, -1, -1⟩ ∧
    (generateLegalMoves SIDE_WHITE initState).1.length = 20 ∧
    (generateLegalMoves SIDE_BLACK initState).1.length = 20 := by
  decide

/-- Claim C8. After f2f3, e7e5, g2g4, d8h4 applied in order from the initial layout,
`generateLegalMoves(White)` returns no move and `isKingInCheck(board, White)` is
true. -/
theorem fools_mate_is_checkmate :
    (generateLegalMoves SIDE_WHITE posFoolsMate).1.length = 0 ∧
    isKingInCheck posFoolsMate.chessBoard SIDE_WHITE = true := by
  decide

/-- Claim C9. For every state and every move with in-board coordinates: `save_state`,
then `execute_move_on_board(chessBoard, m)`, then `restore_state` with the saved
values gives back the state: the same board, the same six moved flags, the same
en-passant target. -/
theorem save_execute_restore (s : GameState) (m : ChessMove)
    (_hsrc : isInsideBoard m.src_row m.src_col = true)
    (_hdst : isInsideBoard m.dst_row m.dst_col = true) :
    restore_state (save_state s) (execute_live s m) = s :=
  restore_save s (execute_live s m)

/-- Claim C9 at a concrete input: the initial position and `e2e4`. -/
theorem save_execute_restore_witness :
    isInsideBoard (mv4 'e' '2' 'e' '4').src_row (mv4 'e' '2' 'e' '4').src_col = true ∧
    isInsideBoard (mv4 'e' '2' 'e' '4').dst_row (mv4 'e' '2' 'e' '4').dst_col = true ∧
    restore_state (save_state initState) (execute_live initState (mv4 'e' '2' 'e' '4')) =
      initState :=
  ⟨by decide, by decide,
   save_execute_restore initState (mv4 'e' '2' 'e' '4') (by decide) (by decide)⟩

/-! ## The attack oracle -/

theorem isInsideBoard_iff (row col : Int) :
    isInsideBoard row col = true ↔ 0 ≤ row ∧ row < 8 ∧ 0 ≤ col ∧ col < 8 := by
  simp [isInsideBoard]

/-- The ray loop of `isCellAttacked` with a budget of `fuel` steps answers `true`
exactly when, within the budget, the walk reaches one of the two attacking pieces
after passing only empty squares of the board. -/
theorem rayAttack_iff (b : Board) (side : Int) (w1 w2 b1 b2 : Int) (dRow dCol : Int)
    (hw1 : w1 ≠ EMPTY_CELL) (hw2 : w2 ≠ EMPTY_CELL) (hb1 : b1 ≠ EMPTY_CELL)
    (hb2 : b2 ≠ EMPTY_CELL) (fuel : Nat) :
    ∀ r c : Int, rayAttack b side w1 w2 b1 b2 dRow dCol fuel r c = true ↔
      ∃ k : Nat, k < fuel ∧ isInsideBoard (r + k * dRow) (c + k * dCol) = true ∧
        (if side = SIDE_WHITE then
          getCell b (r + k * dRow) (c + k * dCol) = w1 ∨
          getCell b (r + k * dRow) (c + k * dCol) = w2
         else
          getCell b (r + k * dRow) (c + k * dCol) = b1 ∨
          getCell b (r + k * dRow) (c + k * dCol) = b2) ∧
        ∀ j : Nat, j < k → isInsideBoard (r + j * dRow) (c + j * dCol) = true ∧
          getCell b (r + j * dRow) (c + j * dCol) = EMPTY_CELL := by
  induction fuel with
  | zero =>
    intro r c
    simp [rayAttack]
  | succ n ih =>
    intro r c
    have shiftR : ∀ k : Nat, r + dRow + (k : Int) * dRow = r + ((k + 1 : Nat) : Int) * dRow := by
      intro k; push_cast; ring
    have shiftC : ∀ k : Nat, c + dCol + (k : Int) * dCol = c + ((k + 1 : Nat) : Int) * dCol := by
      intro k; push_cast; ring
    unfold rayAttack
    dsimp only
    by_cases hin : isInsideBoard r c = true
    · rw [if_pos hin]
      by_cases hp : getCell b r c = EMPTY_CELL
      · rw [if_neg (by simpa using hp), ih]
        constructor
        · rintro ⟨k, hk, hin', hat, hbet⟩
          refine ⟨k + 1, by omega, ?_, ?_, ?_⟩
          · rw [← shiftR, ← shiftC]; exact hin'
          · rw [← shiftR, ← shiftC]; exact hat
          · intro j hj
            cases j with
            | zero => simpa using ⟨hin, hp⟩
            | succ j =>
              rw [← shiftR, ← shiftC]
              exact hbet j (by omega)
        · rintro ⟨k, hk, hin', hat, hbet⟩
          cases k with
          | zero =>
            exfalso
            simp only [Nat.cast_zero, zero_mul, add_zero] at hat
            rw [hp] at hat
            split at hat
            · rcases hat with h | h
              · exact hw1 h.symm
              · exact hw2 h.symm
            · rcases hat with h | h
              · exact hb1 h.symm
              · exact hb2 h.symm
          | succ k =>
            refine ⟨k, by omega, ?_, ?_, ?_⟩
            · rw [shiftR, shiftC]; exact hin'
            · rw [shiftR, shiftC]; exact hat
            · intro j hj
              rw [shiftR, shiftC]
              exact hbet (j + 1) (by omega)
      · rw [if_pos (by simpa using hp)]
        constructor
        · intro h
          refine ⟨0, by omega, by simpa using hin, ?_, by intro j hj; omega⟩
          simp only [Nat.cast_zero, zero_mul, add_zero]
          by_cases hs : side = SIDE_WHITE
          · simpa [hs] using h
          · simpa [hs] using h
        · rintro ⟨k, hk, hin', hat, hbet⟩
          cases k with
          | zero =>
            simp only [Nat.cast_zero, zero_mul, add_zero] at hat
            by_cases hs : side = SIDE_WHITE
            · simpa [hs] using hat
            · simpa [hs] using hat
          | succ k =>
            exfalso
            have := (hbet 0 (by omega)).2
            simp only [Nat.cast_zero, zero_mul, add_zero] at this
            exact hp this
    · rw [if_neg hin]
      constructor
      · intro h; simp at h
      · rintro ⟨k, hk, hin', hat, hbet⟩
        exfalso
        cases k with
        | zero => simp only [Nat.cast_zero, zero_mul, add_zero] at hin'; exact hin hin'
        | succ k =>
          have := (hbet 0 (by omega)).1
          simp only [Nat.cast_zero, zero_mul, add_zero] at this
          exact hin this


/-- The ray loop as `isCellAttacked` runs it (8 steps, starting one step away from the
square): the budget is never the reason for the answer. -/
theorem rayAttack_eight (b : Board) (side : Int) (w1 b1 w2 b2 : Char) (row col dr dc : Int)
    (hw1 : ch w1 ≠ EMPTY_CELL) (hw2 : ch w2 ≠ EMPTY_CELL) (hb1 : ch b1 ≠ EMPTY_CELL)
    (hb2 : ch b2 ≠ EMPTY_CELL)
    (hdr : dr = 1 ∨ dr = -1 ∨ dr = 0) (hdc : dc = 1 ∨ dc = -1 ∨ dc = 0)
    (hne : ¬(dr = 0 ∧ dc = 0)) :
    rayAttack b side (ch w1) (ch w2) (ch b1) (ch b2) dr dc 8 (row + dr) (col + dc) = true ↔
      ∃ n : Nat, 1 ≤ n ∧
        isInsideBoard (row + n * dr) (col + n * dc) = true ∧
        (getCell b (row + n * dr) (col + n * dc) = pieceOf side w1 b1 ∨
         getCell b (row + n * dr) (col + n * dc) = pieceOf side w2 b2) ∧
        ∀ j : Nat, 1 ≤ j → j < n →
          isInsideBoard (row + j * dr) (col + j * dc) = true ∧
          getCell b (row + j * dr) (col + j * dc) = EMPTY_CELL := by
  have shiftR : ∀ k : Nat, row + dr + (k : Int) * dr = row + ((k + 1 : Nat) : Int) * dr := by
    intro k; push_cast; ring
  have shiftC : ∀ k : Nat, col + dc + (k : Int) * dc = col + ((k + 1 : Nat) : Int) * dc := by
    intro k; push_cast; ring
  have hpiece : ∀ x : Int,
      (if side = SIDE_WHITE then x = ch w1 ∨ x = ch w2 else x = ch b1 ∨ x = ch b2) ↔
      (x = pieceOf side w1 b1 ∨ x = pieceOf side w2 b2) := by
    intro x
    unfold pieceOf
    by_cases hs : side = SIDE_WHITE <;> simp [hs]
  rw [rayAttack_iff b side _ _ _ _ dr dc hw1 hw2 hb1 hb2]
  constructor
  · rintro ⟨k, _, hin, hat, hbet⟩
    refine ⟨k + 1, by omega, ?_, ?_, ?_⟩
    · rw [← shiftR, ← shiftC]; exact hin
    · rw [← shiftR, ← shiftC]; exact (hpiece _).mp hat
    · intro j hj1 hj2
      obtain ⟨j, rfl⟩ : ∃ i, j = i + 1 := ⟨j - 1, by omega⟩
      rw [← shiftR, ← shiftC]
      exact hbet j (by omega)
  · rintro ⟨n, hn, hin, hat, hbet⟩
    obtain ⟨k, rfl⟩ : ∃ i, n = i + 1 := ⟨n - 1, by omega⟩
    refine ⟨k, ?_, ?_, ?_, ?_⟩
    · by_contra hk
      have h1 := (hbet 1 (by omega) (by omega)).1
      rw [isInsideBoard_iff] at h1 hin
      push_cast at h1 hin
      rcases hdr with rfl | rfl | rfl <;> rcases hdc with rfl | rfl | rfl <;>
        first
          | exact hne ⟨rfl, rfl⟩
          | (simp only [mul_one, mul_neg, mul_zero, one_mul] at h1 hin; omega)
    · rw [shiftR, shiftC]; exact hin
    · rw [shiftR, shiftC]; exact (hpiece _).mpr hat
    · intro j hj
      rw [shiftR, shiftC]
      exact hbet (j + 1) (by omega) (by omega)

theorem any_dirs_iff (b : Board) (side : Int) (w1 b1 w2 b2 : Char) (row col : Int)
    (dirs : List (Int × Int))
    (hw1 : ch w1 ≠ EMPTY_CELL) (hw2 : ch w2 ≠ EMPTY_CELL) (hb1 : ch b1 ≠ EMPTY_CELL)
    (hb2 : ch b2 ≠ EMPTY_CELL)
    (hdirs : ∀ d ∈ dirs, (d.1 = 1 ∨ d.1 = -1 ∨ d.1 = 0) ∧ (d.2 = 1 ∨ d.2 = -1 ∨ d.2 = 0) ∧
      ¬(d.1 = 0 ∧ d.2 = 0)) :
    dirs.any (fun d => rayAttack b side (ch w1) (ch w2) (ch b1) (ch b2) d.1 d.2 8
      (row + d.1) (col + d.2)) = true ↔ LineAttacks b row col side dirs w1 b1 w2 b2 := by
  unfold LineAttacks
  rw [List.any_eq_true]
  constructor
  · rintro ⟨d, hd, h⟩
    obtain ⟨h1, h2, h3⟩ := hdirs d hd
    exact ⟨d, hd, (rayAttack_eight b side w1 b1 w2 b2 row col d.1 d.2 hw1 hw2 hb1 hb2 h1 h2 h3).mp h⟩
  · rintro ⟨d, hd, h⟩
    obtain ⟨h1, h2, h3⟩ := hdirs d hd
    exact ⟨d, hd, (rayAttack_eight b side w1 b1 w2 b2 row col d.1 d.2 hw1 hw2 hb1 hb2 h1 h2 h3).mpr h⟩

theorem linearDirs_unit : ∀ d ∈ linearDirs, (d.1 = 1 ∨ d.1 = -1 ∨ d.1 = 0) ∧
    (d.2 = 1 ∨ d.2 = -1 ∨ d.2 = 0) ∧ ¬(d.1 = 0 ∧ d.2 = 0) := by
  decide

theorem diagDirs_unit : ∀ d ∈ diagDirs, (d.1 = 1 ∨ d.1 = -1 ∨ d.1 = 0) ∧
    (d.2 = 1 ∨ d.2 = -1 ∨ d.2 = 0) ∧ ¬(d.1 = 0 ∧ d.2 = 0) := by
  decide

theorem knightAny_iff (b : Board) (row col side : Int)
    (hside : side = SIDE_WHITE ∨ side = SIDE_BLACK) :
    knightOffsets.any (fun o =>
      isInsideBoard (row + o.1) (col + o.2) &&
      (decide (side = SIDE_WHITE ∧ getCell b (row + o.1) (col + o.2) = ch 'N') ||
       decide (side = SIDE_BLACK ∧ getCell b (row + o.1) (col + o.2) = ch 'n'))) = true ↔
    KnightAttacks b row col side := by
  unfold KnightAttacks pieceOf
  rw [List.any_eq_true]
  rcases hside with rfl | rfl <;> simp [SIDE_WHITE, SIDE_BLACK]

theorem kingAny_iff (b : Board) (row col side : Int)
    (hside : side = SIDE_WHITE ∨ side = SIDE_BLACK) :
    ([-1, 0, 1] : List Int).any (fun dr => ([-1, 0, 1] : List Int).any (fun dc =>
      !(decide (dr = 0 ∧ dc = 0)) &&
      isInsideBoard (row + dr) (col + dc) &&
      (decide (side = SIDE_WHITE ∧ getCell b (row + dr) (col + dc) = ch 'K') ||
       decide (side = SIDE_BLACK ∧ getCell b (row + dr) (col + dc) = ch 'k')))) = true ↔
    KingAttacks b row col side := by
  unfold KingAttacks pieceOf
  rcases hside with rfl | rfl <;> simp [SIDE_WHITE, SIDE_BLACK]

theorem attack_chain_iff (p1 p2 : Prop) [Decidable p1] [Decidable p2] (n l d k : Bool) :
    (if p1 then true else if p2 then true else if n = true then true
      else if l = true then true else if d = true then true else k) = true ↔
    (p1 ∨ p2) ∨ n = true ∨ l = true ∨ d = true ∨ k = true := by
  by_cases h1 : p1 <;> by_cases h2 : p2 <;> cases n <;> cases l <;> cases d <;> cases k <;>
    simp [h1, h2]

/-- Claim C10. For every board, square and attacker side, `isCellAttacked` returns true
if and only if a pawn of the attacker stands diagonally adjacent on the row it attacks
from, or a knight of the attacker stands at a knight offset, or a rook or queen of
the attacker stands on the same row or column with every square strictly between
empty, or a bishop or queen of the attacker stands on a shared diagonal with every
square strictly between empty, or the attacker's king stands on an adjacent square. -/
theorem isCellAttacked_iff (b : Board) (row col attackerSide : Int)
    (hside : attackerSide = SIDE_WHITE ∨ attackerSide = SIDE_BLACK) :
    isCellAttacked b row col attackerSide = true ↔
      PawnAttacks b row col attackerSide ∨
      KnightAttacks b row col attackerSide ∨
      LineAttacks b row col attackerSide linearDirs 'R' 'r' 'Q' 'q' ∨
      LineAttacks b row col attackerSide diagDirs 'B' 'b' 'Q' 'q' ∨
      KingAttacks b row col attackerSide := by
  have hl := any_dirs_iff b attackerSide 'R' 'r' 'Q' 'q' row col linearDirs
    (by decide) (by decide) (by decide) (by decide) linearDirs_unit
  have hd := any_dirs_iff b attackerSide 'B' 'b' 'Q' 'q' row col diagDirs
    (by decide) (by decide) (by decide) (by decide) diagDirs_unit
  have hn := knightAny_iff b row col attackerSide hside
  have hk := kingAny_iff b row col attackerSide hside
  rw [← hl, ← hd, ← hn, ← hk]
  exact attack_chain_iff _ _ _ _ _ _


/-- Claim C10 at a concrete input: the square e1 and the attacker Black in the final
position of the fool's mate. -/
theorem isCellAttacked_iff_witness :
    (SIDE_BLACK = SIDE_WHITE ∨ SIDE_BLACK = SIDE_BLACK) ∧
    (isCellAttacked posFoolsMate.chessBoard 7 4 SIDE_BLACK = true ↔
      PawnAttacks posFoolsMate.chessBoard 7 4 SIDE_BLACK ∨
      KnightAttacks posFoolsMate.chessBoard 7 4 SIDE_BLACK ∨
      LineAttacks posFoolsMate.chessBoard 7 4 SIDE_BLACK linearDirs 'R' 'r' 'Q' 'q' ∨
      LineAttacks posFoolsMate.chessBoard 7 4 SIDE_BLACK diagDirs 'B' 'b' 'Q' 'q' ∨
      KingAttacks posFoolsMate.chessBoard 7 4 SIDE_BLACK) :=
  ⟨Or.inr rfl, isCellAttacked_iff posFoolsMate.chessBoard 7 4 SIDE_BLACK (Or.inr rfl)⟩

/-! ## Reading and writing cells -/

/-- Reading a cell after a write: the written value on the written square (when it is
on the board), the old value elsewhere. -/
theorem getCell_setCell (b : Board) (r c v r' c' : Int) :
    getCell (setCell b r c v) r' c' =
      if isInsideBoard r' c' = true ∧ r' = r ∧ c' = c then v else getCell b r' c' := by
  unfold getCell setCell
  by_cases h : 0 ≤ r' ∧ r' < 8 ∧ 0 ≤ c' ∧ c' < 8
  · have hr : ((r'.toNat : Nat) : Int) = r' := Int.toNat_of_nonneg h.1
    have hc : ((c'.toNat : Nat) : Int) = c' := Int.toNat_of_nonneg h.2.2.1
    simp only [dif_pos h, hr, hc, isInsideBoard_iff]
    by_cases h2 : r' = r ∧ c' = c
    · rw [if_pos h2, if_pos ⟨h, h2⟩]
    · rw [if_neg h2, if_neg (fun hh => h2 hh.2)]
  · rw [dif_neg h, dif_neg h, if_neg]
    rw [isInsideBoard_iff]
    exact fun hh => h hh.1

theorem getCell_clone (b : Board) (r c : Int) : getCell (clone_board b) r c = getCell b r c :=
  rfl

/-- A cell that holds a character other than NUL is a cell of the board. -/
theorem inside_of_getCell_ne_zero (b : Board) (r c : Int) (h : getCell b r c ≠ 0) :
    isInsideBoard r c = true := by
  unfold getCell at h
  by_cases hin : 0 ≤ r ∧ r < 8 ∧ 0 ≤ c ∧ c < 8
  · exact (isInsideBoard_iff r c).mpr hin
  · rw [dif_neg hin] at h; exact absurd rfl h

/-! ## The scan order -/

/-- The scan visits exactly the squares of the board. -/
theorem mem_allSquares (p : Int × Int) : p ∈ allSquares ↔ isInsideBoard p.1 p.2 = true := by
  obtain ⟨r, c⟩ := p
  rw [isInsideBoard_iff]
  simp only [allSquares, idx8, List.mem_flatMap, List.mem_map, List.mem_cons, List.mem_singleton,
    List.not_mem_nil, or_false, Prod.mk.injEq]
  constructor
  · rintro ⟨a, ha, b, hb, rfl, rfl⟩
    omega
  · intro h
    exact ⟨r, by omega, c, by omega, rfl, rfl⟩

/-- Row-major order on squares. -/
theorem allSquares_rowMajor :
    allSquares.Pairwise (fun p q => p.1 < q.1 ∨ (p.1 = q.1 ∧ p.2 < q.2)) := by
  decide

/-- In a list sorted by `R`, `find?` returns the element that satisfies the test and
has no `R`-predecessor satisfying it. -/
theorem find?_first {α : Type} (R : α → α → Prop) (p : α → Bool) (l : List α)
    (hl : l.Pairwise R) (x : α) (hx : x ∈ l) (hp : p x = true)
    (hfirst : ∀ y ∈ l, R y x → p y = false) : l.find? p = some x := by
  induction l with
  | nil => simp at hx
  | cons a t ih =>
    rw [List.pairwise_cons] at hl
    rcases List.mem_cons.mp hx with rfl | hxt
    · simp [hp]
    · have hpa : p a = false := hfirst a (List.mem_cons_self _ _) (hl.1 x hxt)
      rw [List.find?_cons_of_neg _ (by simp [hpa])]
      exact ih hl.2 hxt (fun y hy hR => hfirst y (List.mem_cons_of_mem _ hy) hR)

/-! ## Check detection -/

/-- Claim C11. If no king of `side` is on the board, `isKingInCheck` returns true;
otherwise it returns `isCellAttacked(board, kr, kc, opponent)` for the first square
`(kr, kc)` in row-major order that holds the side's king. -/
theorem isKingInCheck_spec (b : Board) (side : Int) :
    ((∀ r c : Int, isInsideBoard r c = true → getCell b r c ≠ pieceOf side 'K' 'k') →
      isKingInCheck b side = true) ∧
    (∀ kr kc : Int, isInsideBoard kr kc = true → getCell b kr kc = pieceOf side 'K' 'k' →
      (∀ r c : Int, isInsideBoard r c = true → (r < kr ∨ (r = kr ∧ c < kc)) →
        getCell b r c ≠ pieceOf side 'K' 'k') →
      isKingInCheck b side = isCellAttacked b kr kc (opponentOf side)) := by
  constructor
  · intro h
    have hnone : findKing b (pieceOf side 'K' 'k') = none := by
      unfold findKing
      rw [List.find?_eq_none]
      intro p hp
      simpa using h p.1 p.2 ((mem_allSquares p).mp hp)
    unfold isKingInCheck
    unfold pieceOf at hnone
    simp only [hnone]
  · intro kr kc hin hk hfirst
    have hsome : findKing b (pieceOf side 'K' 'k') = some (kr, kc) := by
      unfold findKing
      apply find?_first _ _ _ allSquares_rowMajor
      · exact (mem_allSquares (kr, kc)).mpr hin
      · simpa using hk
      · intro y hy hR
        simpa using hfirst y.1 y.2 ((mem_allSquares y).mp hy) hR
    unfold isKingInCheck
    unfold pieceOf at hsome
    simp only [hsome]
    rfl

/-- Claim C11 at concrete inputs: the initial layout without the white king, and the
final position of the fool's mate, where the white king is found on e1 = (7, 4). -/
theorem isKingInCheck_spec_witness :
    isKingInCheck noWhiteKingState.chessBoard SIDE_WHITE = true ∧
    getCell posFoolsMate.chessBoard 7 4 = pieceOf SIDE_WHITE 'K' 'k' ∧
    isKingInCheck posFoolsMate.chessBoard SIDE_WHITE =
      isCellAttacked posFoolsMate.chessBoard 7 4 (opponentOf SIDE_WHITE) :=
  ⟨(isKingInCheck_spec noWhiteKingState.chessBoard SIDE_WHITE).1
      (fun r c hin =>
        (by decide : ∀ p ∈ allSquares,
          getCell noWhiteKingState.chessBoard p.1 p.2 ≠ pieceOf SIDE_WHITE 'K' 'k')
          (r, c) ((mem_allSquares (r, c)).mpr hin)),
   by decide,
   (isKingInCheck_spec posFoolsMate.chessBoard SIDE_WHITE).2 7 4 (by decide) (by decide)
      (fun r c hin hlt =>
        (by decide : ∀ p ∈ allSquares, (p.1 < 7 ∨ (p.1 = 7 ∧ p.2 < 4)) →
          getCell posFoolsMate.chessBoard p.1 p.2 ≠ pieceOf SIDE_WHITE 'K' 'k')
          (r, c) ((mem_allSquares (r, c)).mpr hin) hlt)⟩

/-! ## The move applier -/

theorem markKingMoved_fields (p : Int) (g : Globals) :
    (markKingMoved p g).whiteQRookMoved = g.whiteQRookMoved ∧
    (markKingMoved p g).whiteKRookMoved = g.whiteKRookMoved ∧
    (markKingMoved p g).blackQRookMoved = g.blackQRookMoved ∧
    (markKingMoved p g).blackKRookMoved = g.blackKRookMoved ∧
    (markKingMoved p g).enPassantTargetRow = g.enPassantTargetRow ∧
    (markKingMoved p g).enPassantTargetCol = g.enPassantTargetCol ∧
    (p = ch 'K' → (markKingMoved p g).whiteKingMoved = 1 ∧
      (markKingMoved p g).blackKingMoved = g.blackKingMoved) ∧
    (p ≠ ch 'K' → (markKingMoved p g).blackKingMoved = 1 ∧
      (markKingMoved p g).whiteKingMoved = g.whiteKingMoved) := by
  unfold markKingMoved
  split <;> simp_all

theorem markRookMoved_enPassant (p : Int) (m : ChessMove) (g : Globals) :
    (markRookMoved p m g).enPassantTargetRow = g.enPassantTargetRow ∧
    (markRookMoved p m g).enPassantTargetCol = g.enPassantTargetCol := by
  unfold markRookMoved
  dsimp only
  split_ifs <;> exact ⟨rfl, rfl⟩

theorem abs_eq_iff (x n : Int) (hn : 0 < n) : abs x = n ↔ x = n ∨ x = -n := by
  unfold abs
  split <;> omega

theorem tolower_eq_k (p : Int) : tolower p = ch 'k' ↔ p = ch 'K' ∨ p = ch 'k' := by
  have h1 : ch 'k' = 107 := by decide
  have h2 : ch 'K' = 75 := by decide
  unfold tolower
  rw [h1, h2]
  split <;> omega

theorem tolower_eq_p (p : Int) : tolower p = ch 'p' ↔ p = ch 'P' ∨ p = ch 'p' := by
  have h1 : ch 'p' = 112 := by decide
  have h2 : ch 'P' = 80 := by decide
  unfold tolower
  rw [h1, h2]
  split <;> omega

/-- Claim C13. For a move with no promotion kind, after `execute_move_on_board` the
en-passant target is the intermediate square ((src_row + dst_row) / 2, src_col) when
the moving piece is a pawn, the row delta is exactly 2 and the move is not handled as
an en-passant capture (column delta 1 onto an empty square); in every other case it
is (-1, -1).  The target before the call plays no part. -/
theorem execute_en_passant_target (b : Board) (m : ChessMove) (g : Globals)
    (hpromo : m.promoteTo = 0) :
    ((tolower (getCell b m.src_row m.src_col) = ch 'p' ∧ abs (m.dst_row - m.src_row) = 2 ∧
        ¬(abs (m.dst_col - m.src_col) = 1 ∧ getCell b m.dst_row m.dst_col = EMPTY_CELL)) →
      (execute_move_on_board b m g).2.enPassantTargetRow = Int.tdiv (m.src_row + m.dst_row) 2 ∧
      (execute_move_on_board b m g).2.enPassantTargetCol = m.src_col) ∧
    (¬(tolower (getCell b m.src_row m.src_col) = ch 'p' ∧ abs (m.dst_row - m.src_row) = 2 ∧
        ¬(abs (m.dst_col - m.src_col) = 1 ∧ getCell b m.dst_row m.dst_col = EMPTY_CELL)) →
      (execute_move_on_board b m g).2.enPassantTargetRow = -1 ∧
      (execute_move_on_board b m g).2.enPassantTargetCol = -1) := by
  have hkp : ch 'k' ≠ ch 'p' := by decide
  unfold execute_move_on_board
  dsimp only
  by_cases hc : tolower (getCell b m.src_row m.src_col) = ch 'k' ∧
      abs (m.dst_col - m.src_col) = 2
  · rw [if_pos hc]
    have hk := markKingMoved_fields (getCell b m.src_row m.src_col)
      { g with enPassantTargetRow := -1, enPassantTargetCol := -1 }
    constructor
    · rintro ⟨h1, -, -⟩
      exact absurd (hc.1.symm.trans h1) hkp
    · intro _
      exact ⟨hk.2.2.2.2.1, hk.2.2.2.2.2.1⟩
  · rw [if_neg hc]
    by_cases he : tolower (getCell b m.src_row m.src_col) = ch 'p' ∧
        abs (m.dst_col - m.src_col) = 1 ∧ getCell b m.dst_row m.dst_col = EMPTY_CELL
    · rw [if_pos he]
      constructor
      · rintro ⟨-, -, h3⟩
        exact absurd he.2 h3
      · intro _
        exact ⟨rfl, rfl⟩
    · rw [if_neg he]
      simp only [hpromo, ne_eq, not_true_eq_false, if_false]
      unfold markEnPassant
      constructor
      · rintro ⟨h1, h2, -⟩
        rw [if_pos ⟨h1, h2⟩]
        exact ⟨rfl, rfl⟩
      · intro hn
        have hn2 : ¬(tolower (getCell b m.src_row m.src_col) = ch 'p' ∧
            abs (m.dst_row - m.src_row) = 2) := by
          rintro ⟨h1, h2⟩
          exact hn ⟨h1, h2, fun h3 => he ⟨h1, h3⟩⟩
        rw [if_neg hn2]
        have hr := markRookMoved_enPassant (getCell b m.src_row m.src_col) m
          (if tolower (getCell b m.src_row m.src_col) = ch 'k' then
            markKingMoved (getCell b m.src_row m.src_col)
              { g with enPassantTargetRow := -1, enPassantTargetCol := -1 }
           else { g with enPassantTargetRow := -1, enPassantTargetCol := -1 })
        rw [hr.1, hr.2]
        split
        · have hk := markKingMoved_fields (getCell b m.src_row m.src_col)
            { g with enPassantTargetRow := -1, enPassantTargetCol := -1 }
          exact ⟨hk.2.2.2.2.1, hk.2.2.2.2.2.1⟩
        · exact ⟨rfl, rfl⟩

/-- Claim C13 at concrete inputs: from the initial position `e2e4` sets the target to
e3 = (5, 4), and `g1f3` leaves (-1, -1). -/
theorem execute_en_passant_target_witness :
    (mv4 'e' '2' 'e' '4').promoteTo = 0 ∧
    (execute_move_on_board initialize_board (mv4 'e' '2' 'e' '4') initGlobals).2.enPassantTargetRow
      = 5 ∧
    (execute_move_on_board initialize_board (mv4 'e' '2' 'e' '4') initGlobals).2.enPassantTargetCol
      = 4 ∧
    (execute_move_on_board initialize_board (mv4 'g' '1' 'f' '3') initGlobals).2.enPassantTargetRow
      = -1 ∧
    (execute_move_on_board initialize_board (mv4 'g' '1' 'f' '3') initGlobals).2.enPassantTargetCol
      = -1 :=
  ⟨rfl,
   ((execute_en_passant_target initialize_board (mv4 'e' '2' 'e' '4') initGlobals rfl).1
     (by decide)).1,
   ((execute_en_passant_target initialize_board (mv4 'e' '2' 'e' '4') initGlobals rfl).1
     (by decide)).2,
   (execute_en_passant_target initialize_board (mv4 'g' '1' 'f' '3') initGlobals rfl).2
     (by decide)⟩

/-- Claim C14. When a pawn stands on the source square, the column delta is exactly 1
and the destination square is empty, `execute_move_on_board` empties the source, puts
the pawn on the destination, empties the square one rank behind the destination
(dst_row + 1 for a white pawn, dst_row - 1 for a black pawn, same column), leaves
every other square unchanged and changes no moved flag. -/
theorem execute_en_passant_capture (b : Board) (m : ChessMove) (g : Globals)
    (hpawn : tolower (getCell b m.src_row m.src_col) = ch 'p')
    (hcol : abs (m.dst_col - m.src_col) = 1)
    (hempty : getCell b m.dst_row m.dst_col = EMPTY_CELL)
    (hbehind : isInsideBoard
      (if getCell b m.src_row m.src_col = ch 'P' then m.dst_row + 1 else m.dst_row - 1)
      m.dst_col = true) :
    getCell (execute_move_on_board b m g).1 m.src_row m.src_col = EMPTY_CELL ∧
    getCell (execute_move_on_board b m g).1 m.dst_row m.dst_col =
      getCell b m.src_row m.src_col ∧
    getCell (execute_move_on_board b m g).1
      (if getCell b m.src_row m.src_col = ch 'P' then m.dst_row + 1 else m.dst_row - 1)
      m.dst_col = EMPTY_CELL ∧
    (∀ r c : Int, ¬(r = m.src_row ∧ c = m.src_col) → ¬(r = m.dst_row ∧ c = m.dst_col) →
      ¬(r = (if getCell b m.src_row m.src_col = ch 'P' then m.dst_row + 1 else m.dst_row - 1) ∧
        c = m.dst_col) →
      getCell (execute_move_on_board b m g).1 r c = getCell b r c) ∧
    (execute_move_on_board b m g).2.whiteKingMoved = g.whiteKingMoved ∧
    (execute_move_on_board b m g).2.whiteQRookMoved = g.whiteQRookMoved ∧
    (execute_move_on_board b m g).2.whiteKRookMoved = g.whiteKRookMoved ∧
    (execute_move_on_board b m g).2.blackKingMoved = g.blackKingMoved ∧
    (execute_move_on_board b m g).2.blackQRookMoved = g.blackQRookMoved ∧
    (execute_move_on_board b m g).2.blackKRookMoved = g.blackKRookMoved := by
  have hkp : ch 'k' ≠ ch 'p' := by decide
  have he0 : EMPTY_CELL ≠ 0 := by decide
  have hsrc : isInsideBoard m.src_row m.src_col = true := by
    apply inside_of_getCell_ne_zero b
    intro h0
    rw [h0] at hpawn
    revert hpawn
    decide
  have hdst : isInsideBoard m.dst_row m.dst_col = true :=
    inside_of_getCell_ne_zero b _ _ (by rw [hempty]; exact he0)
  have hcne : m.dst_col ≠ m.src_col := by
    intro h
    rw [h, sub_self] at hcol
    revert hcol
    decide
  have hnc : ¬(tolower (getCell b m.src_row m.src_col) = ch 'k' ∧
      abs (m.dst_col - m.src_col) = 2) := fun h => hkp (h.1.symm.trans hpawn)
  unfold execute_move_on_board
  dsimp only
  rw [if_neg hnc, if_pos ⟨hpawn, hcol, hempty⟩]
  by_cases hP : getCell b m.src_row m.src_col = ch 'P'
  · simp only [hP, if_true] at hbehind ⊢
    simp only [getCell_setCell, hsrc, hdst, hbehind, true_and]
    refine ⟨?_, ?_, ?_, ?_, trivial⟩
    · rw [if_neg (fun h => hcne h.2.symm), if_neg (fun h => hcne h.2.symm), if_pos trivial]
    · rw [if_neg (fun h => by omega), if_pos trivial]
    · rw [if_pos trivial]
    · intro r c h1 h2 h3
      rw [if_neg (fun h => h3 h.2), if_neg (fun h => h2 h.2), if_neg (fun h => h1 h.2)]
  · simp only [hP, if_false] at hbehind ⊢
    simp only [getCell_setCell, hsrc, hdst, hbehind, true_and]
    refine ⟨?_, ?_, ?_, ?_, trivial⟩
    · rw [if_neg (fun h => hcne h.2.symm), if_neg (fun h => hcne h.2.symm), if_pos trivial]
    · rw [if_neg (fun h => by omega), if_pos trivial]
    · rw [if_pos trivial]
    · intro r c h1 h2 h3
      rw [if_neg (fun h => h3 h.2), if_neg (fun h => h2 h.2), if_neg (fun h => h1 h.2)]

/-- Claim C14 at a concrete input: after 1. e2e4 a7a6 2. e4e5 d7d5 the capture `e5d6`
moves the pawn to d6 and removes the black pawn on d5. -/
theorem execute_en_passant_capture_witness :
    getCell posEnPassant.chessBoard 3 3 = ch 'p' ∧
    getCell (execute_move_on_board posEnPassant.chessBoard (mv4 'e' '5' 'd' '6')
      posEnPassant.globals).1 3 4 = EMPTY_CELL ∧
    getCell (execute_move_on_board posEnPassant.chessBoard (mv4 'e' '5' 'd' '6')
      posEnPassant.globals).1 2 3 = ch 'P' ∧
    getCell (execute_move_on_board posEnPassant.chessBoard (mv4 'e' '5' 'd' '6')
      posEnPassant.globals).1 3 3 = EMPTY_CELL :=
  have h := execute_en_passant_capture posEnPassant.chessBoard (mv4 'e' '5' 'd' '6')
    posEnPassant.globals (by decide) (by decide) (by decide) (by decide)
  ⟨by decide, h.1, h.2.1, h.2.2.1⟩

/-- Claim C12 fails on the code as stated.  With the white king on f1 and the move
f1h1 (a king, column delta 2), `execute_move_on_board` first puts the king on h1 and
then empties h1 as "the rook's corner": the destination does not hold the king. -/
theorem castling_onto_corner_loses_king :
    getCell posKingOnF1.chessBoard 7 5 = ch 'K' ∧
    abs ((mv4 'f' '1' 'h' '1').dst_col - (mv4 'f' '1' 'h' '1').src_col) = 2 ∧
    (mv4 'f' '1' 'h' '1').dst_row = 7 ∧ (mv4 'f' '1' 'h' '1').dst_col = 7 ∧
    getCell (execute_move_on_board posKingOnF1.chessBoard (mv4 'f' '1' 'h' '1')
      posKingOnF1.globals).1 7 7 = EMPTY_CELL := by
  decide

/-- Claim C12, amended.  When a king stands on the source square, the column delta is
exactly 2, the destination is a square of the board and is not the corner square of
the king's rank that the rook is taken from (column 7 going right, column 0 going
left): after `execute_move_on_board` the source is empty, the king is on the
destination, a rook of the king's colour is on the king's original rank at
dst_col - 1 (kingside, column 7 of that rank emptied) or dst_col + 1 (queenside,
column 0 emptied), the mover's king-moved flag is 1, and the four rook-moved flags
and the other king-moved flag are unchanged. -/
theorem execute_castling (b : Board) (m : ChessMove) (g : Globals)
    (hking : tolower (getCell b m.src_row m.src_col) = ch 'k')
    (hcol : abs (m.dst_col - m.src_col) = 2)
    (hdst : isInsideBoard m.dst_row m.dst_col = true)
    (hright : m.dst_col > m.src_col → ¬(m.dst_row = m.src_row ∧ m.dst_col = 7))
    (hleft : ¬(m.dst_col > m.src_col) → ¬(m.dst_row = m.src_row ∧ m.dst_col = 0)) :
    getCell (execute_move_on_board b m g).1 m.src_row m.src_col = EMPTY_CELL ∧
    getCell (execute_move_on_board b m g).1 m.dst_row m.dst_col =
      getCell b m.src_row m.src_col ∧
    (m.dst_col > m.src_col →
      getCell (execute_move_on_board b m g).1 m.src_row (m.dst_col - 1) =
        (if getCell b m.src_row m.src_col = ch 'K' then ch 'R' else ch 'r') ∧
      getCell (execute_move_on_board b m g).1 m.src_row 7 = EMPTY_CELL) ∧
    (¬(m.dst_col > m.src_col) →
      getCell (execute_move_on_board b m g).1 m.src_row (m.dst_col + 1) =
        (if getCell b m.src_row m.src_col = ch 'K' then ch 'R' else ch 'r') ∧
      getCell (execute_move_on_board b m g).1 m.src_row 0 = EMPTY_CELL) ∧
    (getCell b m.src_row m.src_col = ch 'K' →
      (execute_move_on_board b m g).2.whiteKingMoved = 1 ∧
      (execute_move_on_board b m g).2.blackKingMoved = g.blackKingMoved) ∧
    (getCell b m.src_row m.src_col ≠ ch 'K' →
      (execute_move_on_board b m g).2.blackKingMoved = 1 ∧
      (execute_move_on_board b m g).2.whiteKingMoved = g.whiteKingMoved) ∧
    (execute_move_on_board b m g).2.whiteQRookMoved = g.whiteQRookMoved ∧
    (execute_move_on_board b m g).2.whiteKRookMoved = g.whiteKRookMoved ∧
    (execute_move_on_board b m g).2.blackQRookMoved = g.blackQRookMoved ∧
    (execute_move_on_board b m g).2.blackKRookMoved = g.blackKRookMoved := by
  have hsrc : isInsideBoard m.src_row m.src_col = true := by
    apply inside_of_getCell_ne_zero b
    intro h0
    rw [h0] at hking
    revert hking
    decide
  have hcases := (abs_eq_iff _ 2 (by decide)).mp hcol
  have hs := (isInsideBoard_iff _ _).mp hsrc
  have hd := (isInsideBoard_iff _ _).mp hdst
  have hk := markKingMoved_fields (getCell b m.src_row m.src_col)
    { g with enPassantTargetRow := -1, enPassantTargetCol := -1 }
  unfold execute_move_on_board
  dsimp only
  rw [if_pos ⟨hking, hcol⟩]
  refine ⟨?_, ?_, ?_, ?_, fun h => hk.2.2.2.2.2.2.1 h, fun h => hk.2.2.2.2.2.2.2 h,
    hk.1, hk.2.1, hk.2.2.1, hk.2.2.2.1⟩ <;> clear hk
  · by_cases hdir : m.dst_col > m.src_col
    · rw [if_pos hdir]
      simp only [getCell_setCell, isInsideBoard_iff]
      split_ifs <;> first | rfl | (exfalso; omega) | (exfalso; simp_all)
    · rw [if_neg hdir]
      simp only [getCell_setCell, isInsideBoard_iff]
      split_ifs <;> first | rfl | (exfalso; omega) | (exfalso; simp_all)
  · by_cases hdir : m.dst_col > m.src_col
    · have hr := hright hdir
      rw [if_pos hdir]
      simp only [getCell_setCell, isInsideBoard_iff]
      split_ifs <;> first | rfl | (exfalso; omega) | (exfalso; simp_all)
    · have hl := hleft hdir
      rw [if_neg hdir]
      simp only [getCell_setCell, isInsideBoard_iff]
      split_ifs <;> first | rfl | (exfalso; omega) | (exfalso; simp_all)
  · intro hdir
    rw [if_pos hdir]
    simp only [getCell_setCell, isInsideBoard_iff]
    constructor <;> split_ifs <;> first | rfl | (exfalso; omega) | (exfalso; simp_all <;> omega)
  · intro hdir
    rw [if_neg hdir]
    simp only [getCell_setCell, isInsideBoard_iff]
    constructor <;> split_ifs <;> first | rfl | (exfalso; omega) | (exfalso; simp_all <;> omega)

/-- Claim C12 at a concrete input: after 1. g1f3 g8f6 2. g2g3 g7g6 3. f1g2 f8g7, White's
e1g1 leaves the king on g1, the rook on f1, and e1 and h1 empty, with
`whiteKingMoved = 1`. -/
theorem execute_castling_witness :
    getCell (execute_move_on_board posCastleReady.chessBoard (mv4 'e' '1' 'g' '1')
      posCastleReady.globals).1 7 4 = EMPTY_CELL ∧
    getCell (execute_move_on_board posCastleReady.chessBoard (mv4 'e' '1' 'g' '1')
      posCastleReady.globals).1 7 6 = ch 'K' ∧
    getCell (execute_move_on_board posCastleReady.chessBoard (mv4 'e' '1' 'g' '1')
      posCastleReady.globals).1 7 5 = ch 'R' ∧
    getCell (execute_move_on_board posCastleReady.chessBoard (mv4 'e' '1' 'g' '1')
      posCastleReady.globals).1 7 7 = EMPTY_CELL ∧
    (execute_move_on_board posCastleReady.chessBoard (mv4 'e' '1' 'g' '1')
      posCastleReady.globals).2.whiteKingMoved = 1 :=
  have h := execute_castling posCastleReady.chessBoard (mv4 'e' '1' 'g' '1')
    posCastleReady.globals (by decide) (by decide) (by decide) (by decide) (by decide)
  ⟨h.1, h.2.1.trans (by decide), (h.2.2.1 (by decide)).1.trans (by decide),
   (h.2.2.1 (by decide)).2, (h.2.2.2.2.1 (by decide)).1⟩

/-- Claim C15 fails on the code as stated.  A white pawn on a7 moves to a8 with the
promotion value `'q'`: the destination then holds `'q'`, a lowercase (Black) symbol,
although the piece that moved was White's. -/
theorem promotion_keeps_supplied_case :
    getCell promotionBoard 1 0 = ch 'P' ∧
    isPieceWhite (getCell promotionBoard 1 0) = true ∧
    getCell (execute_move_on_board promotionBoard ⟨1, 0, 0, 0, ch 'q'⟩ initGlobals).1 0 0
      = ch 'q' ∧
    isPieceWhite (getCell (execute_move_on_board promotionBoard ⟨1, 0, 0, 0, ch 'q'⟩
      initGlobals).1 0 0) = false := by
  decide

/-- Claim C15, amended.  For a move handled as a normal move (not castling, not
en-passant capture) whose promotion value is set and whose destination is on the
board, after `execute_move_on_board` the destination holds exactly the supplied
promotion value, in the letter case in which it was supplied. -/
theorem execute_promotion (b : Board) (m : ChessMove) (g : Globals)
    (hnc : ¬(tolower (getCell b m.src_row m.src_col) = ch 'k' ∧
      abs (m.dst_col - m.src_col) = 2))
    (hne : ¬(tolower (getCell b m.src_row m.src_col) = ch 'p' ∧
      abs (m.dst_col - m.src_col) = 1 ∧ getCell b m.dst_row m.dst_col = EMPTY_CELL))
    (hpromo : m.promoteTo ≠ 0)
    (hdst : isInsideBoard m.dst_row m.dst_col = true) :
    getCell (execute_move_on_board b m g).1 m.dst_row m.dst_col = m.promoteTo := by
  unfold execute_move_on_board
  dsimp only
  rw [if_neg hnc, if_neg hne, getCell_setCell, if_pos ⟨hdst, rfl, rfl⟩, if_pos hpromo]

/-- Claim C15 at a concrete input: the white pawn on a7 promotes on a8 with the value
`'Q'`. -/
theorem execute_promotion_witness :
    getCell (execute_move_on_board promotionBoard ⟨1, 0, 0, 0, ch 'Q'⟩ initGlobals).1 0 0
      = ch 'Q' :=
  execute_promotion promotionBoard ⟨1, 0, 0, 0, ch 'Q'⟩ initGlobals (by decide) (by decide)
    (by decide) (by decide)

/-! ## Static evaluation -/

theorem tolower_eq_lower (p l : Int) (hl : 97 ≤ l ∧ l ≤ 122) :
    tolower p = l ↔ p = l - 32 ∨ p = l := by
  unfold tolower
  split <;> omega

/-- What a cell contributes in the loop of `evaluate_board` is its material value. -/
theorem cell_contribution (cell : Int) :
    (if cell = EMPTY_CELL then 0
     else if isPieceWhite cell = true then pieceValue cell
     else - pieceValue cell) = materialOf cell := by
  by_cases hP : cell = ch 'P'; · subst hP; decide
  by_cases hN : cell = ch 'N'; · subst hN; decide
  by_cases hB : cell = ch 'B'; · subst hB; decide
  by_cases hR : cell = ch 'R'; · subst hR; decide
  by_cases hQ : cell = ch 'Q'; · subst hQ; decide
  by_cases hK : cell = ch 'K'; · subst hK; decide
  by_cases hp : cell = ch 'p'; · subst hp; decide
  by_cases hn : cell = ch 'n'; · subst hn; decide
  by_cases hb : cell = ch 'b'; · subst hb; decide
  by_cases hr : cell = ch 'r'; · subst hr; decide
  by_cases hq : cell = ch 'q'; · subst hq; decide
  by_cases hk : cell = ch 'k'; · subst hk; decide
  have hm : materialOf cell = 0 := by
    unfold materialOf
    simp only [hP, hN, hB, hR, hQ, hK, hp, hn, hb, hr, hq, hk, if_false]
  have hv : pieceValue cell = 0 := by
    have e1 : ch 'p' - 32 = ch 'P' := by decide
    have e2 : ch 'n' - 32 = ch 'N' := by decide
    have e3 : ch 'b' - 32 = ch 'B' := by decide
    have e4 : ch 'r' - 32 = ch 'R' := by decide
    have e5 : ch 'q' - 32 = ch 'Q' := by decide
    have e6 : ch 'k' - 32 = ch 'K' := by decide
    unfold pieceValue
    simp only [tolower_eq_lower cell (ch 'p') (by decide), tolower_eq_lower cell (ch 'n') (by decide),
      tolower_eq_lower cell (ch 'b') (by decide), tolower_eq_lower cell (ch 'r') (by decide),
      tolower_eq_lower cell (ch 'q') (by decide), tolower_eq_lower cell (ch 'k') (by decide),
      e1, e2, e3, e4, e5, e6, hP, hN, hB, hR, hQ, hK, hp, hn, hb, hr, hq, hk, or_self, if_false]
  rw [hm, hv]
  split_ifs <;> rfl

/-- One step of the loop of `evaluate_board` adds the material value of the cell. -/
theorem evaluate_step (score cell : Int) :
    (if cell = EMPTY_CELL then score
     else if isPieceWhite cell = true then score + pieceValue cell
     else score - pieceValue cell) = score + materialOf cell := by
  rw [← cell_contribution cell]
  split_ifs <;> omega

theorem foldl_add_eq_sum {α : Type} (f : α → Int) (l : List α) (init : Int) :
    l.foldl (fun acc x => acc + f x) init = init + (l.map f).sum := by
  induction l generalizing init with
  | nil => simp
  | cons x xs ih => simp [ih, add_assoc]

theorem sum_allSquares (b : Board) (f : Int → Int) :
    (allSquares.map (fun sq => f (getCell b sq.1 sq.2))).sum =
      ∑ i : Fin 8, ∑ j : Fin 8, f (b i j) := by
  simp only [Fin.sum_univ_eight]
  simp [allSquares, idx8, getCell]
  ring

/-- The loop of `evaluate_board` computes the material sum of the board. -/
theorem evaluate_board_eq (b : Board) : evaluate_board b = materialSum b := by
  unfold evaluate_board materialSum
  have h : (fun (score : Int) (sq : Int × Int) =>
      (let piece := getCell b sq.1 sq.2
       if piece = EMPTY_CELL then score
       else if isPieceWhite piece = true then score + pieceValue piece
       else score - pieceValue piece)) =
      (fun score sq => score + materialOf (getCell b sq.1 sq.2)) := by
    funext score sq
    exact evaluate_step score _
  rw [h, foldl_add_eq_sum, zero_add, sum_allSquares]

/-- Claim C16. For every state, side, alpha and beta, `minimax(0, side, alpha, beta)`
returns exactly the material sum of the current board (pawn 100, knight 320, bishop
330, rook 500, queen 900, king 20000, positive for White, negative for Black); the
value does not depend on side, alpha or beta. -/
theorem minimax_zero_material (s : GameState) (side alpha beta : Int) :
    (minimax 0 side alpha beta s).1 = materialSum s.chessBoard := by
  unfold minimax
  exact evaluate_board_eq s.chessBoard

/-! ## Terminal positions and the root of the search -/

/-- Claim C17. For `depth ≥ 1`, if `generateLegalMoves(side)` is empty then
`minimax(depth, side, alpha, beta)` returns -20000 when `isKingInCheck(board, side)`
is true and 0 otherwise. -/
theorem minimax_no_moves (s : GameState) (side alpha beta : Int) (depth : Nat)
    (hd : 1 ≤ depth) (hempty : (generateLegalMoves side s).1 = []) :
    (minimax depth side alpha beta s).1 =
      if isKingInCheck s.chessBoard side = true then -20000 else 0 := by
  obtain ⟨d, rfl⟩ : ∃ d, depth = d + 1 := ⟨depth - 1, by omega⟩
  unfold minimax
  dsimp only
  rw [hempty]
  rfl

/-- Claim C17 at a concrete input: White in the final position of the fool's mate, at
depth 3. -/
theorem minimax_no_moves_witness :
    (generateLegalMoves SIDE_WHITE posFoolsMate).1 = [] ∧
    (minimax 3 SIDE_WHITE (-1000000) 1000000 posFoolsMate).1 =
      if isKingInCheck posFoolsMate.chessBoard SIDE_WHITE = true then -20000 else 0 :=
  ⟨by decide,
   minimax_no_moves posFoolsMate SIDE_WHITE (-1000000) 1000000 3 (by decide) (by decide)⟩

/-- The loop of `choose_best_move`, started with best score `bs` and best move `bm`:
either no move of the list scores above `bs` and `bm` is returned, or the returned
move is the first one of the list with the highest score, and that score is above
`bs`. -/
theorem chooseLoop_result (depth : Nat) (side : Int) (base : GameState)
    (l : List ChessMove) :
    ∀ (bm : ChessMove) (bs : Int),
      ((chooseLoop depth side l bm bs base).1 = bm ∧
        ∀ m ∈ l, moveScore depth side base m ≤ bs) ∨
      (∃ pre post, l = pre ++ (chooseLoop depth side l bm bs base).1 :: post ∧
        bs < moveScore depth side base (chooseLoop depth side l bm bs base).1 ∧
        (∀ m ∈ pre, moveScore depth side base m <
          moveScore depth side base (chooseLoop depth side l bm bs base).1) ∧
        (∀ m ∈ post, moveScore depth side base m ≤
          moveScore depth side base (chooseLoop depth side l bm bs base).1)) := by
  induction l with
  | nil =>
    intro bm bs
    left
    exact ⟨rfl, fun m hm => absurd hm (List.not_mem_nil m)⟩
  | cons mv rest ih =>
    intro bm bs
    have hstep : chooseLoop depth side (mv :: rest) bm bs base =
        if moveScore depth side base mv > bs then
          chooseLoop depth side rest mv (moveScore depth side base mv) base
        else chooseLoop depth side rest bm bs base := by
      conv_lhs => unfold chooseLoop
      dsimp only
      rw [restore_save]
      rfl
    rw [hstep]
    by_cases hgt : moveScore depth side base mv > bs
    · rw [if_pos hgt]
      right
      rcases ih mv (moveScore depth side base mv) with ⟨heq, hle⟩ | ⟨pre, post, hl, hlt, hpre, hpost⟩
      · refine ⟨[], rest, ?_, ?_, ?_, ?_⟩
        · rw [heq]; rfl
        · rw [heq]; exact hgt
        · intro m hm; exact absurd hm (List.not_mem_nil m)
        · intro m hm; rw [heq]; exact hle m hm
      · refine ⟨mv :: pre, post, ?_, ?_, ?_, hpost⟩
        · rw [List.cons_append, ← hl]
        · omega
        · intro m hm
          rcases List.mem_cons.mp hm with rfl | hm'
          · exact hlt
          · exact hpre m hm'
    · rw [if_neg hgt]
      rcases ih bm bs with ⟨heq, hle⟩ | ⟨pre, post, hl, hlt, hpre, hpost⟩
      · left
        refine ⟨heq, ?_⟩
        intro m hm
        rcases List.mem_cons.mp hm with rfl | hm'
        · omega
        · exact hle m hm'
      · right
        refine ⟨mv :: pre, post, ?_, hlt, ?_, hpost⟩
        · rw [List.cons_append, ← hl]
        · intro m hm
          rcases List.mem_cons.mp hm with rfl | hm'
          · omega
          · exact hpre m hm'

set_option maxRecDepth 100000 in
/-- The starting value -1000000 of `bestScore` is part of the result.  On a board with
53 white kings (outside the invariant of a position) Black, at depth 1, has the legal
moves b8d7, b8xa6 and b8xc6 in this order.  Their scores are -1039680, -1019680 and
-1019680: none is above -1000000, so `choose_best_move` returns `movesList[0]` = b8d7. -/
theorem choose_best_move_below_sentinel :
    (generateLegalMoves SIDE_BLACK ⟨manyKingsBoard, initGlobals⟩).1 =
      [⟨0, 1, 1, 3, 0⟩, ⟨0, 1, 2, 0, 0⟩, ⟨0, 1, 2, 2, 0⟩] ∧
    (choose_best_move SIDE_BLACK 1 ⟨manyKingsBoard, initGlobals⟩).1 = ⟨0, 1, 1, 3, 0⟩ ∧
    moveScore 1 SIDE_BLACK (generateLegalMoves SIDE_BLACK ⟨manyKingsBoard, initGlobals⟩).2
      ⟨0, 1, 1, 3, 0⟩ = -1039680 ∧
    moveScore 1 SIDE_BLACK (generateLegalMoves SIDE_BLACK ⟨manyKingsBoard, initGlobals⟩).2
      ⟨0, 1, 2, 0, 0⟩ = -1019680 := by
  decide

/-- The result of `choose_best_move` when a score exceeds the starting value.  For
`depth ≥ 1`, if some legal move of `side` scores above -1000000 (the value `bestScore`
starts from), then `choose_best_move(side, depth)` returns a move of the list of
`generateLegalMoves(side)` whose score is the maximum over the whole list, and it is
the first such move in generation order: every move before it scores strictly less,
every move after it scores at most as much.  The score of a move is `moveScore`, taken
on the live position as `generateLegalMoves` leaves it. -/
theorem choose_best_move_first_max (s : GameState) (side : Int) (depth : Nat)
    (_hd : 1 ≤ depth)
    (hex : ∃ m ∈ (generateLegalMoves side s).1,
      -1000000 < moveScore depth side (generateLegalMoves side s).2 m) :
    ∃ pre post,
      (generateLegalMoves side s).1 = pre ++ (choose_best_move side depth s).1 :: post ∧
      (∀ m ∈ pre, moveScore depth side (generateLegalMoves side s).2 m <
        moveScore depth side (generateLegalMoves side s).2 (choose_best_move side depth s).1) ∧
      (∀ m ∈ post, moveScore depth side (generateLegalMoves side s).2 m ≤
        moveScore depth side (generateLegalMoves side s).2 (choose_best_move side depth s).1) := by
  unfold choose_best_move
  dsimp only
  rcases chooseLoop_result depth side (generateLegalMoves side s).2 (generateLegalMoves side s).1
      ((generateLegalMoves side s).1.headD ⟨0, 0, 0, 0, 0⟩) (-1000000) with
    ⟨-, hle⟩ | ⟨pre, post, hl, -, hpre, hpost⟩
  · obtain ⟨m, hm, hgt⟩ := hex
    have := hle m hm
    omega
  · exact ⟨pre, post, hl, hpre, hpost⟩

/-! ## The promotion value of generated moves -/

theorem promoOk_zero (a b c d : Int) : PromoOk ⟨a, b, c, d, 0⟩ := Or.inl rfl

theorem promoOk_pawn (a b c d x y side : Int) :
    PromoOk ⟨a, b, c, d,
      if x = y then (if side = SIDE_WHITE then ch 'Q' else ch 'q') else 0⟩ := by
  unfold PromoOk
  dsimp only
  split_ifs
  · exact Or.inr (Or.inl rfl)
  · exact Or.inr (Or.inr rfl)
  · exact Or.inl rfl

theorem tryMove_allPromoOk (board : Board) (side : Int) (mv : ChessMove) (st : Gen)
    (hmv : PromoOk mv) (h : AllPromoOk st) : AllPromoOk (tryMove board side mv st) := by
  intro m hm
  unfold tryMove at hm
  simp only [] at hm
  split at hm
  · rcases List.mem_append.mp hm with h1 | h1
    · exact h m h1
    · have : m = mv := by simpa using h1
      rw [this]; exact hmv
  · exact h m hm

theorem tryMove_zero_allPromoOk (board : Board) (side : Int) (a b c d : Int) (st : Gen)
    (h : AllPromoOk st) : AllPromoOk (tryMove board side ⟨a, b, c, d, 0⟩ st) :=
  tryMove_allPromoOk board side _ st (promoOk_zero a b c d) h

theorem tryMove_pawn_allPromoOk (board : Board) (side : Int) (a b c d x y side2 : Int)
    (st : Gen) (h : AllPromoOk st) :
    AllPromoOk (tryMove board side ⟨a, b, c, d,
      if x = y then (if side2 = SIDE_WHITE then ch 'Q' else ch 'q') else 0⟩ st) :=
  tryMove_allPromoOk board side _ st (promoOk_pawn a b c d x y side2) h

theorem ite_allPromoOk (c : Prop) [Decidable c] (a b : Gen) (ha : AllPromoOk a)
    (hb : AllPromoOk b) : AllPromoOk (if c then a else b) := by
  split
  · exact ha
  · exact hb

theorem foldl_allPromoOk {α : Type} (f : Gen → α → Gen)
    (hf : ∀ s x, AllPromoOk s → AllPromoOk (f s x)) (l : List α) (st : Gen)
    (h : AllPromoOk st) : AllPromoOk (l.foldl f st) := by
  induction l generalizing st with
  | nil => exact h
  | cons x xs ih => exact ih _ (hf _ _ h)

theorem genPawn_allPromoOk (board : Board) (side : Int) (r c : Int) (st : Gen)
    (h : AllPromoOk st) : AllPromoOk (genPawn board side r c st) := by
  unfold genPawn
  dsimp only
  repeat' first
    | assumption
    | with_reducible refine tryMove_zero_allPromoOk _ _ _ _ _ _ _ ?_
    | with_reducible refine tryMove_pawn_allPromoOk _ _ _ _ _ _ _ _ _ _ ?_
    | (with_reducible refine foldl_allPromoOk _ ?_ _ _ ?_; intro s x hs; dsimp only)
    | with_reducible refine ite_allPromoOk _ _ _ ?_ ?_

theorem genKnight_allPromoOk (board : Board) (side : Int) (r c : Int) (st : Gen)
    (h : AllPromoOk st) : AllPromoOk (genKnight board side r c st) := by
  unfold genKnight
  repeat' first
    | assumption
    | with_reducible refine tryMove_zero_allPromoOk _ _ _ _ _ _ _ ?_
    | (with_reducible refine foldl_allPromoOk _ ?_ _ _ ?_; intro s x hs; dsimp only)
    | with_reducible refine ite_allPromoOk _ _ _ ?_ ?_

theorem genRay_allPromoOk (board : Board) (side : Int) (r c dRow dCol : Int) (fuel : Nat) :
    ∀ (newRow newCol : Int) (st : Gen), AllPromoOk st →
      AllPromoOk (genRay board side r c dRow dCol fuel newRow newCol st) := by
  induction fuel with
  | zero => intro _ _ st h; exact h
  | succ n ih =>
    intro newRow newCol st h
    unfold genRay
    dsimp only
    repeat' first
      | assumption
      | exact promoOk_zero _ _ _ _
      | with_reducible refine ih _ _ _ ?_
      | with_reducible refine tryMove_allPromoOk _ _ _ _ ?_ ?_
      | with_reducible refine ite_allPromoOk _ _ _ ?_ ?_

theorem genSlider_allPromoOk (board : Board) (side : Int) (lp : Int) (r c : Int) (st : Gen)
    (h : AllPromoOk st) : AllPromoOk (genSlider board side lp r c st) := by
  unfold genSlider
  apply foldl_allPromoOk _ _ _ _ h
  intro s d hs
  exact genRay_allPromoOk _ _ _ _ _ _ _ _ _ _ hs

theorem genKingSteps_allPromoOk (board : Board) (side : Int) (r c : Int) (st : Gen)
    (h : AllPromoOk st) : AllPromoOk (genKingSteps board side r c st) := by
  unfold genKingSteps
  repeat' first
    | assumption
    | with_reducible refine tryMove_zero_allPromoOk _ _ _ _ _ _ _ ?_
    | (with_reducible refine foldl_allPromoOk _ ?_ _ _ ?_; intro s x hs; dsimp only)
    | with_reducible refine ite_allPromoOk _ _ _ ?_ ?_

theorem genCastling_allPromoOk (board : Board) (side : Int) (r c : Int) (st : Gen)
    (h : AllPromoOk st) : AllPromoOk (genCastling board side r c st) := by
  unfold genCastling
  dsimp only
  repeat' first
    | assumption
    | with_reducible refine tryMove_zero_allPromoOk _ _ _ _ _ _ _ ?_
    | with_reducible refine ite_allPromoOk _ _ _ ?_ ?_

theorem genSquare_allPromoOk (board : Board) (side : Int) (st : Gen) (sq : Int × Int)
    (h : AllPromoOk st) : AllPromoOk (genSquare board side st sq) := by
  unfold genSquare
  dsimp only
  repeat' first
    | assumption
    | with_reducible refine genPawn_allPromoOk _ _ _ _ _ ?_
    | with_reducible refine genKnight_allPromoOk _ _ _ _ _ ?_
    | with_reducible refine genSlider_allPromoOk _ _ _ _ _ _ ?_
    | with_reducible refine genCastling_allPromoOk _ _ _ _ _ ?_
    | with_reducible refine genKingSteps_allPromoOk _ _ _ _ _ ?_
    | with_reducible refine ite_allPromoOk _ _ _ ?_ ?_

/-- Every move that `generateLegalMoves` returns has no promotion value or a queen. -/
theorem generateLegalMoves_promoOk (s : GameState) (side : Int) :
    ∀ m ∈ (generateLegalMoves side s).1, PromoOk m := by
  have h : AllPromoOk (allSquares.foldl (genSquare s.chessBoard side) ([], s.globals)) := by
    apply foldl_allPromoOk
    · intro st sq hst
      exact genSquare_allPromoOk _ _ _ _ hst
    · intro m hm
      simp at hm
  exact h

/-! ## A side without a king -/

/-- The applier writes only the empty cell, the piece it found on the source square,
a rook or the promotion value: a symbol `k` that is none of these and is not on the
board before the call is not on the board after it. -/
theorem execute_creates_no (b : Board) (m : ChessMove) (g : Globals) (k : Int)
    (hno : ∀ r c : Int, getCell b r c ≠ k) (hk0 : k ≠ EMPTY_CELL) (hk1 : k ≠ ch 'R')
    (hk2 : k ≠ ch 'r') (hk3 : m.promoteTo ≠ k) :
    ∀ r c : Int, getCell (execute_move_on_board b m g).1 r c ≠ k := by
  intro r c
  have hsrc := hno m.src_row m.src_col
  have hrc := hno r c
  unfold execute_move_on_board
  dsimp only
  split
  · split <;> simp only [getCell_setCell] <;> split_ifs <;>
      first | exact hrc | exact hsrc | exact hk0.symm | exact hk1.symm | exact hk2.symm
  · split
    · split <;> simp only [getCell_setCell] <;> split_ifs <;>
        first | exact hrc | exact hsrc | exact hk0.symm
    · simp only [getCell_setCell]
      split_ifs <;> first | exact hrc | exact hsrc | exact hk0.symm | exact hk3

/-- On a board without the king of `side`, no probe of the generator succeeds for a
move whose promotion value is absent or a queen. -/
theorem no_king_probe_fails (b : Board) (side : Int) (m : ChessMove) (g : Globals)
    (hno : ∀ r c : Int, isInsideBoard r c = true → getCell b r c ≠ pieceOf side 'K' 'k')
    (hm : PromoOk m) :
    isKingInCheck (execute_move_on_board (clone_board b) m g).1 side = true := by
  have hk : pieceOf side 'K' 'k' = ch 'K' ∨ pieceOf side 'K' 'k' = ch 'k' := by
    unfold pieceOf; split
    · exact Or.inl rfl
    · exact Or.inr rfl
  have hall : ∀ r c : Int, getCell b r c ≠ pieceOf side 'K' 'k' := by
    intro r c
    by_cases hin : isInsideBoard r c = true
    · exact hno r c hin
    · intro h
      apply hin
      apply inside_of_getCell_ne_zero b
      rw [h]
      rcases hk with h1 | h1 <;> rw [h1] <;> decide
  apply (isKingInCheck_spec _ side).1
  intro r c _
  apply execute_creates_no (clone_board b) m g _ hall
  · rcases hk with h1 | h1 <;> rw [h1] <;> decide
  · rcases hk with h1 | h1 <;> rw [h1] <;> decide
  · rcases hk with h1 | h1 <;> rw [h1] <;> decide
  · rcases hm with h0 | h0 | h0 <;> rw [h0] <;> rcases hk with h1 | h1 <;> rw [h1] <;> decide

/-- Claim C19. On a board on which `side` has no king, `generateLegalMoves(side)`
returns no move and `minimax(depth, side, alpha, beta)` returns -20000 for every
depth ≥ 1. -/
theorem no_king_is_lost (s : GameState) (side : Int)
    (hno : ∀ r c : Int, isInsideBoard r c = true →
      getCell s.chessBoard r c ≠ pieceOf side 'K' 'k') :
    (generateLegalMoves side s).1 = [] ∧
    ∀ (depth : Nat) (alpha beta : Int), 1 ≤ depth →
      (minimax depth side alpha beta s).1 = -20000 := by
  have hempty : (generateLegalMoves side s).1 = [] := by
    apply List.eq_nil_iff_forall_not_mem.mpr
    intro m hm
    have h1 := generateLegalMoves_no_self_check s side m s.globals hm
    have h2 := no_king_probe_fails s.chessBoard side m s.globals hno
      (generateLegalMoves_promoOk s side m hm)
    rw [h2] at h1
    exact absurd h1 (by decide)
  refine ⟨hempty, ?_⟩
  intro depth alpha beta hd
  rw [minimax_no_moves s side alpha beta depth hd hempty,
    (isKingInCheck_spec s.chessBoard side).1 hno]
  rfl

/-- Claim C19 at a concrete input: White in the initial layout without the white
king. -/
theorem no_king_is_lost_witness :
    (∀ r c : Int, isInsideBoard r c = true →
      getCell noWhiteKingState.chessBoard r c ≠ pieceOf SIDE_WHITE 'K' 'k') ∧
    (generateLegalMoves SIDE_WHITE noWhiteKingState).1 = [] ∧
    ∀ (depth : Nat) (alpha beta : Int), 1 ≤ depth →
      (minimax depth SIDE_WHITE alpha beta noWhiteKingState).1 = -20000 :=
  have h : ∀ r c : Int, isInsideBoard r c = true →
      getCell noWhiteKingState.chessBoard r c ≠ pieceOf SIDE_WHITE 'K' 'k' :=
    fun r c hin =>
      (by decide : ∀ p ∈ allSquares,
        getCell noWhiteKingState.chessBoard p.1 p.2 ≠ pieceOf SIDE_WHITE 'K' 'k')
        (r, c) ((mem_allSquares (r, c)).mpr hin)
  ⟨h, no_king_is_lost noWhiteKingState SIDE_WHITE h⟩

/-! ## The castling branch -/

/-- Claim C22 fails on the code for White.  After 1. e2e4 d7d5 the capture e4d5 is
legal for White and leaves the material balance (White's view) at +100, but
`choose_best_move(White, 1)` returns e4e5, after which the balance is 0: `minimax(0, ...)`
returns `evaluate_board()` from White's view whichever side is to move, so White's
root negates its own balance and prefers the smaller one. -/
theorem choose_best_move_white_depth_one :
    mv4 'e' '4' 'd' '5' ∈ (generateLegalMoves SIDE_WHITE posAfterE4D5).1 ∧
    evaluate_board (execute_live (generateLegalMoves SIDE_WHITE posAfterE4D5).2
      (mv4 'e' '4' 'd' '5')).chessBoard = 100 ∧
    (choose_best_move SIDE_WHITE 1 posAfterE4D5).1 = mv4 'e' '4' 'e' '5' ∧
    evaluate_board (execute_live (generateLegalMoves SIDE_WHITE posAfterE4D5).2
      (choose_best_move SIDE_WHITE 1 posAfterE4D5).1).chessBoard = 0 := by
  decide

/-! ## Moved flags in the applier -/

theorem markRookMoved_fields (p : Int) (m : ChessMove) (g : Globals) :
    (markRookMoved p m g).whiteKingMoved = g.whiteKingMoved ∧
    (markRookMoved p m g).blackKingMoved = g.blackKingMoved ∧
    (p = ch 'R' → tolower p = ch 'r' ∧
      (markRookMoved p m g).whiteQRookMoved =
        (if m.src_row = 7 ∧ m.src_col = 0 then 1 else g.whiteQRookMoved) ∧
      (markRookMoved p m g).whiteKRookMoved =
        (if m.src_row = 7 ∧ m.src_col = 7 then 1 else g.whiteKRookMoved) ∧
      (markRookMoved p m g).blackQRookMoved = g.blackQRookMoved ∧
      (markRookMoved p m g).blackKRookMoved = g.blackKRookMoved) ∧
    (p = ch 'r' → tolower p = ch 'r' ∧
      (markRookMoved p m g).blackQRookMoved =
        (if m.src_row = 0 ∧ m.src_col = 0 then 1 else g.blackQRookMoved) ∧
      (markRookMoved p m g).blackKRookMoved =
        (if m.src_row = 0 ∧ m.src_col = 7 then 1 else g.blackKRookMoved) ∧
      (markRookMoved p m g).whiteQRookMoved = g.whiteQRookMoved ∧
      (markRookMoved p m g).whiteKRookMoved = g.whiteKRookMoved) ∧
    (tolower p ≠ ch 'r' → markRookMoved p m g = g) := by
  have hRr : ch 'R' ≠ ch 'r' := by decide
  have hlR : tolower (ch 'R') = ch 'r' := by decide
  have hlr : tolower (ch 'r') = ch 'r' := by decide
  unfold markRookMoved
  dsimp only
  refine ⟨?_, ?_, ?_, ?_, ?_⟩
  · split_ifs <;> rfl
  · split_ifs <;> rfl
  · intro hp
    subst hp
    rw [if_pos hlR, if_pos rfl]
    refine ⟨hlR, ?_, ?_, ?_, ?_⟩ <;> split_ifs <;> rfl
  · intro hp
    subst hp
    rw [if_pos hlr, if_neg hRr.symm]
    refine ⟨hlr, ?_, ?_, ?_, ?_⟩ <;> split_ifs <;> rfl
  · intro hp
    rw [if_neg hp]

theorem markEnPassant_flags (p : Int) (m : ChessMove) (g : Globals) :
    (markEnPassant p m g).whiteKingMoved = g.whiteKingMoved ∧
    (markEnPassant p m g).whiteQRookMoved = g.whiteQRookMoved ∧
    (markEnPassant p m g).whiteKRookMoved = g.whiteKRookMoved ∧
    (markEnPassant p m g).blackKingMoved = g.blackKingMoved ∧
    (markEnPassant p m g).blackQRookMoved = g.blackQRookMoved ∧
    (markEnPassant p m g).blackKRookMoved = g.blackKRookMoved := by
  unfold markEnPassant
  split <;> exact ⟨rfl, rfl, rfl, rfl, rfl, rfl⟩

theorem tolower_eq_r (p : Int) : tolower p = ch 'r' ↔ p = ch 'R' ∨ p = ch 'r' := by
  have h := tolower_eq_lower p (ch 'r') (by decide)
  have e : ch 'r' - 32 = ch 'R' := by decide
  rw [e] at h
  exact h

/-- Claim C26. For a move of a rook with no promotion (such a move is always handled as
a normal move), after `execute_move_on_board` a white rook has set `whiteQRookMoved`
exactly when its origin is (7,0) and `whiteKRookMoved` exactly when its origin is
(7,7), a black rook `blackQRookMoved` exactly when its origin is (0,0) and
`blackKRookMoved` exactly when its origin is (0,7); the destination plays no part and
every other moved flag keeps its previous value. -/
theorem execute_rook_flags (b : Board) (m : ChessMove) (g : Globals)
    (hrook : tolower (getCell b m.src_row m.src_col) = ch 'r')
    (hpromo : m.promoteTo = 0) :
    (getCell b m.src_row m.src_col = ch 'R' →
      (execute_move_on_board b m g).2.whiteQRookMoved =
        (if m.src_row = 7 ∧ m.src_col = 0 then 1 else g.whiteQRookMoved) ∧
      (execute_move_on_board b m g).2.whiteKRookMoved =
        (if m.src_row = 7 ∧ m.src_col = 7 then 1 else g.whiteKRookMoved) ∧
      (execute_move_on_board b m g).2.blackQRookMoved = g.blackQRookMoved ∧
      (execute_move_on_board b m g).2.blackKRookMoved = g.blackKRookMoved) ∧
    (getCell b m.src_row m.src_col = ch 'r' →
      (execute_move_on_board b m g).2.blackQRookMoved =
        (if m.src_row = 0 ∧ m.src_col = 0 then 1 else g.blackQRookMoved) ∧
      (execute_move_on_board b m g).2.blackKRookMoved =
        (if m.src_row = 0 ∧ m.src_col = 7 then 1 else g.blackKRookMoved) ∧
      (execute_move_on_board b m g).2.whiteQRookMoved = g.whiteQRookMoved ∧
      (execute_move_on_board b m g).2.whiteKRookMoved = g.whiteKRookMoved) ∧
    (execute_move_on_board b m g).2.whiteKingMoved = g.whiteKingMoved ∧
    (execute_move_on_board b m g).2.blackKingMoved = g.blackKingMoved := by
  have hrk : ch 'r' ≠ ch 'k' := by decide
  have hrp : ch 'r' ≠ ch 'p' := by decide
  have hnc : ¬(tolower (getCell b m.src_row m.src_col) = ch 'k' ∧
      abs (m.dst_col - m.src_col) = 2) := fun h => hrk (hrook.symm.trans h.1)
  have hne : ¬(tolower (getCell b m.src_row m.src_col) = ch 'p' ∧
      abs (m.dst_col - m.src_col) = 1 ∧ getCell b m.dst_row m.dst_col = EMPTY_CELL) :=
    fun h => hrp (hrook.symm.trans h.1)
  have hnk : ¬(tolower (getCell b m.src_row m.src_col) = ch 'k') :=
    fun h => hrk (hrook.symm.trans h)
  unfold execute_move_on_board
  dsimp only
  rw [if_neg hnc, if_neg hne]
  simp only [hpromo, ne_eq, not_true_eq_false, if_false, if_neg hnk]
  have hf := markEnPassant_flags (getCell b m.src_row m.src_col) m
    (markRookMoved (getCell b m.src_row m.src_col) m
      { g with enPassantTargetRow := -1, enPassantTargetCol := -1 })
  have hr := markRookMoved_fields (getCell b m.src_row m.src_col) m
    { g with enPassantTargetRow := -1, enPassantTargetCol := -1 }
  obtain ⟨f1, f2, f3, f4, f5, f6⟩ := hf
  obtain ⟨r1, r2, r3, r4, -⟩ := hr
  refine ⟨?_, ?_, ?_, ?_⟩
  · intro hp
    obtain ⟨-, a1, a2, a3, a4⟩ := r3 hp
    exact ⟨f2.trans a1, f3.trans a2, f5.trans a3, f6.trans a4⟩
  · intro hp
    obtain ⟨-, a1, a2, a3, a4⟩ := r4 hp
    exact ⟨f5.trans a1, f6.trans a2, f2.trans a3, f3.trans a4⟩
  · exact f1.trans r1
  · exact f4.trans r2

/-- Claim C26 at a concrete input: in the position after 1. g1f3 g8f6 2. g2g3 g7g6
3. f1g2 f8g7 the rook move h1g1 sets `whiteKRookMoved` and leaves `whiteQRookMoved`. -/
theorem execute_rook_flags_witness :
    getCell posCastleReady.chessBoard 7 7 = ch 'R' ∧
    (execute_move_on_board posCastleReady.chessBoard (mv4 'h' '1' 'g' '1')
      posCastleReady.globals).2.whiteKRookMoved = 1 ∧
    (execute_move_on_board posCastleReady.chessBoard (mv4 'h' '1' 'g' '1')
      posCastleReady.globals).2.whiteQRookMoved = 0 :=
  have h := (execute_rook_flags posCastleReady.chessBoard (mv4 'h' '1' 'g' '1')
    posCastleReady.globals (by decide) (by decide)).1 (by decide)
  ⟨by decide, h.2.1.trans (by decide), h.1.trans (by decide)⟩

/-- Each moved flag after `execute_move_on_board` has its previous value or is 1. -/
theorem execute_flags_cases (b : Board) (m : ChessMove) (g : Globals) :
    ((execute_move_on_board b m g).2.whiteKingMoved = g.whiteKingMoved ∨
      (execute_move_on_board b m g).2.whiteKingMoved = 1) ∧
    ((execute_move_on_board b m g).2.whiteQRookMoved = g.whiteQRookMoved ∨
      (execute_move_on_board b m g).2.whiteQRookMoved = 1) ∧
    ((execute_move_on_board b m g).2.whiteKRookMoved = g.whiteKRookMoved ∨
      (execute_move_on_board b m g).2.whiteKRookMoved = 1) ∧
    ((execute_move_on_board b m g).2.blackKingMoved = g.blackKingMoved ∨
      (execute_move_on_board b m g).2.blackKingMoved = 1) ∧
    ((execute_move_on_board b m g).2.blackQRookMoved = g.blackQRookMoved ∨
      (execute_move_on_board b m g).2.blackQRookMoved = 1) ∧
    ((execute_move_on_board b m g).2.blackKRookMoved = g.blackKRookMoved ∨
      (execute_move_on_board b m g).2.blackKRookMoved = 1) := by
  have hking : ∀ (p : Int) (g0 : Globals),
      ((markKingMoved p g0).whiteKingMoved = g0.whiteKingMoved ∨
        (markKingMoved p g0).whiteKingMoved = 1) ∧
      (markKingMoved p g0).whiteQRookMoved = g0.whiteQRookMoved ∧
      (markKingMoved p g0).whiteKRookMoved = g0.whiteKRookMoved ∧
      ((markKingMoved p g0).blackKingMoved = g0.blackKingMoved ∨
        (markKingMoved p g0).blackKingMoved = 1) ∧
      (markKingMoved p g0).blackQRookMoved = g0.blackQRookMoved ∧
      (markKingMoved p g0).blackKRookMoved = g0.blackKRookMoved := by
    intro p g0
    have h := markKingMoved_fields p g0
    by_cases hp : p = ch 'K'
    · exact ⟨Or.inr (h.2.2.2.2.2.2.1 hp).1, h.1, h.2.1, Or.inl (h.2.2.2.2.2.2.1 hp).2,
        h.2.2.1, h.2.2.2.1⟩
    · exact ⟨Or.inl (h.2.2.2.2.2.2.2 hp).2, h.1, h.2.1, Or.inr (h.2.2.2.2.2.2.2 hp).1,
        h.2.2.1, h.2.2.2.1⟩
  have hrook : ∀ (p : Int) (g0 : Globals),
      (markRookMoved p m g0).whiteKingMoved = g0.whiteKingMoved ∧
      ((markRookMoved p m g0).whiteQRookMoved = g0.whiteQRookMoved ∨
        (markRookMoved p m g0).whiteQRookMoved = 1) ∧
      ((markRookMoved p m g0).whiteKRookMoved = g0.whiteKRookMoved ∨
        (markRookMoved p m g0).whiteKRookMoved = 1) ∧
      (markRookMoved p m g0).blackKingMoved = g0.blackKingMoved ∧
      ((markRookMoved p m g0).blackQRookMoved = g0.blackQRookMoved ∨
        (markRookMoved p m g0).blackQRookMoved = 1) ∧
      ((markRookMoved p m g0).blackKRookMoved = g0.blackKRookMoved ∨
        (markRookMoved p m g0).blackKRookMoved = 1) := by
    intro p g0
    have h := markRookMoved_fields p m g0
    by_cases hr : tolower p = ch 'r'
    · rcases (tolower_eq_r p).mp hr with hp | hp
      · obtain ⟨-, a1, a2, a3, a4⟩ := h.2.2.1 hp
        refine ⟨h.1, ?_, ?_, h.2.1, Or.inl a3, Or.inl a4⟩
        · rw [a1]; split
          · exact Or.inr rfl
          · exact Or.inl rfl
        · rw [a2]; split
          · exact Or.inr rfl
          · exact Or.inl rfl
      · obtain ⟨-, a1, a2, a3, a4⟩ := h.2.2.2.1 hp
        refine ⟨h.1, Or.inl a3, Or.inl a4, h.2.1, ?_, ?_⟩
        · rw [a1]; split
          · exact Or.inr rfl
          · exact Or.inl rfl
        · rw [a2]; split
          · exact Or.inr rfl
          · exact Or.inl rfl
    · rw [h.2.2.2.2 hr]
      exact ⟨rfl, Or.inl rfl, Or.inl rfl, rfl, Or.inl rfl, Or.inl rfl⟩
  unfold execute_move_on_board
  dsimp only
  split
  · obtain ⟨k1, k2, k3, k4, k5, k6⟩ := hking (getCell b m.src_row m.src_col)
      { g with enPassantTargetRow := -1, enPassantTargetCol := -1 }
    exact ⟨k1, Or.inl k2, Or.inl k3, k4, Or.inl k5, Or.inl k6⟩
  · split
    · exact ⟨Or.inl rfl, Or.inl rfl, Or.inl rfl, Or.inl rfl, Or.inl rfl, Or.inl rfl⟩
    · obtain ⟨f1, f2, f3, f4, f5, f6⟩ := markEnPassant_flags
        (if m.promoteTo ≠ 0 then m.promoteTo else getCell b m.src_row m.src_col) m
        (markRookMoved (if m.promoteTo ≠ 0 then m.promoteTo else getCell b m.src_row m.src_col) m
          (if tolower (if m.promoteTo ≠ 0 then m.promoteTo else getCell b m.src_row m.src_col) =
              ch 'k' then
            markKingMoved (if m.promoteTo ≠ 0 then m.promoteTo else getCell b m.src_row m.src_col)
              { g with enPassantTargetRow := -1, enPassantTargetCol := -1 }
           else { g with enPassantTargetRow := -1, enPassantTargetCol := -1 }))
      rw [f1, f2, f3, f4, f5, f6]
      obtain ⟨r1, r2, r3, r4, r5, r6⟩ := hrook
        (if m.promoteTo ≠ 0 then m.promoteTo else getCell b m.src_row m.src_col)
        (if tolower (if m.promoteTo ≠ 0 then m.promoteTo else getCell b m.src_row m.src_col) =
            ch 'k' then
          markKingMoved (if m.promoteTo ≠ 0 then m.promoteTo else getCell b m.src_row m.src_col)
            { g with enPassantTargetRow := -1, enPassantTargetCol := -1 }
         else { g with enPassantTargetRow := -1, enPassantTargetCol := -1 })
      by_cases hk : tolower (if m.promoteTo ≠ 0 then m.promoteTo
          else getCell b m.src_row m.src_col) = ch 'k'
      · rw [if_pos hk] at r1 r2 r3 r4 r5 r6 ⊢
        obtain ⟨k1, k2, k3, k4, k5, k6⟩ := hking
          (if m.promoteTo ≠ 0 then m.promoteTo else getCell b m.src_row m.src_col)
          { g with enPassantTargetRow := -1, enPassantTargetCol := -1 }
        refine ⟨?_, ?_, ?_, ?_, ?_, ?_⟩
        · rw [r1]; exact k1
        · rcases r2 with h | h
          · rw [h, k2]; exact Or.inl rfl
          · exact Or.inr h
        · rcases r3 with h | h
          · rw [h, k3]; exact Or.inl rfl
          · exact Or.inr h
        · rw [r4]; exact k4
        · rcases r5 with h | h
          · rw [h, k5]; exact Or.inl rfl
          · exact Or.inr h
        · rcases r6 with h | h
          · rw [h, k6]; exact Or.inl rfl
          · exact Or.inr h
      · rw [if_neg hk] at r1 r2 r3 r4 r5 r6 ⊢
        exact ⟨Or.inl r1, r2, r3, Or.inl r4, r5, r6⟩

/-- Claim C27. `execute_move_on_board` never clears a moved flag: each of the six
flags that is 1 before the call is 1 after it. -/
theorem execute_keeps_flags (b : Board) (m : ChessMove) (g : Globals) :
    (g.whiteKingMoved = 1 → (execute_move_on_board b m g).2.whiteKingMoved = 1) ∧
    (g.whiteQRookMoved = 1 → (execute_move_on_board b m g).2.whiteQRookMoved = 1) ∧
    (g.whiteKRookMoved = 1 → (execute_move_on_board b m g).2.whiteKRookMoved = 1) ∧
    (g.blackKingMoved = 1 → (execute_move_on_board b m g).2.blackKingMoved = 1) ∧
    (g.blackQRookMoved = 1 → (execute_move_on_board b m g).2.blackQRookMoved = 1) ∧
    (g.blackKRookMoved = 1 → (execute_move_on_board b m g).2.blackKRookMoved = 1) := by
  obtain ⟨h1, h2, h3, h4, h5, h6⟩ := execute_flags_cases b m g
  refine ⟨?_, ?_, ?_, ?_, ?_, ?_⟩ <;> intro h
  · rcases h1 with e | e
    · rw [e]; exact h
    · exact e
  · rcases h2 with e | e
    · rw [e]; exact h
    · exact e
  · rcases h3 with e | e
    · rw [e]; exact h
    · exact e
  · rcases h4 with e | e
    · rw [e]; exact h
    · exact e
  · rcases h5 with e | e
    · rw [e]; exact h
    · exact e
  · rcases h6 with e | e
    · rw [e]; exact h
    · exact e

/-- Claim C27 at a concrete input: with `whiteKingMoved = 1` and `blackKRookMoved = 1`
on record, the move e2e4 from the initial layout leaves both at 1. -/
theorem execute_keeps_flags_witness :
    (execute_move_on_board initialize_board (mv4 'e' '2' 'e' '4')
      ⟨1, 0, 0, 0, 0, 1, -1, -1⟩).2.whiteKingMoved = 1 ∧
    (execute_move_on_board initialize_board (mv4 'e' '2' 'e' '4')
      ⟨1, 0, 0, 0, 0, 1, -1, -1⟩).2.blackKRookMoved = 1 :=
  have h := execute_keeps_flags initialize_board (mv4 'e' '2' 'e' '4') ⟨1, 0, 0, 0, 0, 1, -1, -1⟩
  ⟨h.1 rfl, h.2.2.2.2.2 rfl⟩

/-! ## The board grid is never left changed -/

/-- Claim C28. The board grid is the same after `generateLegalMoves(side)`, after
`minimax(depth, side, alpha, beta)` and after `choose_best_move(side, depth)` as it
was before the call, whatever happens to the moved flags and the en-passant
target. -/
theorem board_grid_unchanged (s : GameState) (side alpha beta : Int) (depth : Nat) :
    (generateLegalMoves side s).2.chessBoard = s.chessBoard ∧
    (minimax depth side alpha beta s).2.chessBoard = s.chessBoard ∧
    (choose_best_move side depth s).2.chessBoard = s.chessBoard := by
  refine ⟨rfl, ?_, ?_⟩
  · cases depth with
    | zero => rfl
    | succ d => rw [minimax_state]; rfl
  · rw [choose_best_move_state]; rfl

/-! ## Which moves the generator appends -/

theorem passesProbe_iff (board : Board) (side : Int) (m : ChessMove) (g : Globals) :
    PassesProbe board side m ↔
      isKingInCheck (execute_move_on_board (clone_board board) m g).1 side = false := by
  constructor
  · intro h; exact h g
  · intro h g'
    rw [execute_board_indep _ _ g' g]; exact h

/-- A probe appends its candidate exactly when the candidate passes the check test. -/
theorem mem_tryMove_iff (board : Board) (side : Int) (mv m : ChessMove) (st : Gen) :
    m ∈ (tryMove board side mv st).1 ↔ m ∈ st.1 ∨ (m = mv ∧ PassesProbe board side mv) := by
  rw [passesProbe_iff board side mv st.2]
  unfold tryMove
  dsimp only
  cases h : isKingInCheck (execute_move_on_board (clone_board board) mv st.2).1 side
  · simp
  · simp

/-- Membership after a loop whose steps each append a set of moves that does not
depend on the accumulator, as long as the accumulator satisfies `I`. -/
theorem foldl_mem_iff {α : Type} (I : Gen → Prop) (f : Gen → α → Gen) (m : ChessMove)
    (A : α → Prop) (hI : ∀ s x, I s → I (f s x)) (l : List α)
    (hf : ∀ s x, x ∈ l → I s → (m ∈ (f s x).1 ↔ m ∈ s.1 ∨ A x)) :
    ∀ st : Gen, I st → (m ∈ (l.foldl f st).1 ↔ m ∈ st.1 ∨ ∃ x ∈ l, A x) := by
  induction l with
  | nil => intro st _; simp
  | cons x xs ih =>
    intro st hst
    rw [List.foldl_cons,
      ih (fun s y hy hs => hf s y (List.mem_cons_of_mem _ hy) hs) (f st x) (hI st x hst),
      hf st x (List.mem_cons_self _ _) hst]
    simp only [List.mem_cons, exists_eq_or_imp]
    tauto

/-- What the knight branch appends. -/
theorem mem_genKnight_iff (board : Board) (side : Int) (r c : Int) (m : ChessMove) (st : Gen) :
    m ∈ (genKnight board side r c st).1 ↔ m ∈ st.1 ∨
      ∃ o ∈ knightOffsets, isInsideBoard (r + o.1) (c + o.2) = true ∧
        canLand side (getCell board (r + o.1) (c + o.2)) = true ∧
        m = ⟨r, c, r + o.1, c + o.2, 0⟩ ∧ PassesProbe board side ⟨r, c, r + o.1, c + o.2, 0⟩ := by
  unfold genKnight
  apply foldl_mem_iff (fun _ => True) _ m _ (fun _ _ _ => trivial) _ _ st trivial
  intro s o _ _
  dsimp only
  by_cases hin : isInsideBoard (r + o.1) (c + o.2) = true
  · by_cases hl : canLand side (getCell board (r + o.1) (c + o.2)) = true
    · simp [hin, hl, mem_tryMove_iff]
    · simp [hin, hl]
  · simp [hin]

/-- What the king-step part of the king branch appends. -/
theorem mem_genKingSteps_iff (board : Board) (side : Int) (r c : Int) (m : ChessMove)
    (st : Gen) :
    m ∈ (genKingSteps board side r c st).1 ↔ m ∈ st.1 ∨
      ∃ dr ∈ ([-1, 0, 1] : List Int), ∃ dc ∈ ([-1, 0, 1] : List Int), ¬(dr = 0 ∧ dc = 0) ∧
        isInsideBoard (r + dr) (c + dc) = true ∧
        canLand side (getCell board (r + dr) (c + dc)) = true ∧
        m = ⟨r, c, r + dr, c + dc, 0⟩ ∧ PassesProbe board side ⟨r, c, r + dr, c + dc, 0⟩ := by
  unfold genKingSteps
  apply foldl_mem_iff (fun _ => True) _ m _ (fun _ _ _ => trivial) _ _ st trivial
  intro s dr _ _
  apply foldl_mem_iff (fun _ => True) _ m _ (fun _ _ _ => trivial) _ _ s trivial
  intro s' dc _ _
  dsimp only
  by_cases h0 : dr = 0 ∧ dc = 0
  · simp [h0]
  · by_cases hin : isInsideBoard (r + dr) (c + dc) = true
    · by_cases hl : canLand side (getCell board (r + dr) (c + dc)) = true
      · simp [h0, hin, hl, mem_tryMove_iff]
      · simp [h0, hin, hl]
    · simp [h0, hin]

/-- What the walk along one ray appends within a budget of `fuel` steps: the squares
reached over empty squares of the board, up to and including the first occupied one
if it holds an enemy piece. -/
theorem mem_genRay_iff (board : Board) (side : Int) (r c dRow dCol : Int) (m : ChessMove)
    (fuel : Nat) :
    ∀ (nr nc : Int) (st : Gen),
      m ∈ (genRay board side r c dRow dCol fuel nr nc st).1 ↔ m ∈ st.1 ∨
        ∃ k : Nat, k < fuel ∧
          (∀ j : Nat, j < k → isInsideBoard (nr + j * dRow) (nc + j * dCol) = true ∧
            getCell board (nr + j * dRow) (nc + j * dCol) = EMPTY_CELL) ∧
          isInsideBoard (nr + k * dRow) (nc + k * dCol) = true ∧
          canLand side (getCell board (nr + k * dRow) (nc + k * dCol)) = true ∧
          m = ⟨r, c, nr + k * dRow, nc + k * dCol, 0⟩ ∧
          PassesProbe board side ⟨r, c, nr + k * dRow, nc + k * dCol, 0⟩ := by
  induction fuel with
  | zero => intro nr nc st; simp [genRay]
  | succ n ih =>
    intro nr nc st
    have shiftR : ∀ k : Nat, nr + dRow + (k : Int) * dRow = nr + ((k + 1 : Nat) : Int) * dRow := by
      intro k; push_cast; ring
    have shiftC : ∀ k : Nat, nc + dCol + (k : Int) * dCol = nc + ((k + 1 : Nat) : Int) * dCol := by
      intro k; push_cast; ring
    have z1 : nr + ((0 : Nat) : Int) * dRow = nr := by simp
    have z2 : nc + ((0 : Nat) : Int) * dCol = nc := by simp
    unfold genRay
    dsimp only
    by_cases hin : isInsideBoard nr nc = true
    · rw [if_pos hin]
      by_cases he : getCell board nr nc = EMPTY_CELL
      · rw [if_pos he, ih, mem_tryMove_iff]
        have hland : canLand side (getCell board nr nc) = true := by
          rw [he]; simp [canLand]
        constructor
        · rintro ((h | ⟨h1, h2⟩) | ⟨k, hk, hbet, hin', hl, hm, hp⟩)
          · exact Or.inl h
          · right
            refine ⟨0, by omega, fun j hj => absurd hj (by omega), ?_, ?_, ?_, ?_⟩
            · rw [z1, z2]; exact hin
            · rw [z1, z2]; exact hland
            · rw [z1, z2]; exact h1
            · rw [z1, z2]; exact h2
          · right
            refine ⟨k + 1, by omega, ?_, ?_, ?_, ?_, ?_⟩
            · intro j hj
              cases j with
              | zero => rw [z1, z2]; exact ⟨hin, he⟩
              | succ j => rw [← shiftR, ← shiftC]; exact hbet j (by omega)
            · rw [← shiftR, ← shiftC]; exact hin'
            · rw [← shiftR, ← shiftC]; exact hl
            · rw [← shiftR, ← shiftC]; exact hm
            · rw [← shiftR, ← shiftC]; exact hp
        · rintro (h | ⟨k, hk, hbet, hin', hl, hm, hp⟩)
          · exact Or.inl (Or.inl h)
          · cases k with
            | zero =>
              rw [z1, z2] at hm hp
              exact Or.inl (Or.inr ⟨hm, hp⟩)
            | succ k =>
              right
              refine ⟨k, by omega, ?_, ?_, ?_, ?_, ?_⟩
              · intro j hj
                rw [shiftR, shiftC]; exact hbet (j + 1) (by omega)
              · rw [shiftR, shiftC]; exact hin'
              · rw [shiftR, shiftC]; exact hl
              · rw [shiftR, shiftC]; exact hm
              · rw [shiftR, shiftC]; exact hp
      · rw [if_neg he]
        have hland : canLand side (getCell board nr nc) = isEnemy side (getCell board nr nc) := by
          simp [canLand, he]
        have hk0 : ∀ k : Nat,
            (∀ j : Nat, j < k → isInsideBoard (nr + j * dRow) (nc + j * dCol) = true ∧
              getCell board (nr + j * dRow) (nc + j * dCol) = EMPTY_CELL) → k = 0 := by
          intro k hbet
          by_contra hk
          have := (hbet 0 (by omega)).2
          rw [z1, z2] at this
          exact he this
        by_cases hen : isEnemy side (getCell board nr nc) = true
        · rw [if_pos hen, mem_tryMove_iff]
          constructor
          · rintro (h | ⟨h1, h2⟩)
            · exact Or.inl h
            · right
              refine ⟨0, by omega, fun j hj => absurd hj (by omega), ?_, ?_, ?_, ?_⟩
              · rw [z1, z2]; exact hin
              · rw [z1, z2, hland]; exact hen
              · rw [z1, z2]; exact h1
              · rw [z1, z2]; exact h2
          · rintro (h | ⟨k, hk, hbet, hin', hl, hm, hp⟩)
            · exact Or.inl h
            · have := hk0 k hbet
              subst this
              rw [z1, z2] at hm hp
              exact Or.inr ⟨hm, hp⟩
        · rw [if_neg hen]
          constructor
          · intro h; exact Or.inl h
          · rintro (h | ⟨k, hk, hbet, hin', hl, hm, hp⟩)
            · exact h
            · exfalso
              have := hk0 k hbet
              subst this
              rw [z1, z2, hland] at hl
              exact hen hl
    · rw [if_neg hin]
      constructor
      · intro h; exact Or.inl h
      · rintro (h | ⟨k, hk, hbet, hin', hl, hm, hp⟩)
        · exact h
        · exfalso
          cases k with
          | zero => rw [z1, z2] at hin'; exact hin hin'
          | succ k =>
            have := (hbet 0 (by omega)).1
            rw [z1, z2] at this
            exact hin this

/-- The walk as the slider branch runs it (8 steps, starting one step from the piece):
the budget is never the reason for stopping. -/
theorem mem_genRay_eight (board : Board) (side : Int) (r c dr dc : Int) (m : ChessMove)
    (st : Gen) (hdr : dr = 1 ∨ dr = -1 ∨ dr = 0) (hdc : dc = 1 ∨ dc = -1 ∨ dc = 0)
    (hne : ¬(dr = 0 ∧ dc = 0)) :
    m ∈ (genRay board side r c dr dc 8 (r + dr) (c + dc) st).1 ↔ m ∈ st.1 ∨
      ∃ n : Nat, 1 ≤ n ∧
        (∀ j : Nat, 1 ≤ j → j < n → isInsideBoard (r + j * dr) (c + j * dc) = true ∧
          getCell board (r + j * dr) (c + j * dc) = EMPTY_CELL) ∧
        isInsideBoard (r + n * dr) (c + n * dc) = true ∧
        canLand side (getCell board (r + n * dr) (c + n * dc)) = true ∧
        m = ⟨r, c, r + n * dr, c + n * dc, 0⟩ ∧
        PassesProbe board side ⟨r, c, r + n * dr, c + n * dc, 0⟩ := by
  have shiftR : ∀ k : Nat, r + dr + (k : Int) * dr = r + ((k + 1 : Nat) : Int) * dr := by
    intro k; push_cast; ring
  have shiftC : ∀ k : Nat, c + dc + (k : Int) * dc = c + ((k + 1 : Nat) : Int) * dc := by
    intro k; push_cast; ring
  rw [mem_genRay_iff]
  apply or_congr_right
  constructor
  · rintro ⟨k, _, hbet, hin, hl, hm, hp⟩
    refine ⟨k + 1, by omega, ?_, ?_, ?_, ?_, ?_⟩
    · intro j hj1 hj2
      obtain ⟨j, rfl⟩ : ∃ i, j = i + 1 := ⟨j - 1, by omega⟩
      rw [← shiftR, ← shiftC]
      exact hbet j (by omega)
    · rw [← shiftR, ← shiftC]; exact hin
    · rw [← shiftR, ← shiftC]; exact hl
    · rw [← shiftR, ← shiftC]; exact hm
    · rw [← shiftR, ← shiftC]; exact hp
  · rintro ⟨n, hn, hbet, hin, hl, hm, hp⟩
    obtain ⟨k, rfl⟩ : ∃ i, n = i + 1 := ⟨n - 1, by omega⟩
    refine ⟨k, ?_, ?_, ?_, ?_, ?_, ?_⟩
    · by_contra hk
      have h1 := (hbet 1 (by omega) (by omega)).1
      rw [isInsideBoard_iff] at h1 hin
      push_cast at h1 hin
      rcases hdr with rfl | rfl | rfl <;> rcases hdc with rfl | rfl | rfl <;>
        first
          | exact hne ⟨rfl, rfl⟩
          | (simp only [mul_one, mul_neg, mul_zero, one_mul] at h1 hin; omega)
    · intro j hj
      rw [shiftR, shiftC]
      exact hbet (j + 1) (by omega) (by omega)
    · rw [shiftR, shiftC]; exact hin
    · rw [shiftR, shiftC]; exact hl
    · rw [shiftR, shiftC]; exact hm
    · rw [shiftR, shiftC]; exact hp

/-- What the bishop / rook / queen branch appends, for a list of unit directions. -/
theorem mem_genSlider_iff (board : Board) (side : Int) (lp : Int) (r c : Int) (m : ChessMove)
    (st : Gen)
    (hdirs : ∀ d ∈ sliderDirs lp, (d.1 = 1 ∨ d.1 = -1 ∨ d.1 = 0) ∧
      (d.2 = 1 ∨ d.2 = -1 ∨ d.2 = 0) ∧ ¬(d.1 = 0 ∧ d.2 = 0)) :
    m ∈ (genSlider board side lp r c st).1 ↔ m ∈ st.1 ∨
      ∃ d ∈ sliderDirs lp, ∃ n : Nat, 1 ≤ n ∧
        (∀ j : Nat, 1 ≤ j → j < n → isInsideBoard (r + j * d.1) (c + j * d.2) = true ∧
          getCell board (r + j * d.1) (c + j * d.2) = EMPTY_CELL) ∧
        isInsideBoard (r + n * d.1) (c + n * d.2) = true ∧
        canLand side (getCell board (r + n * d.1) (c + n * d.2)) = true ∧
        m = ⟨r, c, r + n * d.1, c + n * d.2, 0⟩ ∧
        PassesProbe board side ⟨r, c, r + n * d.1, c + n * d.2, 0⟩ := by
  unfold genSlider
  apply foldl_mem_iff (fun _ => True) _ m _ (fun _ _ _ => trivial) _ _ st trivial
  intro s d hd _
  obtain ⟨h1, h2, h3⟩ := hdirs d hd
  exact mem_genRay_eight board side r c d.1 d.2 m s h1 h2 h3

theorem sliderDirs_unit (lp : Int) : ∀ d ∈ sliderDirs lp, (d.1 = 1 ∨ d.1 = -1 ∨ d.1 = 0) ∧
    (d.2 = 1 ∨ d.2 = -1 ∨ d.2 = 0) ∧ ¬(d.1 = 0 ∧ d.2 = 0) := by
  intro d hd
  unfold sliderDirs at hd
  split at hd
  · exact diagDirs_unit d hd
  · split at hd
    · exact linearDirs_unit d hd
    · split at hd
      · rcases List.mem_append.mp hd with h | h
        · exact linearDirs_unit d h
        · exact diagDirs_unit d h
      · simp at hd

/-! ## Sequences of probes -/

theorem genPawn_phases (board : Board) (side : Int) (r c : Int) (st : Gen) :
    genPawn board side r c st =
      pawnEnPassant board side r c (pawnCaptures board side r c (pawnPushes board side r c st)) :=
  rfl

theorem probes_trans (board : Board) (side : Int) (Q : ChessMove → Prop) (a b c : Gen)
    (h1 : Probes board side Q a b) (h2 : Probes board side Q b c) : Probes board side Q a c := by
  induction h2 with
  | refl => exact h1
  | step st' mv _ hq ih => exact Probes.step _ _ _ ih hq

theorem probes_one (board : Board) (side : Int) (Q : ChessMove → Prop) (st : Gen)
    (mv : ChessMove) (h : Q mv) : Probes board side Q st (tryMove board side mv st) :=
  Probes.step _ _ _ (Probes.refl st) h

theorem probes_weaken (board : Board) (side : Int) (Q Q' : ChessMove → Prop) (a b : Gen)
    (hQ : ∀ m, Q m → Q' m) (h : Probes board side Q a b) : Probes board side Q' a b := by
  induction h with
  | refl => exact Probes.refl _
  | step st' mv _ hq ih => exact Probes.step _ _ _ ih (hQ mv hq)

theorem probes_ite (board : Board) (side : Int) (Q : ChessMove → Prop) (c : Prop) [Decidable c]
    (st a b : Gen) (ha : c → Probes board side Q st a) (hb : ¬c → Probes board side Q st b) :
    Probes board side Q st (if c then a else b) := by
  split
  · exact ha ‹_›
  · exact hb ‹_›

theorem probes_foldl {α : Type} (board : Board) (side : Int) (Q : ChessMove → Prop)
    (f : Gen → α → Gen) (l : List α) (hf : ∀ s x, x ∈ l → Probes board side Q s (f s x)) :
    ∀ st : Gen, Probes board side Q st (l.foldl f st) := by
  induction l with
  | nil => intro st; exact Probes.refl st
  | cons x xs ih =>
    intro st
    exact probes_trans _ _ _ _ _ _ (hf st x (List.mem_cons_self _ _))
      (ih (fun s y hy => hf s y (List.mem_cons_of_mem _ hy)) (f st x))

/-- Probes only append. -/
theorem probes_mono (board : Board) (side : Int) (Q : ChessMove → Prop) (a b : Gen)
    (h : Probes board side Q a b) (m : ChessMove) (hm : m ∈ a.1) : m ∈ b.1 := by
  induction h with
  | refl => exact hm
  | step st' mv _ _ ih => exact (mem_tryMove_iff _ _ _ _ _).mpr (Or.inl ih)

/-- A move that a sequence of probes has appended is one of its candidates and passes
the check test. -/
theorem probes_mem (board : Board) (side : Int) (Q : ChessMove → Prop) (a b : Gen)
    (h : Probes board side Q a b) (m : ChessMove) (hm : m ∈ b.1) :
    m ∈ a.1 ∨ (Q m ∧ PassesProbe board side m) := by
  induction h with
  | refl => exact Or.inl hm
  | step st' mv _ hq ih =>
    rcases (mem_tryMove_iff _ _ _ _ _).mp hm with h1 | ⟨h1, h2⟩
    · exact ih h1
    · subst h1; exact Or.inr ⟨hq, h2⟩

/-- The en-passant target after `execute_move_on_board`: none, or the intermediate
square of a pawn that moved two rows. -/
theorem execute_ep_cases (b : Board) (m : ChessMove) (g : Globals) :
    ((execute_move_on_board b m g).2.enPassantTargetRow = -1 ∧
      (execute_move_on_board b m g).2.enPassantTargetCol = -1) ∨
    (tolower (if m.promoteTo ≠ 0 then m.promoteTo else getCell b m.src_row m.src_col) = ch 'p' ∧
      abs (m.dst_row - m.src_row) = 2 ∧
      (execute_move_on_board b m g).2.enPassantTargetRow = Int.tdiv (m.src_row + m.dst_row) 2 ∧
      (execute_move_on_board b m g).2.enPassantTargetCol = m.src_col) := by
  unfold execute_move_on_board
  dsimp only
  by_cases hc : tolower (getCell b m.src_row m.src_col) = ch 'k' ∧
      abs (m.dst_col - m.src_col) = 2
  · rw [if_pos hc]
    left
    have hk := markKingMoved_fields (getCell b m.src_row m.src_col)
      { g with enPassantTargetRow := -1, enPassantTargetCol := -1 }
    exact ⟨hk.2.2.2.2.1, hk.2.2.2.2.2.1⟩
  · rw [if_neg hc]
    by_cases he : tolower (getCell b m.src_row m.src_col) = ch 'p' ∧
        abs (m.dst_col - m.src_col) = 1 ∧ getCell b m.dst_row m.dst_col = EMPTY_CELL
    · rw [if_pos he]
      left; exact ⟨rfl, rfl⟩
    · rw [if_neg he]
      unfold markEnPassant
      by_cases hp : tolower (if m.promoteTo ≠ 0 then m.promoteTo
          else getCell b m.src_row m.src_col) = ch 'p' ∧ abs (m.dst_row - m.src_row) = 2
      · rw [if_pos hp]
        right
        exact ⟨hp.1, hp.2, rfl, rfl⟩
      · rw [if_neg hp]
        left
        have hr := markRookMoved_enPassant
          (if m.promoteTo ≠ 0 then m.promoteTo else getCell b m.src_row m.src_col) m
          (if tolower (if m.promoteTo ≠ 0 then m.promoteTo else getCell b m.src_row m.src_col) =
              ch 'k' then
            markKingMoved (if m.promoteTo ≠ 0 then m.promoteTo else getCell b m.src_row m.src_col)
              { g with enPassantTargetRow := -1, enPassantTargetCol := -1 }
           else { g with enPassantTargetRow := -1, enPassantTargetCol := -1 })
        rw [hr.1, hr.2]
        by_cases hk2 : tolower (if m.promoteTo ≠ 0 then m.promoteTo
            else getCell b m.src_row m.src_col) = ch 'k'
        · rw [if_pos hk2]
          have hk := markKingMoved_fields
            (if m.promoteTo ≠ 0 then m.promoteTo else getCell b m.src_row m.src_col)
            { g with enPassantTargetRow := -1, enPassantTargetCol := -1 }
          exact ⟨hk.2.2.2.2.1, hk.2.2.2.2.2.1⟩
        · rw [if_neg hk2]
          exact ⟨rfl, rfl⟩

theorem tryMove_epOk (board : Board) (side : Int) (mv : ChessMove) (st : Gen)
    (h : ProbeEpOk board mv) : EpOk board (tryMove board side mv st).2 := by
  have hc := execute_ep_cases (clone_board board) mv st.2
  unfold tryMove
  dsimp only
  rcases hc with h1 | ⟨h1, h2, h3, h4⟩
  · exact Or.inl h1
  · right
    rw [h3, h4]
    rw [getCell_clone] at h1
    exact h h1 h2

/-- A sequence of probes of acceptable candidates keeps the en-passant target
acceptable. -/
theorem probes_epOk (board : Board) (side : Int) (Q : ChessMove → Prop) (a b : Gen)
    (h : Probes board side Q a b) (hQ : ∀ m, Q m → ProbeEpOk board m)
    (ha : EpOk board a.2) : EpOk board b.2 := by
  induction h with
  | refl => exact ha
  | step st' mv _ hq _ => exact tryMove_epOk board side mv st' (hQ mv hq)

/-! ## Every block of the generator is a sequence of probes -/

theorem genKnight_probes (board : Board) (side : Int) (r c : Int) (st : Gen) :
    Probes board side (fun m => m.src_row = r ∧ m.src_col = c ∧ m.promoteTo = 0) st
      (genKnight board side r c st) := by
  unfold genKnight
  apply probes_foldl
  intro s o _
  dsimp only
  apply probes_ite
  · intro _; exact Probes.refl s
  · intro _
    apply probes_ite
    · intro _; exact probes_one _ _ _ _ _ ⟨rfl, rfl, rfl⟩
    · intro _; exact Probes.refl s

theorem genRay_probes (board : Board) (side : Int) (r c dRow dCol : Int) :
    ∀ (fuel : Nat) (nr nc : Int) (st : Gen),
      Probes board side (fun m => m.src_row = r ∧ m.src_col = c ∧ m.promoteTo = 0) st
        (genRay board side r c dRow dCol fuel nr nc st) := by
  intro fuel
  induction fuel with
  | zero => intro nr nc st; exact Probes.refl st
  | succ n ih =>
    intro nr nc st
    unfold genRay
    apply probes_ite
    · intro _
      dsimp only
      apply probes_ite
      · intro _
        exact probes_trans _ _ _ _ _ _ (probes_one _ _ _ _ _ ⟨rfl, rfl, rfl⟩) (ih _ _ _)
      · intro _
        apply probes_ite
        · intro _; exact probes_one _ _ _ _ _ ⟨rfl, rfl, rfl⟩
        · intro _; exact Probes.refl st
    · intro _; exact Probes.refl st

theorem genSlider_probes (board : Board) (side : Int) (lp : Int) (r c : Int) (st : Gen) :
    Probes board side (fun m => m.src_row = r ∧ m.src_col = c ∧ m.promoteTo = 0) st
      (genSlider board side lp r c st) := by
  unfold genSlider
  apply probes_foldl
  intro s d _
  exact genRay_probes _ _ _ _ _ _ _ _ _ _

theorem genKingSteps_probes (board : Board) (side : Int) (r c : Int) (st : Gen) :
    Probes board side (fun m => m.src_row = r ∧ m.src_col = c ∧ m.promoteTo = 0) st
      (genKingSteps board side r c st) := by
  unfold genKingSteps
  apply probes_foldl
  intro s dr _
  apply probes_foldl
  intro s dc _
  dsimp only
  apply probes_ite
  · intro _; exact Probes.refl s
  · intro _
    apply probes_ite
    · intro _; exact Probes.refl s
    · intro _
      apply probes_ite
      · intro _; exact probes_one _ _ _ _ _ ⟨rfl, rfl, rfl⟩
      · intro _; exact Probes.refl s

theorem genCastling_probes (board : Board) (side : Int) (r c : Int) (st : Gen) :
    Probes board side
      (fun m => m.src_row = r ∧ m.src_col = c ∧ m.promoteTo = 0 ∧
        m.dst_row = r ∧ abs (m.dst_col - c) = 2) st
      (genCastling board side r c st) := by
  unfold genCastling
  apply probes_ite
  · rintro ⟨rfl, rfl, rfl, -⟩
    dsimp only
    apply probes_ite
    · intro _
      refine probes_trans _ _ _ _ _ _ ?_ (probes_one _ _ _ _ _ ⟨rfl, rfl, rfl, rfl, by decide⟩)
      apply probes_ite
      · intro _; exact probes_one _ _ _ _ _ ⟨rfl, rfl, rfl, rfl, by decide⟩
      · intro _; exact Probes.refl st
    · intro _
      apply probes_ite
      · intro _; exact probes_one _ _ _ _ _ ⟨rfl, rfl, rfl, rfl, by decide⟩
      · intro _; exact Probes.refl st
  · intro _
    apply probes_ite
    · rintro ⟨rfl, rfl, rfl, -⟩
      dsimp only
      apply probes_ite
      · intro _
        refine probes_trans _ _ _ _ _ _ ?_ (probes_one _ _ _ _ _ ⟨rfl, rfl, rfl, rfl, by decide⟩)
        apply probes_ite
        · intro _; exact probes_one _ _ _ _ _ ⟨rfl, rfl, rfl, rfl, by decide⟩
        · intro _; exact Probes.refl st
      · intro _
        apply probes_ite
        · intro _; exact probes_one _ _ _ _ _ ⟨rfl, rfl, rfl, rfl, by decide⟩
        · intro _; exact Probes.refl st
    · intro _; exact Probes.refl st

/-- The candidates of the advance phase of `genPawn`. -/
theorem pawnPushes_probes (board : Board) (side : Int) (r c : Int) (st : Gen) :
    Probes board side
      (fun m => m.src_row = r ∧ m.src_col = c ∧ m.dst_col = c ∧
        ((m.dst_row = r + pawnDir side ∧ m.promoteTo = pawnPromo side (r + pawnDir side)) ∨
         (m.dst_row = r + 2 * pawnDir side ∧ r = pawnStartRow side ∧ m.promoteTo = 0 ∧
           getCell board (r + pawnDir side) c = EMPTY_CELL))) st
      (pawnPushes board side r c st) := by
  unfold pawnPushes
  apply probes_ite
  · intro h1
    apply probes_ite
    · intro h2
      exact probes_trans _ _ _ _ _ _ (probes_one _ _ _ _ _ ⟨rfl, rfl, rfl, Or.inl ⟨rfl, rfl⟩⟩)
        (probes_one _ _ _ _ _ ⟨rfl, rfl, rfl, Or.inr ⟨rfl, h2.1, rfl, h2.2.1⟩⟩)
    · intro _; exact probes_one _ _ _ _ _ ⟨rfl, rfl, rfl, Or.inl ⟨rfl, rfl⟩⟩
  · intro _; exact Probes.refl st

theorem pawnCaptures_probes (board : Board) (side : Int) (r c : Int) (st : Gen) :
    Probes board side
      (fun m => m.src_row = r ∧ m.src_col = c ∧ m.dst_row = r + pawnDir side ∧
        m.promoteTo = pawnPromo side (r + pawnDir side) ∧ m.dst_col ≠ c ∧
        isInsideBoard m.dst_row m.dst_col = true ∧
        getCell board m.dst_row m.dst_col ≠ EMPTY_CELL ∧
        isEnemy side (getCell board m.dst_row m.dst_col) = true) st
      (pawnCaptures board side r c st) := by
  unfold pawnCaptures
  apply probes_foldl
  intro s dc hdc
  have hdc2 : c + dc ≠ c := by
    simp only [List.mem_cons, List.mem_singleton, List.not_mem_nil, or_false] at hdc
    omega
  unfold pawnCaptureStep
  apply probes_ite
  · intro h1
    apply probes_ite
    · intro h2; exact probes_one _ _ _ _ _ ⟨rfl, rfl, rfl, rfl, hdc2, h1.1, h1.2, h2⟩
    · intro _; exact Probes.refl s
  · intro _; exact Probes.refl s

/-- The candidates of the en-passant phase of `genPawn` end on the en-passant target,
which is an empty square (or a square off the board) when the target is acceptable. -/
theorem pawnEnPassantStep_probes (board : Board) (side : Int) (r c : Int) (s : Gen) (dc : Int)
    (hdc : dc ≠ 0) (hs : EpOk board s.2)
    (hne : ¬(s.2.enPassantTargetRow = -1 ∧ s.2.enPassantTargetCol = -1)) :
    Probes board side
      (fun m => m.src_row = r ∧ m.src_col = c ∧ m.dst_row = r + pawnDir side ∧
        m.promoteTo = pawnPromo side (r + pawnDir side) ∧ m.dst_col ≠ c ∧
        getCell board m.dst_row m.dst_col = EMPTY_CELL) s
      (pawnEnPassantStep board side r c s dc) := by
  have hdc2 : c + dc ≠ c := by omega
  unfold pawnEnPassantStep
  apply probes_ite
  · intro h
    refine probes_one _ _ _ _ _ ⟨rfl, rfl, rfl, rfl, hdc2, ?_⟩
    rcases hs with h1 | h1
    · exact absurd h1 hne
    · show getCell board (r + pawnDir side) (c + dc) = EMPTY_CELL
      rw [h.1, h.2]; exact h1
  · intro _; exact Probes.refl s

theorem abs_pawnDir (side : Int) (r : Int) : abs (r + pawnDir side - r) = 1 := by
  unfold pawnDir abs
  split_ifs <;> omega

theorem probeEpOk_of_rows (board : Board) (m : ChessMove)
    (h : abs (m.dst_row - m.src_row) ≠ 2) : ProbeEpOk board m :=
  fun _ h2 => absurd h2 h

theorem probeEpOk_of_piece (board : Board) (m : ChessMove) (hpromo : m.promoteTo = 0)
    (h : tolower (getCell board m.src_row m.src_col) ≠ ch 'p') : ProbeEpOk board m := by
  intro h1 _
  rw [hpromo] at h1
  exact absurd h1 h

theorem probeEpOk_pawn_step (board : Board) (side : Int) (m : ChessMove)
    (h : m.dst_row = m.src_row + pawnDir side) : ProbeEpOk board m := by
  apply probeEpOk_of_rows
  rw [h, abs_pawnDir]
  decide

theorem probeEpOk_pawn_double (board : Board) (side : Int) (m : ChessMove)
    (h : m.dst_row = m.src_row + 2 * pawnDir side)
    (he : getCell board (m.src_row + pawnDir side) m.src_col = EMPTY_CELL) :
    ProbeEpOk board m := by
  intro _ _
  have : Int.tdiv (m.src_row + m.dst_row) 2 = m.src_row + pawnDir side := by
    rw [h]
    have : m.src_row + (m.src_row + 2 * pawnDir side) = 2 * (m.src_row + pawnDir side) := by ring
    rw [this]
    exact Int.mul_tdiv_cancel_left _ (by decide)
  rw [this]
  exact he

theorem pawnEnPassant_probes_empty (board : Board) (side : Int) (r c : Int) (st : Gen)
    (hc : 0 ≤ c) (hs : EpOk board st.2) :
    Probes board side
      (fun m => m.src_row = r ∧ m.src_col = c ∧ m.dst_row = r + pawnDir side ∧
        m.promoteTo = pawnPromo side (r + pawnDir side) ∧ m.dst_col ≠ c ∧
        getCell board m.dst_row m.dst_col = EMPTY_CELL) st
      (pawnEnPassant board side r c st) := by
  unfold pawnEnPassant
  apply probes_ite
  · intro hg
    have h1 := pawnEnPassantStep_probes board side r c st (-1) (by decide) hs (fun h => hg.1 h.1)
    have hs1 : EpOk board (pawnEnPassantStep board side r c st (-1)).2 :=
      probes_epOk _ _ _ _ _ h1
        (fun m hm => probeEpOk_pawn_step board side m (by rw [hm.2.2.1, hm.1])) hs
    show Probes board side _ st
      (pawnEnPassantStep board side r c (pawnEnPassantStep board side r c st (-1)) 1)
    refine probes_trans _ _ _ _ _ _ h1 ?_
    by_cases hne : (pawnEnPassantStep board side r c st (-1)).2.enPassantTargetRow = -1 ∧
        (pawnEnPassantStep board side r c st (-1)).2.enPassantTargetCol = -1
    · have : pawnEnPassantStep board side r c (pawnEnPassantStep board side r c st (-1)) 1 =
          pawnEnPassantStep board side r c st (-1) := by
        generalize pawnEnPassantStep board side r c st (-1) = s at hne
        unfold pawnEnPassantStep
        rw [if_neg]
        rw [hne.2]
        intro h
        omega
      rw [this]
      exact Probes.refl _
    · exact pawnEnPassantStep_probes board side r c _ 1 (by decide) hs1 hne
  · intro _; exact Probes.refl st

theorem pawnCand_probeEpOk (board : Board) (side : Int) (r c : Int) (m : ChessMove)
    (h : PawnCand board side r c m) : ProbeEpOk board m := by
  obtain ⟨h1, h2, h3 | h3⟩ := h
  · exact probeEpOk_pawn_step board side m (by rw [h3.1, h1])
  · exact probeEpOk_pawn_double board side m (by rw [h3.1, h1]) (by rw [h1, h2]; exact h3.2.2.2)

theorem pawnEnPassant_probes (board : Board) (side : Int) (r c : Int) (st : Gen) :
    Probes board side
      (fun m => m.src_row = r ∧ m.src_col = c ∧ m.dst_row = r + pawnDir side ∧
        m.promoteTo = pawnPromo side (r + pawnDir side) ∧ m.dst_col ≠ c) st
      (pawnEnPassant board side r c st) := by
  unfold pawnEnPassant
  apply probes_ite
  · intro _
    apply probes_foldl
    intro s dc hdc
    have hdc2 : c + dc ≠ c := by
      simp only [List.mem_cons, List.mem_singleton, List.not_mem_nil, or_false] at hdc
      omega
    unfold pawnEnPassantStep
    apply probes_ite
    · intro _; exact probes_one _ _ _ _ _ ⟨rfl, rfl, rfl, rfl, hdc2⟩
    · intro _; exact Probes.refl s
  · intro _; exact Probes.refl st

theorem genPawn_probes (board : Board) (side : Int) (r c : Int) (st : Gen) :
    Probes board side (PawnCand board side r c) st (genPawn board side r c st) := by
  rw [genPawn_phases]
  have h1 : Probes board side (PawnCand board side r c) st (pawnPushes board side r c st) :=
    probes_weaken _ _ _ _ _ _ (fun m hm => ⟨hm.1, hm.2.1, hm.2.2.2⟩)
      (pawnPushes_probes board side r c st)
  have h2 : Probes board side (PawnCand board side r c) (pawnPushes board side r c st)
      (pawnCaptures board side r c (pawnPushes board side r c st)) :=
    probes_weaken _ _ _ _ _ _ (fun m hm => ⟨hm.1, hm.2.1, Or.inl ⟨hm.2.2.1, hm.2.2.2.1⟩⟩)
      (pawnCaptures_probes board side r c _)
  exact probes_trans _ _ _ _ _ _ (probes_trans _ _ _ _ _ _ h1 h2)
    (probes_weaken _ _ _ _ _ _ (fun m hm => ⟨hm.1, hm.2.1, Or.inl ⟨hm.2.2.1, hm.2.2.2.1⟩⟩)
      (pawnEnPassant_probes board side r c _))

theorem pawnPromo_eq (side : Int) (row : Int) :
    pawnPromo side row =
      if row = farRow side then (if side = SIDE_WHITE then ch 'Q' else ch 'q') else 0 := rfl

theorem pawnCand_cand (board : Board) (side : Int) (sq : Int × Int) (m : ChessMove)
    (hp : tolower (getCell board sq.1 sq.2) = ch 'p')
    (h : PawnCand board side sq.1 sq.2 m) : Cand board side sq m := by
  refine ⟨h.1, h.2.1, ?_, pawnCand_probeEpOk board side sq.1 sq.2 m h⟩
  obtain ⟨-, -, h3 | h3⟩ := h
  · rw [h3.2, pawnPromo_eq, h3.1]
    simp only [hp, true_and]
  · rw [h3.2.2.1, if_neg]
    rintro ⟨-, h4⟩
    have h5 := h3.2.1
    rw [h3.1] at h4
    unfold farRow at h4
    unfold pawnStartRow at h5
    unfold pawnDir at h4
    split_ifs at h4 h5 <;> omega

theorem plainCand_cand (board : Board) (side : Int) (sq : Int × Int) (m : ChessMove)
    (hp : tolower (getCell board sq.1 sq.2) ≠ ch 'p')
    (h : m.src_row = sq.1 ∧ m.src_col = sq.2 ∧ m.promoteTo = 0) : Cand board side sq m := by
  refine ⟨h.1, h.2.1, ?_, probeEpOk_of_piece board m h.2.2 (by rw [h.1, h.2.1]; exact hp)⟩
  rw [h.2.2, if_neg]
  exact fun h4 => hp h4.1

/-- The body of the scan is a sequence of probes of candidates of the square it
handles. -/
theorem genSquare_probes (board : Board) (side : Int) (st : Gen) (sq : Int × Int) :
    Probes board side (Cand board side sq) st (genSquare board side st sq) := by
  unfold genSquare
  dsimp only
  apply probes_ite
  · intro _; exact Probes.refl st
  · intro _
    apply probes_ite
    · intro _; exact Probes.refl st
    · intro _
      apply probes_ite
      · intro hp
        exact probes_weaken _ _ _ _ _ _ (pawnCand_cand board side sq · hp)
          (genPawn_probes board side sq.1 sq.2 st)
      · intro hp
        apply probes_ite
        · intro _
          exact probes_weaken _ _ _ _ _ _ (plainCand_cand board side sq · hp)
            (genKnight_probes board side sq.1 sq.2 st)
        · intro _
          apply probes_ite
          · intro _
            exact probes_weaken _ _ _ _ _ _ (plainCand_cand board side sq · hp)
              (genSlider_probes board side _ sq.1 sq.2 st)
          · intro _
            apply probes_ite
            · intro _
              exact probes_trans _ _ _ _ _ _
                (probes_weaken _ _ _ _ _ _ (plainCand_cand board side sq · hp)
                  (genKingSteps_probes board side sq.1 sq.2 st))
                (probes_weaken _ _ _ _ _ _
                  (fun m hm => plainCand_cand board side sq m hp ⟨hm.1, hm.2.1, hm.2.2.1⟩)
                  (genCastling_probes board side sq.1 sq.2 _))
            · intro _; exact Probes.refl st

theorem cand_probeEpOk (board : Board) (side : Int) (sq : Int × Int) (m : ChessMove)
    (h : Cand board side sq m) : ProbeEpOk board m := h.2.2.2

theorem genSquare_epOk (board : Board) (side : Int) (st : Gen) (sq : Int × Int)
    (hs : EpOk board st.2) : EpOk board (genSquare board side st sq).2 :=
  probes_epOk _ _ _ _ _ (genSquare_probes board side st sq) (cand_probeEpOk board side sq) hs

/-- The whole scan is a sequence of probes of candidates of the scanned squares. -/
theorem scan_probes (board : Board) (side : Int) (l : List (Int × Int)) (st : Gen) :
    Probes board side (fun m => ∃ sq ∈ l, Cand board side sq m) st
      (l.foldl (genSquare board side) st) := by
  induction l generalizing st with
  | nil => exact Probes.refl st
  | cons x xs ih =>
    exact probes_trans _ _ _ _ _ _
      (probes_weaken _ _ _ _ _ _ (fun m hm => ⟨x, List.mem_cons_self _ _, hm⟩)
        (genSquare_probes board side st x))
      (probes_weaken _ _ _ _ _ _
        (fun m hm => by
          obtain ⟨sq, h1, h2⟩ := hm
          exact ⟨sq, List.mem_cons_of_mem _ h1, h2⟩)
        (ih _))

/-- Every generated move starts on a square of the board, is a candidate of that
square and passes the probe. -/
theorem generateLegalMoves_cand (side : Int) (s : GameState) (m : ChessMove)
    (hm : m ∈ (generateLegalMoves side s).1) :
    isInsideBoard m.src_row m.src_col = true ∧
    Cand s.chessBoard side (m.src_row, m.src_col) m ∧ PassesProbe s.chessBoard side m := by
  have h := probes_mem _ _ _ _ _ (scan_probes s.chessBoard side allSquares ([], s.globals)) m hm
  rcases h with h | ⟨⟨sq, h1, h2⟩, h3⟩
  · exact absurd h (List.not_mem_nil m)
  · have : sq = (m.src_row, m.src_col) := Prod.ext h2.1.symm h2.2.1.symm
    subst this
    exact ⟨(mem_allSquares _).mp h1, h2, h3⟩

/-- Claim C25. Every move of the list `generateLegalMoves` writes has its promotion
field set exactly when the moving piece is a pawn and the destination row is the far
rank (row 0 for White, row 7 for Black), and a promotion field that is set holds the
queen of the mover's colour ('Q' for White, 'q' for Black). -/
theorem generateLegalMoves_promotion (side : Int) (s : GameState) (m : ChessMove)
    (hm : m ∈ (generateLegalMoves side s).1) :
    (m.promoteTo ≠ 0 ↔
      (tolower (getCell s.chessBoard m.src_row m.src_col) = ch 'p' ∧
        m.dst_row = (if side = SIDE_WHITE then 0 else 7))) ∧
    (m.promoteTo ≠ 0 → m.promoteTo = (if side = SIDE_WHITE then ch 'Q' else ch 'q')) := by
  have h := (generateLegalMoves_cand side s m hm).2.1.2.2.1
  have hq : (if side = SIDE_WHITE then ch 'Q' else ch 'q') ≠ 0 := by
    split <;> decide
  dsimp only at h
  unfold farRow at h
  by_cases hc : tolower (getCell s.chessBoard m.src_row m.src_col) = ch 'p' ∧
      m.dst_row = (if side = SIDE_WHITE then 0 else 7)
  · rw [if_pos hc] at h
    rw [h]
    exact ⟨⟨fun _ => hc, fun _ => hq⟩, fun _ => rfl⟩
  · rw [if_neg hc] at h
    exact ⟨⟨fun h1 => absurd h h1, fun h1 => absurd h1 hc⟩, fun h1 => absurd h h1⟩

set_option maxRecDepth 100000 in
theorem generateLegalMoves_promotion_witness :
    (⟨1, 0, 0, 0, ch 'Q'⟩ : ChessMove) ∈
      (generateLegalMoves SIDE_WHITE ⟨promotionBoard, initGlobals⟩).1 ∧
    ((⟨1, 0, 0, 0, ch 'Q'⟩ : ChessMove).promoteTo ≠ 0 ↔
      (tolower (getCell promotionBoard 1 0) = ch 'p' ∧
        (0 : Int) = (if SIDE_WHITE = SIDE_WHITE then 0 else 7))) ∧
    ((⟨1, 0, 0, 0, ch 'Q'⟩ : ChessMove).promoteTo ≠ 0 →
      (⟨1, 0, 0, 0, ch 'Q'⟩ : ChessMove).promoteTo =
        (if SIDE_WHITE = SIDE_WHITE then ch 'Q' else ch 'q')) :=
  ⟨by decide,
   generateLegalMoves_promotion SIDE_WHITE ⟨promotionBoard, initGlobals⟩ ⟨1, 0, 0, 0, ch 'Q'⟩
    (by decide)⟩

/-! ## The scan at the square a move starts from -/

theorem clone_board_eq (b : Board) : clone_board b = b := rfl

theorem passesProbe_iff_safe (s : GameState) (side : Int) (m : ChessMove) :
    PassesProbe s.chessBoard side m ↔ LeavesKingSafe s side m :=
  passesProbe_iff s.chessBoard side m s.globals

/-- A move is in the generated list exactly when the body of the scan appends it at the
square the move starts from.  `I` is any property of the accumulator that the body
keeps. -/
theorem mem_generate_iff (side : Int) (s : GameState) (m : ChessMove) (P : Prop)
    (I : Gen → Prop) (hI : ∀ st sq, I st → I (genSquare s.chessBoard side st sq))
    (h0 : I ([], s.globals))
    (hin : isInsideBoard m.src_row m.src_col = true)
    (h : ∀ st : Gen, I st →
      (m ∈ (genSquare s.chessBoard side st (m.src_row, m.src_col)).1 ↔ m ∈ st.1 ∨ P)) :
    m ∈ (generateLegalMoves side s).1 ↔ P := by
  have key := foldl_mem_iff I (genSquare s.chessBoard side) m
    (fun sq => sq = (m.src_row, m.src_col) ∧ P) hI allSquares
    (by
      intro st sq _ hst
      by_cases hsq : sq = (m.src_row, m.src_col)
      · subst hsq
        rw [h st hst]
        simp
      · constructor
        · intro hm
          rcases probes_mem _ _ _ _ _ (genSquare_probes s.chessBoard side st sq) m hm with
            h1 | ⟨h1, -⟩
          · exact Or.inl h1
          · exact absurd (Prod.ext h1.1.symm h1.2.1.symm) hsq
        · rintro (h1 | ⟨h1, -⟩)
          · exact probes_mono _ _ _ _ _ (genSquare_probes s.chessBoard side st sq) m h1
          · exact absurd h1 hsq)
    ([], s.globals) h0
  show m ∈ (allSquares.foldl (genSquare s.chessBoard side) ([], s.globals)).1 ↔ P
  rw [key]
  constructor
  · rintro (h1 | ⟨_, -, -, h1⟩)
    · exact absurd h1 (List.not_mem_nil m)
    · exact h1
  · intro hP
    exact Or.inr ⟨_, (mem_allSquares _).mpr hin, rfl, hP⟩

theorem genSquare_knight (board : Board) (side : Int) (st : Gen) (r c : Int)
    (hside : side = SIDE_WHITE ∨ side = SIDE_BLACK)
    (hp : getCell board r c = pieceOf side 'N' 'n') :
    genSquare board side st (r, c) = genKnight board side r c st := by
  unfold genSquare
  dsimp only
  rw [hp]
  rcases hside with rfl | rfl
  · rw [if_neg (by decide), if_neg (by decide), if_neg (by decide), if_pos (by decide)]
  · rw [if_neg (by decide), if_neg (by decide), if_neg (by decide), if_pos (by decide)]

theorem genSquare_slider (board : Board) (side : Int) (st : Gen) (r c : Int)
    (hside : side = SIDE_WHITE ∨ side = SIDE_BLACK)
    (hp : getCell board r c = pieceOf side 'B' 'b' ∨ getCell board r c = pieceOf side 'R' 'r' ∨
      getCell board r c = pieceOf side 'Q' 'q') :
    genSquare board side st (r, c) =
      genSlider board side (tolower (getCell board r c)) r c st := by
  unfold genSquare
  dsimp only
  rcases hside with rfl | rfl <;> rcases hp with hp | hp | hp <;> rw [hp] <;>
    rw [if_neg (by decide), if_neg (by decide), if_neg (by decide), if_neg (by decide),
      if_pos (by decide)]

theorem genSquare_king (board : Board) (side : Int) (st : Gen) (r c : Int)
    (hside : side = SIDE_WHITE ∨ side = SIDE_BLACK)
    (hp : getCell board r c = pieceOf side 'K' 'k') :
    genSquare board side st (r, c) =
      genCastling board side r c (genKingSteps board side r c st) := by
  unfold genSquare
  dsimp only
  rw [hp]
  rcases hside with rfl | rfl <;>
    rw [if_neg (by decide), if_neg (by decide), if_neg (by decide), if_neg (by decide),
      if_neg (by decide), if_pos (by decide)]

theorem genSquare_pawn (board : Board) (side : Int) (st : Gen) (r c : Int)
    (hside : side = SIDE_WHITE ∨ side = SIDE_BLACK)
    (hp : getCell board r c = pieceOf side 'P' 'p') :
    genSquare board side st (r, c) = genPawn board side r c st := by
  unfold genSquare
  dsimp only
  rw [hp]
  rcases hside with rfl | rfl <;>
    rw [if_neg (by decide), if_neg (by decide), if_pos (by decide)]

theorem canLand_iff (side : Int) (t : Int) :
    canLand side t = true ↔ (t = EMPTY_CELL ∨ isEnemy side t = true) := by
  unfold canLand
  simp

theorem move_eq_iff (r c : Int) (a b a' b' : Int) :
    (⟨r, c, a, b, 0⟩ : ChessMove) = ⟨r, c, a', b', 0⟩ ↔ a = a' ∧ b = b' := by
  simp

theorem mem_generate_knight (s : GameState) (side : Int) (r c r' c' : Int)
    (hside : side = SIDE_WHITE ∨ side = SIDE_BLACK) (hin : isInsideBoard r c = true)
    (hp : getCell s.chessBoard r c = pieceOf side 'N' 'n') :
    (⟨r, c, r', c', 0⟩ : ChessMove) ∈ (generateLegalMoves side s).1 ↔
      KnightReach r c r' c' ∧ CanLandOn s.chessBoard side r' c' ∧
        LeavesKingSafe s side ⟨r, c, r', c', 0⟩ := by
  refine (mem_generate_iff side s ⟨r, c, r', c', 0⟩
    (∃ o ∈ knightOffsets, isInsideBoard (r + o.1) (c + o.2) = true ∧
    canLand side (getCell s.chessBoard (r + o.1) (c + o.2)) = true ∧
    (⟨r, c, r', c', 0⟩ : ChessMove) = ⟨r, c, r + o.1, c + o.2, 0⟩ ∧
    PassesProbe s.chessBoard side ⟨r, c, r + o.1, c + o.2, 0⟩)
    (fun _ => True) (fun _ _ _ => trivial) trivial hin (fun st _ => ?_)).trans ?_
  · show _ ∈ (genSquare s.chessBoard side st (r, c)).1 ↔ _
    rw [genSquare_knight s.chessBoard side st r c hside hp]
    exact mem_genKnight_iff _ _ _ _ _ _
  · unfold KnightReach CanLandOn
    constructor
    · rintro ⟨o, ho, h1, h2, h3, h4⟩
      obtain ⟨e1, e2⟩ := (move_eq_iff _ _ _ _ _ _).mp h3
      rw [← e1, ← e2] at h1 h2 h4
      exact ⟨⟨o, ho, e1, e2⟩, ⟨h1, (canLand_iff _ _).mp h2⟩, (passesProbe_iff_safe _ _ _).mp h4⟩
    · rintro ⟨⟨o, ho, e1, e2⟩, ⟨h1, h2⟩, h4⟩
      refine ⟨o, ho, ?_, ?_, ?_, ?_⟩
      · rw [← e1, ← e2]; exact h1
      · rw [← e1, ← e2]; exact (canLand_iff _ _).mpr h2
      · rw [e1, e2]
      · rw [← e1, ← e2]; exact (passesProbe_iff_safe _ _ _).mpr h4

theorem mem_generate_slider (s : GameState) (side : Int) (r c r' c' : Int)
    (hside : side = SIDE_WHITE ∨ side = SIDE_BLACK) (hin : isInsideBoard r c = true)
    (hp : getCell s.chessBoard r c = pieceOf side 'B' 'b' ∨
      getCell s.chessBoard r c = pieceOf side 'R' 'r' ∨
      getCell s.chessBoard r c = pieceOf side 'Q' 'q') :
    (⟨r, c, r', c', 0⟩ : ChessMove) ∈ (generateLegalMoves side s).1 ↔
      RayReach s.chessBoard (sliderDirs (tolower (getCell s.chessBoard r c))) r c r' c' ∧
        CanLandOn s.chessBoard side r' c' ∧ LeavesKingSafe s side ⟨r, c, r', c', 0⟩ := by
  refine (mem_generate_iff side s ⟨r, c, r', c', 0⟩
    (∃ d ∈ sliderDirs (tolower (getCell s.chessBoard r c)), ∃ n : Nat, 1 ≤ n ∧
    (∀ j : Nat, 1 ≤ j → j < n → isInsideBoard (r + j * d.1) (c + j * d.2) = true ∧
    getCell s.chessBoard (r + j * d.1) (c + j * d.2) = EMPTY_CELL) ∧
    isInsideBoard (r + n * d.1) (c + n * d.2) = true ∧
    canLand side (getCell s.chessBoard (r + n * d.1) (c + n * d.2)) = true ∧
    (⟨r, c, r', c', 0⟩ : ChessMove) = ⟨r, c, r + n * d.1, c + n * d.2, 0⟩ ∧
    PassesProbe s.chessBoard side ⟨r, c, r + n * d.1, c + n * d.2, 0⟩)
    (fun _ => True) (fun _ _ _ => trivial) trivial hin (fun st _ => ?_)).trans ?_
  · show _ ∈ (genSquare s.chessBoard side st (r, c)).1 ↔ _
    rw [genSquare_slider s.chessBoard side st r c hside hp]
    exact mem_genSlider_iff _ _ _ _ _ _ _ (sliderDirs_unit _)
  · unfold RayReach CanLandOn
    constructor
    · rintro ⟨d, hd, n, hn, hb, h1, h2, h3, h4⟩
      obtain ⟨e1, e2⟩ := (move_eq_iff _ _ _ _ _ _).mp h3
      rw [← e1, ← e2] at h1 h2 h4
      exact ⟨⟨d, hd, n, hn, e1, e2, hb⟩, ⟨h1, (canLand_iff _ _).mp h2⟩,
        (passesProbe_iff_safe _ _ _).mp h4⟩
    · rintro ⟨⟨d, hd, n, hn, e1, e2, hb⟩, ⟨h1, h2⟩, h4⟩
      refine ⟨d, hd, n, hn, hb, ?_, ?_, ?_, ?_⟩
      · rw [← e1, ← e2]; exact h1
      · rw [← e1, ← e2]; exact (canLand_iff _ _).mpr h2
      · rw [e1, e2]
      · rw [← e1, ← e2]; exact (passesProbe_iff_safe _ _ _).mpr h4

theorem mem_generate_king (s : GameState) (side : Int) (r c r' c' : Int)
    (hside : side = SIDE_WHITE ∨ side = SIDE_BLACK) (hin : isInsideBoard r c = true)
    (hp : getCell s.chessBoard r c = pieceOf side 'K' 'k')
    (hcastle : ¬(r' = r ∧ abs (c' - c) = 2)) :
    (⟨r, c, r', c', 0⟩ : ChessMove) ∈ (generateLegalMoves side s).1 ↔
      KingReach r c r' c' ∧ CanLandOn s.chessBoard side r' c' ∧
        LeavesKingSafe s side ⟨r, c, r', c', 0⟩ := by
  refine (mem_generate_iff side s ⟨r, c, r', c', 0⟩
    (∃ dr ∈ ([-1, 0, 1] : List Int), ∃ dc ∈ ([-1, 0, 1] : List Int), ¬(dr = 0 ∧ dc = 0) ∧
    isInsideBoard (r + dr) (c + dc) = true ∧
    canLand side (getCell s.chessBoard (r + dr) (c + dc)) = true ∧
    (⟨r, c, r', c', 0⟩ : ChessMove) = ⟨r, c, r + dr, c + dc, 0⟩ ∧
    PassesProbe s.chessBoard side ⟨r, c, r + dr, c + dc, 0⟩)
    (fun _ => True) (fun _ _ _ => trivial) trivial hin (fun st _ => ?_)).trans ?_
  · show _ ∈ (genSquare s.chessBoard side st (r, c)).1 ↔ _
    rw [genSquare_king s.chessBoard side st r c hside hp]
    rw [← mem_genKingSteps_iff]
    constructor
    · intro hm
      rcases probes_mem _ _ _ _ _ (genCastling_probes s.chessBoard side r c _) _ hm with
        h1 | ⟨h1, -⟩
      · exact h1
      · exact absurd ⟨h1.2.2.2.1, h1.2.2.2.2⟩ hcastle
    · intro hm
      exact probes_mono _ _ _ _ _ (genCastling_probes s.chessBoard side r c _) _ hm
  · unfold KingReach CanLandOn
    constructor
    · rintro ⟨dr, hdr, dc, hdc, hne, h1, h2, h3, h4⟩
      obtain ⟨e1, e2⟩ := (move_eq_iff _ _ _ _ _ _).mp h3
      rw [← e1, ← e2] at h1 h2 h4
      exact ⟨⟨dr, hdr, dc, hdc, hne, e1, e2⟩, ⟨h1, (canLand_iff _ _).mp h2⟩,
        (passesProbe_iff_safe _ _ _).mp h4⟩
    · rintro ⟨⟨dr, hdr, dc, hdc, hne, e1, e2⟩, ⟨h1, h2⟩, h4⟩
      refine ⟨dr, hdr, dc, hdc, hne, ?_, ?_, ?_, ?_⟩
      · rw [← e1, ← e2]; exact h1
      · rw [← e1, ← e2]; exact (canLand_iff _ _).mpr h2
      · rw [e1, e2]
      · rw [← e1, ← e2]; exact (passesProbe_iff_safe _ _ _).mpr h4

theorem sliderDirs_of (side : Int) (hside : side = SIDE_WHITE ∨ side = SIDE_BLACK) :
    sliderDirs (tolower (pieceOf side 'B' 'b')) = diagDirs ∧
    sliderDirs (tolower (pieceOf side 'R' 'r')) = linearDirs ∧
    sliderDirs (tolower (pieceOf side 'Q' 'q')) = linearDirs ++ diagDirs := by
  rcases hside with rfl | rfl <;> exact ⟨by decide, by decide, by decide⟩

/-- Claim C23. For a knight, bishop, rook, queen or king of `side` on the square
`(r, c)`, the move to `(r', c')` with no promotion (for the king: other than a move of
two columns along its row, the shape of castling) is in the list `generateLegalMoves`
writes if and only if `(r', c')` is reachable by the rule of the piece (a knight offset;
an adjacent square for the king; along a diagonal for the bishop, a row or column for
the rook, either for the queen, with every square strictly between empty), is a
square of the board that is empty or holds an enemy piece, and applying the move
leaves the king of `side` not in check. -/
theorem generateLegalMoves_piece_moves (s : GameState) (side : Int) (r c r' c' : Int)
    (hside : side = SIDE_WHITE ∨ side = SIDE_BLACK) (hin : isInsideBoard r c = true) :
    (getCell s.chessBoard r c = pieceOf side 'N' 'n' →
      ((⟨r, c, r', c', 0⟩ : ChessMove) ∈ (generateLegalMoves side s).1 ↔
        KnightReach r c r' c' ∧ CanLandOn s.chessBoard side r' c' ∧
          LeavesKingSafe s side ⟨r, c, r', c', 0⟩)) ∧
    (getCell s.chessBoard r c = pieceOf side 'B' 'b' →
      ((⟨r, c, r', c', 0⟩ : ChessMove) ∈ (generateLegalMoves side s).1 ↔
        RayReach s.chessBoard diagDirs r c r' c' ∧ CanLandOn s.chessBoard side r' c' ∧
          LeavesKingSafe s side ⟨r, c, r', c', 0⟩)) ∧
    (getCell s.chessBoard r c = pieceOf side 'R' 'r' →
      ((⟨r, c, r', c', 0⟩ : ChessMove) ∈ (generateLegalMoves side s).1 ↔
        RayReach s.chessBoard linearDirs r c r' c' ∧ CanLandOn s.chessBoard side r' c' ∧
          LeavesKingSafe s side ⟨r, c, r', c', 0⟩)) ∧
    (getCell s.chessBoard r c = pieceOf side 'Q' 'q' →
      ((⟨r, c, r', c', 0⟩ : ChessMove) ∈ (generateLegalMoves side s).1 ↔
        RayReach s.chessBoard (linearDirs ++ diagDirs) r c r' c' ∧
          CanLandOn s.chessBoard side r' c' ∧ LeavesKingSafe s side ⟨r, c, r', c', 0⟩)) ∧
    (getCell s.chessBoard r c = pieceOf side 'K' 'k' → ¬(r' = r ∧ abs (c' - c) = 2) →
      ((⟨r, c, r', c', 0⟩ : ChessMove) ∈ (generateLegalMoves side s).1 ↔
        KingReach r c r' c' ∧ CanLandOn s.chessBoard side r' c' ∧
          LeavesKingSafe s side ⟨r, c, r', c', 0⟩)) := by
  have hd := sliderDirs_of side hside
  refine ⟨mem_generate_knight s side r c r' c' hside hin, ?_, ?_, ?_,
    mem_generate_king s side r c r' c' hside hin⟩
  · intro hp
    have h := mem_generate_slider s side r c r' c' hside hin (Or.inl hp)
    rw [hp, hd.1] at h
    exact h
  · intro hp
    have h := mem_generate_slider s side r c r' c' hside hin (Or.inr (Or.inl hp))
    rw [hp, hd.2.1] at h
    exact h
  · intro hp
    have h := mem_generate_slider s side r c r' c' hside hin (Or.inr (Or.inr hp))
    rw [hp, hd.2.2] at h
    exact h

/-! ## The pawn branch -/

theorem pawnDir_ne_zero (side : Int) : pawnDir side ≠ 0 := by
  unfold pawnDir
  split <;> decide

theorem empty_inside (b : Board) (r c : Int) (h : getCell b r c = EMPTY_CELL) :
    isInsideBoard r c = true :=
  inside_of_getCell_ne_zero b r c (by rw [h]; decide)

theorem mem_pawnPushes_iff (board : Board) (side : Int) (r c : Int) (m : ChessMove) (st : Gen) :
    m ∈ (pawnPushes board side r c st).1 ↔ m ∈ st.1 ∨
      (getCell board (r + pawnDir side) c = EMPTY_CELL ∧
        ((m = ⟨r, c, r + pawnDir side, c, pawnPromo side (r + pawnDir side)⟩ ∧
          PassesProbe board side
            ⟨r, c, r + pawnDir side, c, pawnPromo side (r + pawnDir side)⟩) ∨
         (r = pawnStartRow side ∧ getCell board (r + 2 * pawnDir side) c = EMPTY_CELL ∧
          m = ⟨r, c, r + 2 * pawnDir side, c, 0⟩ ∧
          PassesProbe board side ⟨r, c, r + 2 * pawnDir side, c, 0⟩))) := by
  unfold pawnPushes
  by_cases h1 : getCell board (r + pawnDir side) c = EMPTY_CELL
  · have hi1 := empty_inside board _ _ h1
    by_cases h2 : r = pawnStartRow side ∧ getCell board (r + 2 * pawnDir side) c = EMPTY_CELL
    · have hi2 := empty_inside board _ _ h2.2
      rw [if_pos ⟨hi1, h1⟩, if_pos ⟨h2.1, h1, hi2, h2.2⟩, mem_tryMove_iff, mem_tryMove_iff]
      constructor
      · rintro ((h | h) | h)
        · exact Or.inl h
        · exact Or.inr ⟨h1, Or.inl h⟩
        · exact Or.inr ⟨h1, Or.inr ⟨h2.1, h2.2, h⟩⟩
      · rintro (h | ⟨-, h | ⟨-, -, h⟩⟩)
        · exact Or.inl (Or.inl h)
        · exact Or.inl (Or.inr h)
        · exact Or.inr h
    · rw [if_pos ⟨hi1, h1⟩, if_neg (fun h => h2 ⟨h.1, h.2.2.2⟩), mem_tryMove_iff]
      constructor
      · rintro (h | h)
        · exact Or.inl h
        · exact Or.inr ⟨h1, Or.inl h⟩
      · rintro (h | ⟨-, h | ⟨h3, h4, -⟩⟩)
        · exact Or.inl h
        · exact Or.inr h
        · exact absurd ⟨h3, h4⟩ h2
  · rw [if_neg (fun h => h1 h.2)]
    constructor
    · exact Or.inl
    · rintro (h | ⟨h, -⟩)
      · exact h
      · exact absurd h h1

theorem mem_pawnCaptures_iff (board : Board) (side : Int) (r c : Int) (m : ChessMove)
    (st : Gen) :
    m ∈ (pawnCaptures board side r c st).1 ↔ m ∈ st.1 ∨
      ∃ dc ∈ ([-1, 1] : List Int),
        (isInsideBoard (r + pawnDir side) (c + dc) = true ∧
          getCell board (r + pawnDir side) (c + dc) ≠ EMPTY_CELL) ∧
        isEnemy side (getCell board (r + pawnDir side) (c + dc)) = true ∧
        m = ⟨r, c, r + pawnDir side, c + dc, pawnPromo side (r + pawnDir side)⟩ ∧
        PassesProbe board side
          ⟨r, c, r + pawnDir side, c + dc, pawnPromo side (r + pawnDir side)⟩ := by
  unfold pawnCaptures
  apply foldl_mem_iff (fun _ => True) _ m _ (fun _ _ _ => trivial) _ _ st trivial
  intro s dc _ _
  unfold pawnCaptureStep
  by_cases h1 : isInsideBoard (r + pawnDir side) (c + dc) = true ∧
      getCell board (r + pawnDir side) (c + dc) ≠ EMPTY_CELL
  · by_cases h2 : isEnemy side (getCell board (r + pawnDir side) (c + dc)) = true
    · rw [if_pos h1, if_pos h2, mem_tryMove_iff]
      constructor
      · rintro (h | h)
        · exact Or.inl h
        · exact Or.inr ⟨h1, h2, h⟩
      · rintro (h | ⟨-, -, h⟩)
        · exact Or.inl h
        · exact Or.inr h
    · rw [if_pos h1, if_neg h2]
      constructor
      · exact Or.inl
      · rintro (h | ⟨-, h, -⟩)
        · exact h
        · exact absurd h h2
  · rw [if_neg h1]
    constructor
    · exact Or.inl
    · rintro (h | ⟨h, -⟩)
      · exact h
      · exact absurd h h1

/-- A move along the column of the pawn is appended by the advance phase or not at
all. -/
theorem mem_genPawn_straight (board : Board) (side : Int) (r c : Int) (m : ChessMove)
    (st : Gen) (hcol : m.dst_col = c) :
    m ∈ (genPawn board side r c st).1 ↔ m ∈ (pawnPushes board side r c st).1 := by
  rw [genPawn_phases]
  constructor
  · intro hm
    rcases probes_mem _ _ _ _ _ (pawnEnPassant_probes board side r c _) m hm with h | ⟨h, -⟩
    · rcases probes_mem _ _ _ _ _ (pawnCaptures_probes board side r c _) m h with h' | ⟨h', -⟩
      · exact h'
      · exact absurd hcol h'.2.2.2.2.1
    · exact absurd hcol h.2.2.2.2
  · intro hm
    exact probes_mono _ _ _ _ _ (pawnEnPassant_probes board side r c _) m
      (probes_mono _ _ _ _ _ (pawnCaptures_probes board side r c _) m hm)

/-- A move onto an occupied square of the next row, one column aside, is appended by
the capture phase or not at all, provided the en-passant target is acceptable. -/
theorem mem_genPawn_capture (board : Board) (side : Int) (r c dc : Int) (st : Gen)
    (hc : 0 ≤ c) (hs : EpOk board st.2) (hdc : dc = -1 ∨ dc = 1)
    (hocc : isInsideBoard (r + pawnDir side) (c + dc) = true ∧
      getCell board (r + pawnDir side) (c + dc) ≠ EMPTY_CELL) :
    (⟨r, c, r + pawnDir side, c + dc, pawnPromo side (r + pawnDir side)⟩ : ChessMove) ∈
        (genPawn board side r c st).1 ↔
      (⟨r, c, r + pawnDir side, c + dc, pawnPromo side (r + pawnDir side)⟩ : ChessMove) ∈ st.1 ∨
      (isEnemy side (getCell board (r + pawnDir side) (c + dc)) = true ∧
        PassesProbe board side
          ⟨r, c, r + pawnDir side, c + dc, pawnPromo side (r + pawnDir side)⟩) := by
  have hne : c + dc ≠ c := by omega
  have h12 : Probes board side (PawnCand board side r c) st
      (pawnCaptures board side r c (pawnPushes board side r c st)) :=
    probes_trans _ _ _ _ _ _
      (probes_weaken _ _ _ _ _ _ (fun m hm => ⟨hm.1, hm.2.1, hm.2.2.2⟩)
        (pawnPushes_probes board side r c st))
      (probes_weaken _ _ _ _ _ _ (fun m hm => ⟨hm.1, hm.2.1, Or.inl ⟨hm.2.2.1, hm.2.2.2.1⟩⟩)
        (pawnCaptures_probes board side r c _))
  have hs2 := probes_epOk _ _ _ _ _ h12 (pawnCand_probeEpOk board side r c) hs
  have hep := pawnEnPassant_probes_empty board side r c _ hc hs2
  rw [genPawn_phases]
  constructor
  · intro hm
    rcases probes_mem _ _ _ _ _ hep _ hm with h | ⟨h, -⟩
    · rcases (mem_pawnCaptures_iff _ _ _ _ _ _).mp h with h' | ⟨dc', -, -, h1, h2, h3⟩
      · rcases probes_mem _ _ _ _ _ (pawnPushes_probes board side r c st) _ h' with
          h'' | ⟨h'', -⟩
        · exact Or.inl h''
        · exact absurd h''.2.2.1 hne
      · have : dc = dc' := by
          have := congrArg ChessMove.dst_col h2
          simp only at this
          omega
        subst this
        exact Or.inr ⟨h1, h3⟩
    · exact absurd h.2.2.2.2.2 hocc.2
  · rintro (hm | ⟨h1, h2⟩)
    · exact probes_mono _ _ _ _ _ hep _ (probes_mono _ _ _ _ _ h12 _ hm)
    · refine probes_mono _ _ _ _ _ hep _ ((mem_pawnCaptures_iff _ _ _ _ _ _).mpr (Or.inr ?_))
      refine ⟨dc, ?_, hocc, h1, rfl, h2⟩
      rcases hdc with rfl | rfl <;> simp

theorem mem_generate_push (s : GameState) (side : Int) (r c : Int)
    (hside : side = SIDE_WHITE ∨ side = SIDE_BLACK) (hin : isInsideBoard r c = true)
    (hp : getCell s.chessBoard r c = pieceOf side 'P' 'p') :
    (⟨r, c, r + pawnDir side, c, pawnPromo side (r + pawnDir side)⟩ : ChessMove) ∈
        (generateLegalMoves side s).1 ↔
      getCell s.chessBoard (r + pawnDir side) c = EMPTY_CELL ∧
        LeavesKingSafe s side ⟨r, c, r + pawnDir side, c, pawnPromo side (r + pawnDir side)⟩ := by
  have hd := pawnDir_ne_zero side
  rw [← passesProbe_iff_safe]
  refine mem_generate_iff side s _ _ (fun _ => True) (fun _ _ _ => trivial) trivial hin
    (fun st _ => ?_)
  show _ ∈ (genSquare s.chessBoard side st (r, c)).1 ↔ _
  rw [genSquare_pawn s.chessBoard side st r c hside hp,
    mem_genPawn_straight s.chessBoard side r c _ st rfl, mem_pawnPushes_iff]
  constructor
  · rintro (h | ⟨h1, ⟨-, h2⟩ | ⟨-, -, h2, -⟩⟩)
    · exact Or.inl h
    · exact Or.inr ⟨h1, h2⟩
    · have := congrArg ChessMove.dst_row h2
      simp only at this
      exact absurd (by omega) hd
  · rintro (h | ⟨h1, h2⟩)
    · exact Or.inl h
    · exact Or.inr ⟨h1, Or.inl ⟨rfl, h2⟩⟩

theorem mem_generate_double (s : GameState) (side : Int) (r c : Int)
    (hside : side = SIDE_WHITE ∨ side = SIDE_BLACK) (hin : isInsideBoard r c = true)
    (hp : getCell s.chessBoard r c = pieceOf side 'P' 'p') :
    (⟨r, c, r + 2 * pawnDir side, c, 0⟩ : ChessMove) ∈ (generateLegalMoves side s).1 ↔
      r = pawnStartRow side ∧ getCell s.chessBoard (r + pawnDir side) c = EMPTY_CELL ∧
        getCell s.chessBoard (r + 2 * pawnDir side) c = EMPTY_CELL ∧
        LeavesKingSafe s side ⟨r, c, r + 2 * pawnDir side, c, 0⟩ := by
  have hd := pawnDir_ne_zero side
  rw [← passesProbe_iff_safe]
  refine mem_generate_iff side s _ _ (fun _ => True) (fun _ _ _ => trivial) trivial hin
    (fun st _ => ?_)
  show _ ∈ (genSquare s.chessBoard side st (r, c)).1 ↔ _
  rw [genSquare_pawn s.chessBoard side st r c hside hp,
    mem_genPawn_straight s.chessBoard side r c _ st rfl, mem_pawnPushes_iff]
  constructor
  · rintro (h | ⟨h1, ⟨h2, -⟩ | ⟨h3, h4, -, h5⟩⟩)
    · exact Or.inl h
    · have := congrArg ChessMove.dst_row h2
      simp only at this
      exact absurd (by omega) hd
    · exact Or.inr ⟨h3, h1, h4, h5⟩
  · rintro (h | ⟨h3, h1, h4, h5⟩)
    · exact Or.inl h
    · exact Or.inr ⟨h1, Or.inr ⟨h3, h4, rfl, h5⟩⟩

theorem mem_generate_capture (s : GameState) (side : Int) (r c dc : Int)
    (hside : side = SIDE_WHITE ∨ side = SIDE_BLACK) (hin : isInsideBoard r c = true)
    (hp : getCell s.chessBoard r c = pieceOf side 'P' 'p')
    (hep : EpOk s.chessBoard s.globals) (hdc : dc = -1 ∨ dc = 1)
    (hocc : isInsideBoard (r + pawnDir side) (c + dc) = true ∧
      getCell s.chessBoard (r + pawnDir side) (c + dc) ≠ EMPTY_CELL) :
    (⟨r, c, r + pawnDir side, c + dc, pawnPromo side (r + pawnDir side)⟩ : ChessMove) ∈
        (generateLegalMoves side s).1 ↔
      isEnemy side (getCell s.chessBoard (r + pawnDir side) (c + dc)) = true ∧
        LeavesKingSafe s side
          ⟨r, c, r + pawnDir side, c + dc, pawnPromo side (r + pawnDir side)⟩ := by
  rw [← passesProbe_iff_safe]
  refine mem_generate_iff side s _ _ (fun st => EpOk s.chessBoard st.2)
    (fun st sq h => genSquare_epOk s.chessBoard side st sq h) hep hin (fun st hst => ?_)
  show _ ∈ (genSquare s.chessBoard side st (r, c)).1 ↔ _
  rw [genSquare_pawn s.chessBoard side st r c hside hp]
  exact mem_genPawn_capture s.chessBoard side r c dc st ((isInsideBoard_iff _ _).mp hin).2.2.1
    hst hdc hocc

set_option maxRecDepth 100000 in
/-- Claim C24 fails on the code as stated.  In the state `posEpOnOwnPawn` the
en-passant target is d5, where a white pawn stands.  The white pawn on e4 has d5 as
the square diagonally ahead on its left; d5 is occupied and does not hold an enemy
piece, yet the list `generateLegalMoves` writes for White contains e4d5: the
en-passant loop appends it because its destination is the target square. -/
theorem pawn_takes_own_pawn :
    getCell posEpOnOwnPawn.chessBoard 4 4 = pieceOf SIDE_WHITE 'P' 'p' ∧
    isInsideBoard (4 + pawnDir SIDE_WHITE) (4 + -1) = true ∧
    getCell posEpOnOwnPawn.chessBoard (4 + pawnDir SIDE_WHITE) (4 + -1) ≠ EMPTY_CELL ∧
    isEnemy SIDE_WHITE (getCell posEpOnOwnPawn.chessBoard (4 + pawnDir SIDE_WHITE) (4 + -1))
      = false ∧
    (⟨4, 4, 4 + pawnDir SIDE_WHITE, 4 + -1, pawnPromo SIDE_WHITE (4 + pawnDir SIDE_WHITE)⟩ :
      ChessMove) ∈ (generateLegalMoves SIDE_WHITE posEpOnOwnPawn).1 := by
  decide

/-- Claim C24, amended. For a pawn of `side` on `(r, c)` with forward direction `d`
(-1 for White, +1 for Black), the list `generateLegalMoves` writes contains the
one-square advance to `(r + d, c)` iff that square is empty, and the two-square advance
to `(r + 2d, c)` iff the pawn is on its starting row (6 for White, 1 for Black) and
both `(r + d, c)` and `(r + 2d, c)` are empty; and when the en-passant target of the
state is none or an empty square, it contains the capture onto an occupied square
`(r + d, c - 1)` or `(r + d, c + 1)` iff that square holds an enemy piece; in each case
provided applying the move leaves the king of `side` not in check. -/
theorem generateLegalMoves_pawn_moves (s : GameState) (side : Int) (r c : Int)
    (hside : side = SIDE_WHITE ∨ side = SIDE_BLACK) (hin : isInsideBoard r c = true)
    (hp : getCell s.chessBoard r c = pieceOf side 'P' 'p') :
    ((⟨r, c, r + pawnDir side, c, pawnPromo side (r + pawnDir side)⟩ : ChessMove) ∈
        (generateLegalMoves side s).1 ↔
      getCell s.chessBoard (r + pawnDir side) c = EMPTY_CELL ∧
        LeavesKingSafe s side
          ⟨r, c, r + pawnDir side, c, pawnPromo side (r + pawnDir side)⟩) ∧
    ((⟨r, c, r + 2 * pawnDir side, c, 0⟩ : ChessMove) ∈ (generateLegalMoves side s).1 ↔
      r = pawnStartRow side ∧ getCell s.chessBoard (r + pawnDir side) c = EMPTY_CELL ∧
        getCell s.chessBoard (r + 2 * pawnDir side) c = EMPTY_CELL ∧
        LeavesKingSafe s side ⟨r, c, r + 2 * pawnDir side, c, 0⟩) ∧
    (EpOk s.chessBoard s.globals → ∀ dc : Int, dc = -1 ∨ dc = 1 →
      isInsideBoard (r + pawnDir side) (c + dc) = true →
      getCell s.chessBoard (r + pawnDir side) (c + dc) ≠ EMPTY_CELL →
      ((⟨r, c, r + pawnDir side, c + dc, pawnPromo side (r + pawnDir side)⟩ : ChessMove) ∈
          (generateLegalMoves side s).1 ↔
        isEnemy side (getCell s.chessBoard (r + pawnDir side) (c + dc)) = true ∧
          LeavesKingSafe s side
            ⟨r, c, r + pawnDir side, c + dc, pawnPromo side (r + pawnDir side)⟩)) :=
  ⟨mem_generate_push s side r c hside hin hp, mem_generate_double s side r c hside hin hp,
   fun hep dc hdc h1 h2 => mem_generate_capture s side r c dc hside hin hp hep hdc ⟨h1, h2⟩⟩

set_option maxRecDepth 100000 in
theorem generateLegalMoves_pawn_moves_witness :
    EpOk posAfterE4D5.chessBoard posAfterE4D5.globals ∧
    ((⟨4, 4, 3, 3, 0⟩ : ChessMove) ∈ (generateLegalMoves SIDE_WHITE posAfterE4D5).1 ↔
      isEnemy SIDE_WHITE (getCell posAfterE4D5.chessBoard 3 3) = true ∧
        LeavesKingSafe posAfterE4D5 SIDE_WHITE ⟨4, 4, 3, 3, 0⟩) :=
  ⟨Or.inr (by decide),
   (generateLegalMoves_pawn_moves posAfterE4D5 SIDE_WHITE 4 4 (Or.inl rfl) (by decide)
      (by decide)).2.2 (Or.inr (by decide)) (-1) (Or.inl rfl) (by decide) (by decide)⟩

set_option maxRecDepth 100000 in
theorem generateLegalMoves_piece_moves_witness :
    (SIDE_WHITE = SIDE_WHITE ∨ SIDE_WHITE = SIDE_BLACK) ∧ isInsideBoard 7 6 = true ∧
    getCell initState.chessBoard 7 6 = pieceOf SIDE_WHITE 'N' 'n' ∧
    ((⟨7, 6, 5, 5, 0⟩ : ChessMove) ∈ (generateLegalMoves SIDE_WHITE initState).1 ↔
      KnightReach 7 6 5 5 ∧ CanLandOn initState.chessBoard SIDE_WHITE 5 5 ∧
        LeavesKingSafe initState SIDE_WHITE ⟨7, 6, 5, 5, 0⟩) :=
  ⟨Or.inl rfl, by decide, by decide,
   (generateLegalMoves_piece_moves initState SIDE_WHITE 7 6 5 5 (Or.inl rfl) (by decide)).1
     (by decide)⟩

/-! ## At most one king per colour -/

theorem countP_le_one_iff {α : Type} (p : α → Bool) (l : List α) (hl : l.Nodup) :
    l.countP p ≤ 1 ↔ ∀ x ∈ l, ∀ y ∈ l, p x = true → p y = true → x = y := by
  induction l with
  | nil => simp
  | cons a l ih =>
    have hn := List.nodup_cons.mp hl
    rw [List.countP_cons]
    by_cases ha : p a = true
    · simp only [ha, if_true]
      constructor
      · intro h x hx y hy px py
        have h0 : l.countP p = 0 := by omega
        rw [List.countP_eq_zero] at h0
        rcases List.mem_cons.mp hx with rfl | hx'
        · rcases List.mem_cons.mp hy with rfl | hy'
          · rfl
          · exact absurd py (h0 y hy')
        · exact absurd px (h0 x hx')
      · intro h
        have h0 : l.countP p = 0 := by
          rw [List.countP_eq_zero]
          intro y hy py
          have := h a (List.mem_cons_self _ _) y (List.mem_cons_of_mem _ hy) ha py
          subst this
          exact hn.1 hy
        omega
    · have ha' : p a = false := by simpa using ha
      simp only [ha', Bool.false_eq_true, if_false, add_zero]
      rw [ih hn.2]
      constructor
      · intro h x hx y hy px py
        rcases List.mem_cons.mp hx with rfl | hx'
        · exact absurd px ha
        · rcases List.mem_cons.mp hy with rfl | hy'
          · exact absurd py ha
          · exact h x hx' y hy' px py
      · intro h x hx y hy px py
        exact h x (List.mem_cons_of_mem _ hx) y (List.mem_cons_of_mem _ hy) px py

theorem allSquares_nodup : allSquares.Nodup := by decide

/-- At most one cell holds `k` exactly when any two cells that hold `k` are the same. -/
theorem kingCount_le_one_iff (b : Board) (k : Int) (hk : k ≠ 0) :
    kingCount b k ≤ 1 ↔
      ∀ r c r' c' : Int, getCell b r c = k → getCell b r' c' = k → r = r' ∧ c = c' := by
  unfold kingCount
  rw [countP_le_one_iff _ _ allSquares_nodup]
  constructor
  · intro h r c r' c' h1 h2
    have i1 := inside_of_getCell_ne_zero b r c (by rw [h1]; exact hk)
    have i2 := inside_of_getCell_ne_zero b r' c' (by rw [h2]; exact hk)
    have := h (r, c) ((mem_allSquares _).mpr i1) (r', c') ((mem_allSquares _).mpr i2)
      (by simpa using h1) (by simpa using h2)
    exact ⟨congrArg Prod.fst this, congrArg Prod.snd this⟩
  · intro h x _ y _ px py
    have := h x.1 x.2 y.1 y.2 (by simpa using px) (by simpa using py)
    exact Prod.ext this.1 this.2

set_option linter.unusedTactic false in
/-- Where a king symbol `k` stands after `execute_move_on_board` with a promotion value
that is absent or a queen: on the destination, moved there from the source, or on a
square other than the source and the destination where it stood before. -/
theorem execute_king_cell (b : Board) (m : ChessMove) (g : Globals) (k : Int)
    (hk0 : k ≠ EMPTY_CELL) (hk1 : k ≠ ch 'R') (hk2 : k ≠ ch 'r') (hk3 : m.promoteTo ≠ k)
    (hk4 : k ≠ 0) (r c : Int) (h : getCell (execute_move_on_board b m g).1 r c = k) :
    (r = m.dst_row ∧ c = m.dst_col ∧ getCell b m.src_row m.src_col = k) ∨
    (¬(r = m.dst_row ∧ c = m.dst_col) ∧ ¬(r = m.src_row ∧ c = m.src_col) ∧
      getCell b r c = k) := by
  unfold execute_move_on_board at h
  dsimp only at h
  split at h
  · split at h <;> simp only [getCell_setCell] at h <;> split_ifs at h <;>
      first
      | exact absurd h.symm hk0
      | exact absurd h.symm hk1
      | exact absurd h.symm hk2
      | (simp_all; done)
      | (left; simp_all; done)
      | (right; have hin := inside_of_getCell_ne_zero b r c (by rw [h]; exact hk4); simp_all; done)
  · split at h
    · split at h <;> simp only [getCell_setCell] at h <;> split_ifs at h <;>
        first
        | exact absurd h.symm hk0
        | (simp_all; done)
        | (left; simp_all; done)
        | (right; have hin := inside_of_getCell_ne_zero b r c (by rw [h]; exact hk4); simp_all; done)
    · simp only [getCell_setCell] at h
      split_ifs at h <;>
        first
        | exact absurd h.symm hk0
        | exact absurd h hk3
        | (simp_all; done)
        | (left; simp_all; done)
        | (right; have hin := inside_of_getCell_ne_zero b r c (by rw [h]; exact hk4); simp_all; done)

theorem execute_kingCount (b : Board) (m : ChessMove) (g : Globals) (k : Int)
    (hk0 : k ≠ EMPTY_CELL) (hk1 : k ≠ ch 'R') (hk2 : k ≠ ch 'r') (hk3 : m.promoteTo ≠ k)
    (hk4 : k ≠ 0) (h : kingCount b k ≤ 1) :
    kingCount (execute_move_on_board b m g).1 k ≤ 1 := by
  rw [kingCount_le_one_iff _ _ hk4] at h ⊢
  intro r c r' c' h1 h2
  rcases execute_king_cell b m g k hk0 hk1 hk2 hk3 hk4 r c h1 with
    ⟨a1, a2, a3⟩ | ⟨a1, a2, a3⟩ <;>
  rcases execute_king_cell b m g k hk0 hk1 hk2 hk3 hk4 r' c' h2 with
    ⟨b1, b2, b3⟩ | ⟨b1, b2, b3⟩
  · exact ⟨a1.trans b1.symm, a2.trans b2.symm⟩
  · exact absurd (h r' c' m.src_row m.src_col b3 a3) b2
  · exact absurd (h r c m.src_row m.src_col a3 b3) a2
  · exact h r c r' c' a3 b3

/-- Applying a move whose promotion value is absent or a queen keeps at most one king
per colour. -/
theorem execute_kingsOk (b : Board) (m : ChessMove) (g : Globals) (hm : PromoOk m)
    (h : KingsOk b) : KingsOk (execute_move_on_board b m g).1 := by
  have hK : m.promoteTo ≠ ch 'K' := by
    rcases hm with h1 | h1 | h1 <;> rw [h1] <;> decide
  have hk : m.promoteTo ≠ ch 'k' := by
    rcases hm with h1 | h1 | h1 <;> rw [h1] <;> decide
  exact ⟨execute_kingCount b m g _ (by decide) (by decide) (by decide) hK (by decide) h.1,
    execute_kingCount b m g _ (by decide) (by decide) (by decide) hk (by decide) h.2⟩

/-- The positions the search visits below a position with at most one king per colour
have at most one king per colour. -/
theorem child_kingsOk (side : Int) (s : GameState) (mv : ChessMove)
    (hmv : mv ∈ (generateLegalMoves side s).1) (h : KingsOk s.chessBoard) :
    KingsOk (execute_live (generateLegalMoves side s).2 mv).chessBoard :=
  execute_kingsOk s.chessBoard mv _ (generateLegalMoves_promoOk s side mv hmv) h

theorem materialOf_upper (cell : Int) :
    materialOf cell ≤ (if cell = ch 'K' then 20000 else 0) + 900 := by
  by_cases hP : cell = ch 'P'; · subst hP; decide
  by_cases hN : cell = ch 'N'; · subst hN; decide
  by_cases hB : cell = ch 'B'; · subst hB; decide
  by_cases hR : cell = ch 'R'; · subst hR; decide
  by_cases hQ : cell = ch 'Q'; · subst hQ; decide
  by_cases hK : cell = ch 'K'; · subst hK; decide
  by_cases hp : cell = ch 'p'; · subst hp; decide
  by_cases hn : cell = ch 'n'; · subst hn; decide
  by_cases hb : cell = ch 'b'; · subst hb; decide
  by_cases hr : cell = ch 'r'; · subst hr; decide
  by_cases hq : cell = ch 'q'; · subst hq; decide
  by_cases hk : cell = ch 'k'; · subst hk; decide
  have hm : materialOf cell = 0 := by
    unfold materialOf
    simp only [hP, hN, hB, hR, hQ, hK, hp, hn, hb, hr, hq, hk, if_false]
  rw [hm, if_neg hK]
  decide

theorem materialOf_lower (cell : Int) :
    -((if cell = ch 'k' then 20000 else 0) + 900) ≤ materialOf cell := by
  by_cases hP : cell = ch 'P'; · subst hP; decide
  by_cases hN : cell = ch 'N'; · subst hN; decide
  by_cases hB : cell = ch 'B'; · subst hB; decide
  by_cases hR : cell = ch 'R'; · subst hR; decide
  by_cases hQ : cell = ch 'Q'; · subst hQ; decide
  by_cases hK : cell = ch 'K'; · subst hK; decide
  by_cases hp : cell = ch 'p'; · subst hp; decide
  by_cases hn : cell = ch 'n'; · subst hn; decide
  by_cases hb : cell = ch 'b'; · subst hb; decide
  by_cases hr : cell = ch 'r'; · subst hr; decide
  by_cases hq : cell = ch 'q'; · subst hq; decide
  by_cases hk : cell = ch 'k'; · subst hk; decide
  have hm : materialOf cell = 0 := by
    unfold materialOf
    simp only [hP, hN, hB, hR, hQ, hK, hp, hn, hb, hr, hq, hk, if_false]
  rw [hm, if_neg hk]
  decide

theorem material_list_upper (b : Board) (l : List (Int × Int)) :
    (l.map (fun sq => materialOf (getCell b sq.1 sq.2))).sum ≤
      20000 * (l.countP (fun sq => decide (getCell b sq.1 sq.2 = ch 'K')) : Int) +
        900 * (l.length : Int) := by
  induction l with
  | nil => simp
  | cons x xs ih =>
    have h := materialOf_upper (getCell b x.1 x.2)
    rw [List.map_cons, List.sum_cons, List.countP_cons, List.length_cons]
    by_cases hx : getCell b x.1 x.2 = ch 'K'
    · simp only [hx, decide_True, if_true] at h ⊢
      push_cast
      omega
    · simp only [hx, decide_False, if_false] at h ⊢
      push_cast
      omega

theorem material_list_lower (b : Board) (l : List (Int × Int)) :
    -(20000 * (l.countP (fun sq => decide (getCell b sq.1 sq.2 = ch 'k')) : Int) +
        900 * (l.length : Int)) ≤
      (l.map (fun sq => materialOf (getCell b sq.1 sq.2))).sum := by
  induction l with
  | nil => simp
  | cons x xs ih =>
    have h := materialOf_lower (getCell b x.1 x.2)
    rw [List.map_cons, List.sum_cons, List.countP_cons, List.length_cons]
    by_cases hx : getCell b x.1 x.2 = ch 'k'
    · simp only [hx, decide_True, if_true] at h ⊢
      push_cast
      omega
    · simp only [hx, decide_False, if_false] at h ⊢
      push_cast
      omega

/-- With at most one king per colour the material evaluation lies within 77600
(one king and 64 times the value of a queen). -/
theorem evaluate_board_bound (b : Board) (h : KingsOk b) :
    -77600 ≤ evaluate_board b ∧ evaluate_board b ≤ 77600 := by
  rw [evaluate_board_eq]
  unfold materialSum
  rw [← sum_allSquares b materialOf]
  have hu := material_list_upper b allSquares
  have hl := material_list_lower b allSquares
  have hlen : (allSquares.length : Int) = 64 := by decide
  have h1 : (allSquares.countP (fun sq => decide (getCell b sq.1 sq.2 = ch 'K')) : Int) ≤ 1 := by
    have := h.1
    unfold kingCount at this
    exact_mod_cast this
  have h2 : (allSquares.countP (fun sq => decide (getCell b sq.1 sq.2 = ch 'k')) : Int) ≤ 1 := by
    have := h.2
    unfold kingCount at this
    exact_mod_cast this
  rw [hlen] at hu hl
  constructor <;> omega

theorem foldl_max_ge (v : ChessMove → Int) (l : List ChessMove) :
    ∀ W : Int, W ≤ l.foldl (fun acc mv => max acc (v mv)) W := by
  induction l with
  | nil => intro W; exact le_refl W
  | cons x xs ih =>
    intro W
    exact le_trans (le_max_left W (v x)) (ih (max W (v x)))

theorem foldl_max_bounds (v : ChessMove → Int) (lo hi : Int) (l : List ChessMove)
    (h : ∀ mv ∈ l, lo ≤ v mv ∧ v mv ≤ hi) :
    ∀ W : Int, lo ≤ W → W ≤ hi →
      lo ≤ l.foldl (fun acc mv => max acc (v mv)) W ∧
      l.foldl (fun acc mv => max acc (v mv)) W ≤ hi := by
  induction l with
  | nil => intro W h1 h2; exact ⟨h1, h2⟩
  | cons x xs ih =>
    intro W h1 h2
    have hx := h x (List.mem_cons_self _ _)
    exact ih (fun mv hmv => h mv (List.mem_cons_of_mem _ hmv)) (max W (v x))
      (le_trans h1 (le_max_left _ _)) (max_le h2 hx.2)

/-- With at most one king per colour every negamax value lies within 77600. -/
theorem negamax_bound (depth : Nat) :
    ∀ (side : Int) (s : GameState), KingsOk s.chessBoard →
      -77600 ≤ negamax depth side s ∧ negamax depth side s ≤ 77600 := by
  induction depth with
  | zero =>
    intro side s h
    exact evaluate_board_bound s.chessBoard h
  | succ d ih =>
    intro side s h
    unfold negamax
    dsimp only
    have hch := fun mv hmv => ih (opponentOf side) _ (child_kingsOk side s mv hmv h)
    generalize (generateLegalMoves side s).1 = moves at hch
    cases moves with
    | nil =>
      dsimp only
      split <;> constructor <;> omega
    | cons m rest =>
      dsimp only
      have h0 := hch m (List.mem_cons_self _ _)
      exact foldl_max_bounds
        (fun mv => -(negamax d (opponentOf side)
          (execute_live (generateLegalMoves side s).2 mv))) (-77600) 77600 rest
        (fun mv hmv => by
          have := hch mv (List.mem_cons_of_mem _ hmv)
          dsimp only
          constructor <;> omega) _ (by omega) (by omega)

/-! ## The alpha-beta window -/

/-- The fail-soft relation between the score `r` returned for the window `(a, b)` and
the exact value `v`: a score at or below `a` is an upper bound of `v`, a score at or
above `b` is a lower bound, and a score strictly inside the window is `v`. -/
theorem minimaxLoop_window (child : Int → Int → Int → GameState → Int × GameState)
    (cv : ChessMove → Int) (side : Int) (a0 beta : Int) (s : GameState)
    (ha0 : -1000000 ≤ a0) (hab : a0 < beta) (hbeta : beta ≤ 1000000)
    (moves : List ChessMove) :
    (∀ mv ∈ moves, ∀ a b : Int, -1000000 ≤ a → a < b → b ≤ 1000000 →
      ((child (opponentOf side) a b (execute_live s mv)).1 ≤ a →
        cv mv ≤ (child (opponentOf side) a b (execute_live s mv)).1) ∧
      (a < (child (opponentOf side) a b (execute_live s mv)).1 →
        (child (opponentOf side) a b (execute_live s mv)).1 < b →
        cv mv = (child (opponentOf side) a b (execute_live s mv)).1) ∧
      (b ≤ (child (opponentOf side) a b (execute_live s mv)).1 →
        (child (opponentOf side) a b (execute_live s mv)).1 ≤ cv mv)) →
    ∀ ac best W : Int, a0 ≤ ac → best ≤ ac → (ac = a0 ∨ ac = best) → best < beta →
      (best ≤ a0 → W ≤ best) → (a0 < best → W = best) →
      ((minimaxLoop child side moves ac beta best s).1 ≤ a0 →
        moves.foldl (fun acc mv => max acc (-(cv mv))) W ≤
          (minimaxLoop child side moves ac beta best s).1) ∧
      (a0 < (minimaxLoop child side moves ac beta best s).1 →
        (minimaxLoop child side moves ac beta best s).1 < beta →
        moves.foldl (fun acc mv => max acc (-(cv mv))) W =
          (minimaxLoop child side moves ac beta best s).1) ∧
      (beta ≤ (minimaxLoop child side moves ac beta best s).1 →
        (minimaxLoop child side moves ac beta best s).1 ≤
          moves.foldl (fun acc mv => max acc (-(cv mv))) W) := by
  induction moves with
  | nil =>
    intro _ ac best W _ _ _ hb h1 h2
    show (best ≤ a0 → W ≤ best) ∧ (a0 < best → best < beta → W = best) ∧
      (beta ≤ best → best ≤ W)
    exact ⟨h1, fun h _ => h2 h, fun h => absurd h (by omega)⟩
  | cons mv rest ih =>
    intro hchild ac best W hac1 hac2 hac3 hb h1 h2
    have hc := hchild mv (List.mem_cons_self _ _) (-beta) (-ac) (by omega) (by omega) (by omega)
    have ih' := ih (fun m hm => hchild m (List.mem_cons_of_mem _ hm))
    have hge := foldl_max_ge (fun mv => -(cv mv)) rest (max W (-(cv mv)))
    unfold minimaxLoop
    dsimp only
    rw [restore_save]
    rw [List.foldl_cons]
    generalize (child (opponentOf side) (-beta) (-ac) (execute_live s mv)).1 = r at hc
    obtain ⟨hc1, hc2, hc3⟩ := hc
    have hW1 : W ≤ max W (-(cv mv)) := le_max_left _ _
    have hW2 : -(cv mv) ≤ max W (-(cv mv)) := le_max_right _ _
    have hW3 : max W (-(cv mv)) = W ∨ max W (-(cv mv)) = -(cv mv) := by
      rcases le_total W (-(cv mv)) with h | h
      · exact Or.inr (max_eq_right h)
      · exact Or.inl (max_eq_left h)
    by_cases hs : -r > best
    · rw [if_pos hs]
      by_cases hs2 : -r > ac
      · rw [if_pos hs2]
        by_cases hcut : -r ≥ beta
        · rw [if_pos hcut]
          dsimp only
          have := hc1 (by omega)
          refine ⟨fun h => absurd h (by omega), fun _ h => absurd h (by omega), fun _ => ?_⟩
          omega
        · rw [if_neg hcut]
          have hv := hc2 (by omega) (by omega)
          exact ih' (-r) (-r) (max W (-(cv mv))) (by omega) (le_refl _) (Or.inr rfl) (by omega)
            (fun h => absurd h (by omega))
            (fun _ => by
              have hWb : W ≤ best := by
                by_cases hb0 : best ≤ a0
                · exact h1 hb0
                · exact le_of_eq (h2 (by omega))
              rcases hW3 with h | h <;> omega)
      · rw [if_neg hs2]
        have hv := hc3 (by omega)
        rw [if_neg (by omega)]
        exact ih' ac (-r) (max W (-(cv mv))) hac1 (by omega) (Or.inl (by omega)) (by omega)
          (fun hle => by
            have := h1 (by omega)
            rcases hW3 with h | h <;> omega)
          (fun h => absurd h (by omega))
    · rw [if_neg hs]
      have hv := hc3 (by omega)
      by_cases hs2 : best > ac
      · exact absurd hs2 (by omega)
      · rw [if_neg hs2, if_neg (by omega)]
        exact ih' ac best (max W (-(cv mv))) hac1 hac2 hac3 hb
          (fun hle => by
            have := h1 hle
            rcases hW3 with h | h <;> omega)
          (fun hlt => by
            have := h2 hlt
            rcases hW3 with h | h <;> omega)

/-- The score `minimax` returns for a window `(a, b)` inside the sentinels stands in the
fail-soft relation to the negamax value. -/
theorem minimax_window (depth : Nat) :
    ∀ (side a b : Int) (s : GameState), KingsOk s.chessBoard →
      -1000000 ≤ a → a < b → b ≤ 1000000 →
      ((minimax depth side a b s).1 ≤ a → negamax depth side s ≤ (minimax depth side a b s).1) ∧
      (a < (minimax depth side a b s).1 → (minimax depth side a b s).1 < b →
        negamax depth side s = (minimax depth side a b s).1) ∧
      (b ≤ (minimax depth side a b s).1 →
        (minimax depth side a b s).1 ≤ negamax depth side s) := by
  induction depth with
  | zero =>
    intro side a b s _ _ _ _
    show (evaluate_board s.chessBoard ≤ a → evaluate_board s.chessBoard ≤ _) ∧
      (_ → _ → evaluate_board s.chessBoard = evaluate_board s.chessBoard) ∧
      (_ → evaluate_board s.chessBoard ≤ evaluate_board s.chessBoard)
    exact ⟨fun _ => le_refl _, fun _ _ => rfl, fun _ => le_refl _⟩
  | succ d ih =>
    intro side a b s hk ha hab hb
    have hkc := fun mv hmv => child_kingsOk side s mv hmv hk
    have hchild : ∀ mv ∈ (generateLegalMoves side s).1, ∀ a' b' : Int,
        -1000000 ≤ a' → a' < b' → b' ≤ 1000000 → _ :=
      fun mv hmv a' b' h1 h2 h3 =>
        ih (opponentOf side) a' b' (execute_live (generateLegalMoves side s).2 mv)
          (hkc mv hmv) h1 h2 h3
    have hbound := fun mv hmv =>
      negamax_bound d (opponentOf side) (execute_live (generateLegalMoves side s).2 mv)
        (hkc mv hmv)
    clear hkc
    unfold minimax negamax
    dsimp only
    generalize generateLegalMoves side s = gen at hchild hbound
    obtain ⟨moves, s'⟩ := gen
    cases moves with
    | nil =>
      dsimp only
      rw [if_pos (by rfl)]
      exact ⟨fun _ => le_refl _, fun _ _ => rfl, fun _ => le_refl _⟩
    | cons m rest =>
      dsimp only
      rw [if_neg (by simp)]
      have hm := hbound m (List.mem_cons_self _ _)
      have key := minimaxLoop_window (minimax d)
        (fun mv => negamax d (opponentOf side) (execute_live s' mv)) side a b s' ha hab hb
        (m :: rest) hchild a (-1000000) (-1000000) (le_refl _) ha (Or.inl rfl) (by omega)
        (fun _ => le_refl _) (fun h => absurd h (by omega))
      rw [List.foldl_cons] at key
      have hmax : max (-1000000) (-(negamax d (opponentOf side) (execute_live s' m))) =
          -(negamax d (opponentOf side) (execute_live s' m)) := by
        dsimp only at hm
        exact max_eq_right (by omega)
      dsimp only at key
      rw [hmax] at key
      exact key

/-- Claim C21. For every position with at most one king per colour, every side and
every depth, `minimax(depth, side, -1000000, 1000000)` returns the score of plain
negamax, the same recursion without the window and the `alpha >= beta` cutoff: the
material evaluation at depth 0, the terminal score when there are no legal moves, and
otherwise the maximum over all legal moves of the negated value of the child
position. -/
theorem minimax_eq_negamax (depth : Nat) (side : Int) (s : GameState)
    (h : KingsOk s.chessBoard) :
    (minimax depth side (-1000000) 1000000 s).1 = negamax depth side s := by
  obtain ⟨h1, h2, h3⟩ :=
    minimax_window depth side (-1000000) 1000000 s h (le_refl _) (by decide) (le_refl _)
  have hb := negamax_bound depth side s h
  by_cases c1 : (minimax depth side (-1000000) 1000000 s).1 ≤ -1000000
  · have := h1 c1
    omega
  · by_cases c2 : 1000000 ≤ (minimax depth side (-1000000) 1000000 s).1
    · have := h3 c2
      omega
    · exact (h2 (by omega) (by omega)).symm

theorem minimax_eq_negamax_witness :
    KingsOk posAfterE4.chessBoard ∧
    (minimax 3 SIDE_BLACK (-1000000) 1000000 posAfterE4).1 = negamax 3 SIDE_BLACK posAfterE4 :=
  ⟨⟨by decide, by decide⟩, minimax_eq_negamax 3 SIDE_BLACK posAfterE4 ⟨by decide, by decide⟩⟩

/-- With at most one king per colour the score `minimax` returns for the full window
lies within 77600. -/
theorem minimax_score_bound (depth : Nat) (side : Int) (s : GameState)
    (h : KingsOk s.chessBoard) :
    -77600 ≤ (minimax depth side (-1000000) 1000000 s).1 ∧
    (minimax depth side (-1000000) 1000000 s).1 ≤ 77600 := by
  obtain ⟨h1, h2, h3⟩ :=
    minimax_window depth side (-1000000) 1000000 s h (le_refl _) (by decide) (le_refl _)
  have hb := negamax_bound depth side s h
  by_cases c1 : (minimax depth side (-1000000) 1000000 s).1 ≤ -1000000
  · have := h1 c1
    omega
  · by_cases c2 : 1000000 ≤ (minimax depth side (-1000000) 1000000 s).1
    · have := h3 c2
      omega
    · have := h2 (by omega) (by omega)
      omega

/-- Claim C18. For every position with at most one king per colour (the invariant of
a position), every side and every `depth ≥ 1` such that `generateLegalMoves(side)` is
non-empty, `choose_best_move(side, depth)` returns a move of that list whose score
`moveScore`, the negated result of `minimax(depth - 1, opponent, -1000000, 1000000)` on
the position after the move, is the maximum over the whole list, and it is the first
such move in generation order: every move before it scores strictly less, every move
after it scores at most as much. -/
theorem choose_best_move_first_best (s : GameState) (side : Int) (depth : Nat)
    (hd : 1 ≤ depth) (hk : KingsOk s.chessBoard)
    (hne : (generateLegalMoves side s).1 ≠ []) :
    ∃ pre post,
      (generateLegalMoves side s).1 = pre ++ (choose_best_move side depth s).1 :: post ∧
      (∀ m ∈ pre, moveScore depth side (generateLegalMoves side s).2 m <
        moveScore depth side (generateLegalMoves side s).2 (choose_best_move side depth s).1) ∧
      (∀ m ∈ post, moveScore depth side (generateLegalMoves side s).2 m ≤
        moveScore depth side (generateLegalMoves side s).2 (choose_best_move side depth s).1) := by
  obtain ⟨m, hm⟩ := List.exists_mem_of_ne_nil _ hne
  have hb := minimax_score_bound (depth - 1) (opponentOf side)
    (execute_live (generateLegalMoves side s).2 m) (child_kingsOk side s m hm hk)
  exact choose_best_move_first_max s side depth hd ⟨m, hm, by unfold moveScore; omega⟩

set_option maxRecDepth 100000 in
/-- Claim C18 at a concrete input: Black at depth 1 after 1. e2e4 d7d5 2. e4d5. -/
theorem choose_best_move_first_best_witness :
    KingsOk posAfterExd5.chessBoard ∧
    (generateLegalMoves SIDE_BLACK posAfterExd5).1 ≠ [] ∧
    ∃ pre post,
      (generateLegalMoves SIDE_BLACK posAfterExd5).1 =
        pre ++ (choose_best_move SIDE_BLACK 1 posAfterExd5).1 :: post ∧
      (∀ m ∈ pre, moveScore 1 SIDE_BLACK (generateLegalMoves SIDE_BLACK posAfterExd5).2 m <
        moveScore 1 SIDE_BLACK (generateLegalMoves SIDE_BLACK posAfterExd5).2
          (choose_best_move SIDE_BLACK 1 posAfterExd5).1) ∧
      (∀ m ∈ post, moveScore 1 SIDE_BLACK (generateLegalMoves SIDE_BLACK posAfterExd5).2 m ≤
        moveScore 1 SIDE_BLACK (generateLegalMoves SIDE_BLACK posAfterExd5).2
          (choose_best_move SIDE_BLACK 1 posAfterExd5).1) :=
  ⟨⟨by decide, by decide⟩, by decide,
   choose_best_move_first_best posAfterExd5 SIDE_BLACK 1 (by decide) ⟨by decide, by decide⟩
     (by decide)⟩

/-! ## Castling and the probes of the king's steps -/

end Chess
